import Mathlib

/-!
The `dag` package of go-pipeline, `dag/dag.go` and `dag/dagrun.go`.

A shallow embedding of the run engine of the `dag` package: the per-task
state machine `TaskRun.run`, its vote aggregation over the signals received
from the predecessors, `TaskRun.executeAndSignal`, which calls the task's
`execFunc` and fans the result out over the outbound endpoints, and the two
passes of `Run` that build the runners and wire their endpoints; of the
functions of dag.go that build a graph (`New`, `MakeTask`, `SetUpstream`,
`SetDownstream`); and of the concurrent part of `Run`, the runners started as
goroutines and the wait on the completion channel.

Conventions of the embedding.

* Pointers (`*Task`, `*Dag`) are addresses; a `Store` maps every task address
  to the `Task` record it points to.
* A Go `error` is its message; `nil` is `none`.
* The goroutines `go func(c chan<- TaskRunState){ c <- v }(out)` started by a
  runner are recorded as the list of pairs `(out, v)`, in the order of the loop
  that starts them.
* The values a non-root runner receives on its inbound endpoints
  (`sigs[ix] = <-tr.ins[ix]`, dagrun.go 40-48) are an explicit argument `sigs`.
* A runtime panic (index out of range) is an explicit way for a call to end.
* The functions of dag.go act on a memory `Heap` of tasks and Dags, in which
  `MakeTask` allocates the next free task address.
* The concurrent part of `Run` is a step relation on `RunState`: in one step a
  runner receives one value on each of its inbound endpoints and runs to its
  end, or `Run` receives one value on the completion channel. The sends a
  runner starts stay pending until they are received, as the goroutines that
  carry them do.
-/

namespace Pipeline

/-- The `TaskRunState` constants of dagrun.go 8-20. -/
inductive TaskRunState where
  | WAIT
  | RUN
  | SUCCESS
  | FAIL
  | SKIP
  | RESIGN
  | STOPPED
  | ERROR
  deriving DecidableEq, Repr

/-- The integer value of each `TaskRunState` constant. -/
def TaskRunState.val : TaskRunState → Int
  | .WAIT => 0
  | .RUN => 1
  | .SUCCESS => 2
  | .FAIL => 3
  | .SKIP => 4
  | .RESIGN => 5
  | .STOPPED => 6
  | .ERROR => 7

/-- Address of a `Task` (`*Task`). -/
abbrev TaskPtr := Nat

/-- Address of a `Dag` (`*Dag`). -/
abbrev DagPtr := Nat

/-- The type `ExecFunc` of dag.go 21: from the context to
`(taskId, success, err)`. -/
abbrev ExecFunc (Ctx : Type) := Ctx → String × Bool × Option String

/-- The struct `Task` of dag.go 25-31. The field `BestEffort` is read by
`TaskRun.run` (dagrun.go 73-88) as `tr.task.BestEffort`; dag.go does not
declare it, so it is added here with the type its use requires. -/
structure Task (Ctx : Type) where
  owner : DagPtr
  ID : String
  execFunc : ExecFunc Ctx
  next : List TaskPtr
  prior : List TaskPtr
  BestEffort : Bool

/-- The memory holding the tasks: what each `*Task` points to. -/
abbrev Store (Ctx : Type) := TaskPtr → Task Ctx

/-- A channel endpoint: `none` is the nil channel, `some n` the channel made
by the `n`-th `make(chan TaskRunState)`. -/
abbrev Chan := Option Nat

/-- The struct `TaskRun` of dagrun.go 23-28. -/
structure TaskRun where
  task : TaskPtr
  ins : List Chan
  outs : List Chan
  state : TaskRunState
  deriving DecidableEq, Repr

/-- How a call of `run` or `executeAndSignal` ends: it returns an `error`
(`none` for `nil`), or the goroutine panics. -/
inductive Exit where
  | returned (err : Option String)
  | panicked
  deriving DecidableEq, Repr

/-- What a call of `run` or `executeAndSignal` has done when it ends: the
runner with its new state, the contexts `execFunc` was called with, the sends
it started (endpoint and value, in loop order) and how it ended. -/
structure Outcome (Ctx : Type) where
  tr : TaskRun
  calls : List Ctx
  sent : List (Chan × TaskRunState)
  exit : Exit

/-- A Go `map[TaskRunState]int`; `none` marks an absent key. -/
abbrev SigCount := TaskRunState → Option Nat

/-- The map `make(map[TaskRunState]int)`. -/
def SigCount.empty : SigCount := fun _ => none

/-- Reading `m[s]`: the zero value when the key is absent. -/
def SigCount.get (m : SigCount) (s : TaskRunState) : Nat := (m s).getD 0

/-- The assignment `m[s] = v`. -/
def SigCount.set (m : SigCount) (s : TaskRunState) (v : Nat) : SigCount :=
  fun k => if k = s then some v else m k

/-- The counting loop of `run`, dagrun.go 52-60. -/
def sig_count (sigs : List TaskRunState) : SigCount :=
  sigs.foldl
    (fun m s =>
      match m s with
      | some _ => m.set s (m.get s + 1)
      | none => m.set s 1)
    SigCount.empty

/-- The loop `for _, out := range tr.outs { go func(c){ c <- v }(out) }`. -/
def broadcast (outs : List Chan) (v : TaskRunState) : List (Chan × TaskRunState) :=
  outs.map (fun out => (out, v))

/-- The branching loop of `executeAndSignal`, dagrun.go 119-125, from index `i`
on: the sends started, and whether `tr.task.next[i]` went out of range. -/
def signalBranch {Ctx : Type} (store : Store Ctx) (next : List TaskPtr) (nextID : String)
    (state : TaskRunState) : Nat → List Chan → List (Chan × TaskRunState) × Bool
  | _, [] => ([], false)
  | i, out :: rest =>
    match next[i]? with
    | none => ([], true)
    | some p =>
      let r := signalBranch store next nextID state (i + 1) rest
      ((out, if nextID = (store p).ID then state else TaskRunState.SKIP) :: r.1, r.2)

/-- The error value built at dagrun.go 128-131. -/
def execError (id : String) : Option String → Option String
  | some e => some ("Error executing task " ++ id ++ " : " ++ e)
  | none => none

/-- The method `executeAndSignal` of dagrun.go 102-132. -/
def TaskRun.executeAndSignal {Ctx : Type} (store : Store Ctx) (tr : TaskRun) (ctx : Ctx) :
    Outcome Ctx :=
  let tr := { tr with state := TaskRunState.RUN }
  let res := (store tr.task).execFunc ctx
  let nextID := res.1
  let ok := res.2.1
  let err := res.2.2
  let tr := if ok then { tr with state := TaskRunState.SUCCESS }
            else { tr with state := TaskRunState.FAIL }
  if nextID = "" then
    { tr := tr, calls := [ctx], sent := broadcast tr.outs tr.state,
      exit := Exit.returned (execError (store tr.task).ID err) }
  else
    let r := signalBranch store (store tr.task).next nextID tr.state 0 tr.outs
    if r.2 then
      { tr := tr, calls := [ctx], sent := r.1, exit := Exit.panicked }
    else
      { tr := tr, calls := [ctx], sent := r.1,
        exit := Exit.returned (execError (store tr.task).ID err) }

/-- The method `run` of dagrun.go 30-99; `sigs` are the values received on
`tr.ins`, one for each inbound endpoint. -/
def TaskRun.run {Ctx : Type} (store : Store Ctx) (tr : TaskRun) (sigs : List TaskRunState)
    (ctx : Ctx) : Outcome Ctx :=
  if tr.ins.length = 0 then
    tr.executeAndSignal store ctx
  else
    let sc := sig_count sigs
    let bestEffort := (store tr.task).BestEffort
    if sc.get TaskRunState.SKIP = sigs.length then
      { tr := { tr with state := TaskRunState.SKIP }, calls := [],
        sent := broadcast tr.outs TaskRunState.SKIP, exit := Exit.returned none }
    else if (!bestEffort && decide (sc.get TaskRunState.FAIL + sc.get TaskRunState.RESIGN > 0)) ||
        (bestEffort && decide (sc.get TaskRunState.FAIL + sc.get TaskRunState.RESIGN
          + sc.get TaskRunState.SKIP = sigs.length)) then
      { tr := { tr with state := TaskRunState.RESIGN }, calls := [],
        sent := broadcast tr.outs TaskRunState.RESIGN, exit := Exit.returned none }
    else if decide (sc.get TaskRunState.SUCCESS > 0) &&
        ((!bestEffort && decide (sc.get TaskRunState.SUCCESS + sc.get TaskRunState.SKIP
            = sigs.length)) ||
         (bestEffort && decide (sc.get TaskRunState.SUCCESS + sc.get TaskRunState.FAIL
            + sc.get TaskRunState.RESIGN + sc.get TaskRunState.SKIP = sigs.length))) then
      tr.executeAndSignal store ctx
    else
      { tr := { tr with state := TaskRunState.ERROR }, calls := [],
        sent := broadcast tr.outs TaskRunState.RESIGN,
        exit := Exit.returned (some ("Task " ++ (store tr.task).ID
          ++ " reached ERROR state - undefined state sransition")) }

/-! ## Building the run graph (the two passes of `Run`) -/

/-- The struct `Dag` of dag.go 14-17. -/
structure Dag where
  name : String
  Tasks : List TaskPtr
  deriving DecidableEq, Repr

/-- The map `dr.nodes` of dagrun.go 138, `map[string]*TaskRun`: at most one
entry for a key, kept in the order in which the keys were first set. -/
abbrev Nodes := List (String × TaskRun)

/-- The assignment `nodes[id] = tr`. -/
def Nodes.put (nodes : Nodes) (id : String) (tr : TaskRun) : Nodes :=
  if nodes.any (fun e => e.1 = id) then
    nodes.map (fun e => if e.1 = id then (id, tr) else e)
  else
    nodes ++ [(id, tr)]

/-- The local state of `Run` while it builds the graph: the runners, the number
of channels made so far (the next `make` yields `some fresh`), and `endCount`. -/
structure BuildState where
  nodes : Nodes
  fresh : Nat
  endCount : Nat
  deriving DecidableEq, Repr

/-- The channel `end` of dagrun.go 164, the first one made. -/
def Run.endChan : Chan := some 0

/-- The first pass of `Run`, dagrun.go 154-161: one runner for each task, with
endpoint slices of the right length holding nil channels. -/
def Run.newNodes {Ctx : Type} (store : Store Ctx) (d : Dag) : Nodes :=
  d.Tasks.foldl
    (fun nodes t =>
      nodes.put (store t).ID
        { task := t,
          ins := List.replicate (store t).prior.length none,
          outs := List.replicate (store t).next.length none,
          state := TaskRunState.WAIT })
    []

/-- The loop over `pt.next` of dagrun.go 177-181, from index `k` on: the
channel `ch` is stored in `dr.nodes[pt.ID].outs[k]` for every `k` whose target
has the ID `id`. `none` is a panic (no runner under `pt.ID`, or `k` out of
range). -/
def Run.setOuts {Ctx : Type} (store : Store Ctx) (id ptID : String) (ch : Chan) :
    Nat → List TaskPtr → Nodes → Option Nodes
  | _, [], nodes => some nodes
  | k, target :: rest, nodes =>
    if (store target).ID = id then
      match nodes.lookup ptID with
      | none => none
      | some ptr =>
        if k < ptr.outs.length then
          Run.setOuts store id ptID ch (k + 1) rest
            (nodes.put ptID { ptr with outs := ptr.outs.set k ch })
        else
          none
    else
      Run.setOuts store id ptID ch (k + 1) rest nodes

/-- The loop over `tr.task.prior` of dagrun.go 174-182, from index `j` on, for
the runner stored under `id`: a fresh channel for each predecessor, set as the
inbound endpoint `j` and as outbound endpoint of the predecessor. -/
def Run.setIns {Ctx : Type} (store : Store Ctx) (id : String) :
    Nat → List TaskPtr → BuildState → Option BuildState
  | _, [], st => some st
  | j, pt :: rest, st =>
    match st.nodes.lookup id with
    | none => none
    | some tr =>
      if j < tr.ins.length then
        let ch : Chan := some st.fresh
        let nodes := st.nodes.put id { tr with ins := tr.ins.set j ch }
        match Run.setOuts store id (store pt).ID ch 0 (store pt).next nodes with
        | none => none
        | some nodes =>
          Run.setIns store id (j + 1) rest { st with nodes := nodes, fresh := st.fresh + 1 }
      else
        none

/-- One iteration of the second pass of `Run`, dagrun.go 168-183, for the
runner stored under `id`. -/
def Run.setEdgesOf {Ctx : Type} (store : Store Ctx) (st : BuildState) (id : String) :
    Option BuildState :=
  match st.nodes.lookup id with
  | none => none
  | some tr =>
    let st :=
      if (store tr.task).next.length = 0 then
        { st with nodes := st.nodes.put id { tr with outs := tr.outs ++ [Run.endChan] },
                  endCount := st.endCount + 1 }
      else st
    Run.setIns store id 0 (store tr.task).prior st

/-- The second pass of `Run` over the keys `ids` of `dr.nodes`. Go leaves the
order of a map iteration open; the keys are taken in the order given. -/
def Run.setEdges {Ctx : Type} (store : Store Ctx) : List String → BuildState → Option BuildState
  | [], st => some st
  | id :: rest, st =>
    match Run.setEdgesOf store st id with
    | none => none
    | some st => Run.setEdges store rest st

/-- The graph building part of `Run`, dagrun.go 150-183: the runners with
their endpoints wired, and `endCount`. -/
def Run.build {Ctx : Type} (store : Store Ctx) (d : Dag) : Option BuildState :=
  let nodes := Run.newNodes store d
  Run.setEdges store (nodes.map (fun e => e.1)) { nodes := nodes, fresh := 1, endCount := 0 }

/-- The shape of the outbound endpoints while `Run` builds the graph: the
runner under each key has one outbound endpoint for each successor of its
task, and one more when the task has no successor and the second pass has
been over the key (the keys in `visited`). -/
def OutsShaped {Ctx : Type} (store : Store Ctx) (visited : List String) (nodes : Nodes) :
    Prop :=
  ∀ id tr, List.lookup id nodes = some tr →
    tr.outs.length = (store tr.task).next.length
      + (if id ∈ visited ∧ (store tr.task).next = [] then 1 else 0)

/-! ## Building a graph (dag.go) -/

/-- The memory of a program that uses the package: what each `*Task` and each
`*Dag` points to, and how many of each have been allocated (the addresses
below `nTasks` and `nDags`). -/
structure Heap (Ctx : Type) where
  tasks : Store Ctx
  dags : DagPtr → Dag
  nTasks : Nat
  nDags : Nat

/-- The memory before anything is allocated. -/
def Heap.empty (Ctx : Type) : Heap Ctx :=
  { tasks := fun _ => { owner := 0, ID := "", execFunc := fun _ => ("", false, none),
                        next := [], prior := [], BestEffort := false },
    dags := fun _ => { name := "", Tasks := [] },
    nTasks := 0,
    nDags := 0 }

/-- Writing the task `t` at the address `p`. -/
def Store.set {Ctx : Type} (store : Store Ctx) (p : TaskPtr) (t : Task Ctx) : Store Ctx :=
  fun q => if q = p then t else store q

/-- Writing the Dag `d` at the address `p`. -/
def setDag (dags : DagPtr → Dag) (p : DagPtr) (d : Dag) : DagPtr → Dag :=
  fun q => if q = p then d else dags q

/-- The function `New` of dag.go 34-36: the address of the new Dag and the
memory afterwards. -/
def New {Ctx : Type} (h : Heap Ctx) (dname : String) : DagPtr × Heap Ctx :=
  (h.nDags,
   { h with dags := setDag h.dags h.nDags { name := dname, Tasks := [] },
            nDags := h.nDags + 1 })

/-- The loop of `hasTask`, dag.go 53-58, over the tasks left. -/
def hasTaskFrom {Ctx : Type} (store : Store Ctx) (id : String) : List TaskPtr → Bool
  | [] => false
  | n :: rest => if (store n).ID = id then true else hasTaskFrom store id rest

/-- The method `hasTask` of dag.go 52-59. -/
def Dag.hasTask {Ctx : Type} (store : Store Ctx) (d : Dag) (id : String) : Bool :=
  hasTaskFrom store id d.Tasks

/-- The method `MakeTask` of dag.go 39-50, called on the Dag at `d`: the
returned `*Task` (`none` for nil), the returned error and the memory
afterwards. -/
def Dag.MakeTask {Ctx : Type} (h : Heap Ctx) (d : DagPtr) (id : String) (op : ExecFunc Ctx) :
    Option TaskPtr × Option String × Heap Ctx :=
  if id = "" then
    (none, some "A Task with empty string for id is not allowed", h)
  else if Dag.hasTask h.tasks (h.dags d) id then
    (none, some ("A Task with id " ++ id ++ " already exists in this Dag"), h)
  else
    let n : Task Ctx :=
      { ID := id, owner := d, execFunc := op, next := [], prior := [], BestEffort := false }
    (some h.nTasks, none,
     { h with tasks := Store.set h.tasks h.nTasks n,
              dags := setDag h.dags d { h.dags d with Tasks := (h.dags d).Tasks ++ [h.nTasks] },
              nTasks := h.nTasks + 1 })

/-- The method `SetUpstream` of dag.go 63-74, called on the task at `n`: the
returned error and the memory afterwards. -/
def Task.SetUpstream {Ctx : Type} (h : Heap Ctx) (n up : TaskPtr) : Option String × Heap Ctx :=
  if !(Dag.hasTask h.tasks (h.dags (h.tasks n).owner) (h.tasks up).ID) then
    (some ("Tasks " ++ (h.tasks up).ID ++ " and " ++ (h.tasks n).ID
      ++ " do not belong to the same Dag"), h)
  else
    let tasks₁ := Store.set h.tasks up { h.tasks up with next := (h.tasks up).next ++ [n] }
    let tasks₂ := Store.set tasks₁ n { tasks₁ n with prior := (tasks₁ n).prior ++ [up] }
    (none, { h with tasks := tasks₂ })

/-- The method `SetDownstream` of dag.go 78-89, called on the task at `n`: the
returned error and the memory afterwards. -/
def Task.SetDownstream {Ctx : Type} (h : Heap Ctx) (n down : TaskPtr) :
    Option String × Heap Ctx :=
  if !(Dag.hasTask h.tasks (h.dags (h.tasks n).owner) (h.tasks down).ID) then
    (some ("Tasks " ++ (h.tasks down).ID ++ " and " ++ (h.tasks n).ID
      ++ " do not belong to the same Dag"), h)
  else
    let tasks₁ := Store.set h.tasks n { h.tasks n with next := (h.tasks n).next ++ [down] }
    let tasks₂ := Store.set tasks₁ down { tasks₁ down with prior := (tasks₁ down).prior ++ [n] }
    (none, { h with tasks := tasks₂ })

/-- The memories a program can reach with the package: from the empty memory by
calls of `New`, and of `MakeTask`, `SetUpstream` and `SetDownstream` on Dags
and tasks that have been allocated, whether the call succeeds or fails. -/
inductive Reachable {Ctx : Type} : Heap Ctx → Prop where
  | empty : Reachable (Heap.empty Ctx)
  | new (h : Heap Ctx) (dname : String) : Reachable h → Reachable (New h dname).2
  | makeTask (h : Heap Ctx) (d : DagPtr) (id : String) (op : ExecFunc Ctx) :
      Reachable h → d < h.nDags → Reachable (Dag.MakeTask h d id op).2.2
  | setUpstream (h : Heap Ctx) (n up : TaskPtr) :
      Reachable h → n < h.nTasks → up < h.nTasks → Reachable (Task.SetUpstream h n up).2
  | setDownstream (h : Heap Ctx) (n down : TaskPtr) :
      Reachable h → n < h.nTasks → down < h.nTasks → Reachable (Task.SetDownstream h n down).2

/-- The tasks after the edge from the task at `a` to the task at `b` is
recorded: `b` appended to `a.next`, then `a` appended to `b.prior`. -/
def withEdge {Ctx : Type} (tasks : Store Ctx) (a b : TaskPtr) : Store Ctx :=
  Store.set (Store.set tasks a { tasks a with next := (tasks a).next ++ [b] }) b
    { Store.set tasks a { tasks a with next := (tasks a).next ++ [b] } b with
      prior := (Store.set tasks a { tasks a with next := (tasks a).next ++ [b] } b).prior
        ++ [a] }

/-- What holds of every reachable memory. -/
structure Heap.Sound {Ctx : Type} (h : Heap Ctx) : Prop where
  registered : ∀ p, p < h.nTasks → p ∈ (h.dags (h.tasks p).owner).Tasks
  listed : ∀ d p, p ∈ (h.dags d).Tasks → p < h.nTasks ∧ (h.tasks p).owner = d
  ids_nodup : ∀ d, ((h.dags d).Tasks.map (fun p => (h.tasks p).ID)).Nodup
  ids_nonempty : ∀ d p, p ∈ (h.dags d).Tasks → (h.tasks p).ID ≠ ""
  fresh_tasks : ∀ p, h.nTasks ≤ p → (h.tasks p).next = [] ∧ (h.tasks p).prior = []
  fresh_dags : ∀ d, h.nDags ≤ d → (h.dags d).Tasks = []
  mirrored : ∀ a b, (h.tasks a).next.count b = (h.tasks b).prior.count a
  totals : Finset.sum (Finset.range h.nTasks) (fun p => (h.tasks p).next.length)
    = Finset.sum (Finset.range h.nTasks) (fun p => (h.tasks p).prior.length)

/-! ## The concurrent part of `Run` (dagrun.go 185-195) -/

/-- The state of a run after `Run` has started the runners: the runners, the
sends started by `go func(c){ c <- v }(out)` and not yet received, the keys of
the runners whose `run` has ended, the calls of `execFunc` made so far (key of
the runner and context), the number of values `Run` still waits for on `end`,
and whether a goroutine has panicked. -/
structure RunState (Ctx : Type) where
  nodes : Nodes
  pending : List (Chan × TaskRunState)
  ended : List String
  calls : List (String × Ctx)
  endCount : Nat
  panicked : Bool

/-- The ways of receiving one value on each of the channels `ins`
(dagrun.go 42-48) from the pending sends: the values received, in the order of
`ins`, and the sends left. A nil channel never delivers. -/
def receiveAll : List Chan → List (Chan × TaskRunState) →
    List (List TaskRunState × List (Chan × TaskRunState))
  | [], pending => [([], pending)]
  | c :: rest, pending =>
    (pending.filter (fun e => decide (c ≠ none ∧ e.1 = c))).flatMap
      (fun e => (receiveAll rest (pending.erase e)).map (fun r => (e.2 :: r.1, r.2)))

/-- The steps the runner under `id`, started by `go n.run(taskParams[id])`, can
take: when it has not ended and a value can be received on each of its inbound
endpoints, `run` is executed on the values received; its sends become pending. -/
def Run.stepsOf {Ctx : Type} (store : Store Ctx) (params : String → Ctx) (s : RunState Ctx)
    (id : String) : List (RunState Ctx) :=
  match s.nodes.lookup id with
  | none => []
  | some tr =>
    if id ∈ s.ended then []
    else
      (receiveAll tr.ins s.pending).map
        (fun r =>
          { nodes := s.nodes.put id (tr.run store r.1 (params id)).tr,
            pending := r.2 ++ (tr.run store r.1 (params id)).sent,
            ended := id :: s.ended,
            calls := s.calls ++ (tr.run store r.1 (params id)).calls.map (fun c => (id, c)),
            endCount := s.endCount,
            panicked := s.panicked
              || decide ((tr.run store r.1 (params id)).exit = Exit.panicked) })

/-- The steps of the loop `for ; endCount > 0; endCount-- { <-end }` of
dagrun.go 191-193: one pending send on `end` is received. -/
def Run.waitSteps {Ctx : Type} (s : RunState Ctx) : List (RunState Ctx) :=
  if s.endCount > 0 then
    (s.pending.filter (fun e => decide (e.1 = Run.endChan))).map
      (fun e => { s with pending := s.pending.erase e, endCount := s.endCount - 1 })
  else []

/-- The states that follow `s` in one step: a runner runs, or `Run` receives
on `end`. After a panic the program has stopped. -/
def Run.succs {Ctx : Type} (store : Store Ctx) (params : String → Ctx) (s : RunState Ctx) :
    List (RunState Ctx) :=
  if s.panicked then []
  else (s.nodes.map (fun e => e.1)).flatMap (Run.stepsOf store params s) ++ Run.waitSteps s

/-- The state in which `Run` has built the graph and starts the runners; `none`
when building the graph panics. -/
def Run.start {Ctx : Type} (store : Store Ctx) (d : Dag) : Option (RunState Ctx) :=
  match Run.build store d with
  | none => none
  | some st =>
    some { nodes := st.nodes, pending := [], ended := [], calls := [],
           endCount := st.endCount, panicked := false }

/-- The ways of putting `a` into a list. -/
def insertions {α : Type} (a : α) : List α → List (List α)
  | [] => [[a]]
  | b :: l => (a :: b :: l) :: (insertions a l).map (fun l' => b :: l')

/-- The orders in which the elements of a list can be taken. -/
def orders {α : Type} : List α → List (List α)
  | [] => [[]]
  | a :: l => (orders l).flatMap (insertions a)

/-- The graph building part of `Run` with the second pass taking the keys of
`dr.nodes` in the order `ids`. -/
def Run.buildIn {Ctx : Type} (store : Store Ctx) (d : Dag) (ids : List String) :
    Option BuildState :=
  Run.setEdges store ids { nodes := Run.newNodes store d, fresh := 1, endCount := 0 }

/-- The states in which `Run` can start the runners, one for each order in
which the second pass can take the keys of `dr.nodes` (Go leaves the order of
a map iteration open); the stopped state when building the graph panics. -/
def Run.starts {Ctx : Type} (store : Store Ctx) (d : Dag) : List (RunState Ctx) :=
  (orders ((Run.newNodes store d).map (fun e => e.1))).map
    (fun ids =>
      match Run.buildIn store d ids with
      | some st =>
        { nodes := st.nodes, pending := [], ended := [], calls := [],
          endCount := st.endCount, panicked := false }
      | none =>
        { nodes := [], pending := [], ended := [], calls := [], endCount := 0,
          panicked := true })

/-- The states a run can be in after any number of steps from `s`. -/
inductive Run.Reach {Ctx : Type} (store : Store Ctx) (params : String → Ctx) :
    RunState Ctx → RunState Ctx → Prop where
  | refl (s : RunState Ctx) : Run.Reach store params s s
  | step (s s₁ s₂ : RunState Ctx) :
      s₁ ∈ Run.succs store params s → Run.Reach store params s₁ s₂ → Run.Reach store params s s₂

/-- The states after exactly `k` steps from `s`. -/
def Run.after {Ctx : Type} (store : Store Ctx) (params : String → Ctx) :
    Nat → RunState Ctx → List (RunState Ctx)
  | 0, s => [s]
  | k + 1, s => (Run.succs store params s).flatMap (Run.after store params k)

/-- The states after fewer than `n` steps from `s`. -/
def Run.within {Ctx : Type} (store : Store Ctx) (params : String → Ctx) :
    Nat → RunState Ctx → List (RunState Ctx)
  | 0, _ => []
  | n + 1, s => s :: (Run.succs store params s).flatMap (Run.within store params n)

/-- `Run` has returned: the loop on `end` is over (dagrun.go 195). -/
def RunState.returned {Ctx : Type} (s : RunState Ctx) : Bool :=
  decide (s.endCount = 0) && !s.panicked

/-- The table of the task states that `PrintStatus` (dagrun.go 205-209) reads. -/
def RunState.table {Ctx : Type} (s : RunState Ctx) : List (String × TaskRunState) :=
  s.nodes.map (fun e => (e.1, e.2.state))

/-- The keys in `region` lie behind endpoints that the runner under `bid`
does not elect with the branch target `target`: every runner with a key in
`region` has an inbound endpoint, and each of its inbound endpoints is an
outbound endpoint only of runners with a key in `region` and, at positions `k`
where `next[k]` does not have the ID `target`, of the runner under `bid`
(`next` being the successors of its task). -/
abbrev BehindUnchosen {Ctx : Type} (store : Store Ctx) (nodes : Nodes) (bid : String)
    (next : List TaskPtr) (target : String) (region : List String) : Prop :=
  ∀ e ∈ nodes, e.1 ∈ region →
    e.2.ins ≠ [] ∧
    ∀ c ∈ e.2.ins, ∀ e' ∈ nodes, ∀ k < e'.2.outs.length, e'.2.outs[k]? = some c →
      e'.1 ∈ region
        ∨ (e'.1 = bid ∧ next[k]?.map (fun p => (store p).ID) ≠ some target)

/-- The runner under `eid` hears only from the election of the runner under
`bid`: it has an inbound endpoint, and each of its inbound endpoints is an
outbound endpoint only of the runner under `bid`, at positions `k` where
`next[k]` has the ID `target`. -/
abbrev FedByElection {Ctx : Type} (store : Store Ctx) (nodes : Nodes) (bid : String)
    (next : List TaskPtr) (target : String) (eid : String) : Prop :=
  ∀ e ∈ nodes, e.1 = eid →
    e.2.ins ≠ [] ∧
    ∀ c ∈ e.2.ins, ∀ e' ∈ nodes, ∀ k < e'.2.outs.length, e'.2.outs[k]? = some c →
      e'.1 = bid ∧ next[k]?.map (fun p => (store p).ID) = some target

/-- The run graph is wired one channel per edge and is acyclic: no two nodes
share a key; the inbound endpoints of a runner are different channels, none of
them nil or the completion channel; no channel is an inbound endpoint of two
runners; every inbound endpoint is an outbound endpoint of some runner; and
`rank` grows along every channel, from the runner that sends on it to the
runner that receives on it. -/
abbrev WellWired (nodes : Nodes) (rank : String → Nat) : Prop :=
  (nodes.map (fun e => e.1)).Nodup
    ∧ (∀ e ∈ nodes, e.2.ins.Nodup ∧ none ∉ e.2.ins ∧ Run.endChan ∉ e.2.ins)
    ∧ (∀ e₁ ∈ nodes, ∀ e₂ ∈ nodes, ∀ c ∈ e₁.2.ins, c ∈ e₂.2.ins → e₁.1 = e₂.1)
    ∧ (∀ e ∈ nodes, ∀ c ∈ e.2.ins, ∃ e' ∈ nodes, c ∈ e'.2.outs)
    ∧ (∀ e ∈ nodes, ∀ e' ∈ nodes, ∀ c ∈ e.2.ins, c ∈ e'.2.outs → rank e'.1 < rank e.1)

/-- What is left of a run: the runners that have not ended and the values
`Run` still waits for. -/
def RunState.left {Ctx : Type} (s : RunState Ctx) : Nat :=
  ((s.nodes.map (fun e => e.1)).filter (fun id => decide (id ∉ s.ended))).length
    + s.endCount

/-! ## Example graphs -/

/-- The function `printMyID` of main.go 66-70 (its printing left out). -/
def printMyID : ExecFunc String := fun _ => ("", true, none)

/-- The function `printMyIDBranchToSink` of main.go 72-76 (its printing left
out). -/
def printMyIDBranchToSink : ExecFunc String := fun _ => ("sink", true, none)

/-- The tasks of the `branch_example` graph of main.go 43-50, at the
addresses 0 to 3: `source`, `job_1`, `job_2`, `sink`. -/
def branchStore (bestEffort : Bool) : Store String := fun p =>
  match p with
  | 0 => { owner := 0, ID := "source", execFunc := printMyIDBranchToSink,
           next := [1, 3], prior := [], BestEffort := bestEffort }
  | 1 => { owner := 0, ID := "job_1", execFunc := printMyID,
           next := [2], prior := [0], BestEffort := bestEffort }
  | 2 => { owner := 0, ID := "job_2", execFunc := printMyID,
           next := [], prior := [1], BestEffort := bestEffort }
  | _ => { owner := 0, ID := "sink", execFunc := printMyID,
           next := [], prior := [0], BestEffort := bestEffort }

/-- The `Dag` of the `branch_example` graph. -/
def branchDag : Dag := { name := "branch_example", Tasks := [0, 1, 2, 3] }

/-- A graph of one task `only`, at every address, whose `execFunc` returns
`res`. -/
def oneStore (bestEffort : Bool) (res : String × Bool × Option String) : Store String :=
  fun _ => { owner := 0, ID := "only", execFunc := fun _ => res,
             next := [], prior := [], BestEffort := bestEffort }

/-- The `Dag` of the one-task graph. -/
def oneDag : Dag := { name := "one", Tasks := [0] }

/-- A runner with two inbound endpoints and one outbound endpoint. -/
def fanIn : TaskRun :=
  { task := 0, ins := [some 1, some 2], outs := [some 3], state := TaskRunState.WAIT }

/-- The runner of `source` in the `branch_example` graph, as `Run` wires it. -/
def branchSource : TaskRun :=
  { task := 0, ins := [], outs := [some 1, some 3], state := TaskRunState.WAIT }

/-- The runner of the task of the one-task graph, as `Run` wires it: a sink,
whose only outbound endpoint is the channel `end`. -/
def oneRun : TaskRun :=
  { task := 0, ins := [], outs := [Run.endChan], state := TaskRunState.WAIT }

/-- The store in which the `execFunc` of the task at `t` returns the failure
detail `e` in place of its own, and nothing else differs. -/
def withErr {Ctx : Type} (store : Store Ctx) (t : TaskPtr) (e : Option String) : Store Ctx :=
  fun p =>
    if p = t then
      { store p with
        execFunc := fun c => (((store p).execFunc c).1, ((store p).execFunc c).2.1, e) }
    else store p

/-- Two Dags `d1` and `d2`, each with one task of the ID `a` (at the addresses
0 and 1), built with `New` and `MakeTask`. -/
def crossHeap : Heap String :=
  let h₁ := (New (Heap.empty String) "d1").2
  let h₂ := (New h₁ "d2").2
  let h₃ := (Dag.MakeTask h₂ 0 "a" printMyID).2.2
  (Dag.MakeTask h₃ 1 "a" printMyID).2.2

/-- The Dag `d1` with the tasks `x` and `y` (at the addresses 0 and 1) and the
Dag `d2` with a task `y` (at the address 2), built with `New` and `MakeTask`. -/
def asymHeap : Heap String :=
  let h₁ := (New (Heap.empty String) "d1").2
  let h₂ := (New h₁ "d2").2
  let h₃ := (Dag.MakeTask h₂ 0 "x" printMyID).2.2
  let h₄ := (Dag.MakeTask h₃ 0 "y" printMyID).2.2
  (Dag.MakeTask h₄ 1 "y" printMyID).2.2

/-- One Dag with the tasks `a` and `b` (at the addresses 0 and 1) and the edge
from `a` to `b` set twice, built with `New`, `MakeTask` and `SetUpstream`. -/
def dupHeap : Heap String :=
  let h₁ := (New (Heap.empty String) "dup").2
  let h₂ := (Dag.MakeTask h₁ 0 "a" printMyID).2.2
  let h₃ := (Dag.MakeTask h₂ 0 "b" printMyID).2.2
  let h₄ := (Task.SetUpstream h₃ 1 0).2
  (Task.SetUpstream h₄ 1 0).2

/-- The contexts of main.go 54-58: each task gets its own ID. -/
def idParams : String → String := fun id => id

/-- The `branch_example` graph as main.go 43-50 builds it: `source`, `job_1`,
`job_2`, `sink` at the addresses 0 to 3. -/
def mainHeap : Heap String :=
  let h₁ := (New (Heap.empty String) "branch_example").2
  let h₂ := (Dag.MakeTask h₁ 0 "source" printMyIDBranchToSink).2.2
  let h₃ := (Dag.MakeTask h₂ 0 "job_1" printMyID).2.2
  let h₄ := (Dag.MakeTask h₃ 0 "job_2" printMyID).2.2
  let h₅ := (Dag.MakeTask h₄ 0 "sink" printMyID).2.2
  let h₆ := (Task.SetUpstream h₅ 2 1).2
  let h₇ := (Task.SetUpstream h₆ 1 0).2
  (Task.SetUpstream h₇ 3 0).2

/-- The `linear_example` graph of main.go 24-28: `source` and `job_1` at the
addresses 0 and 1, with the edge from `source` to `job_1`. -/
def linearHeap : Heap String :=
  let h₁ := (New (Heap.empty String) "linear_example").2
  let h₂ := (Dag.MakeTask h₁ 0 "source" printMyID).2.2
  let h₃ := (Dag.MakeTask h₂ 0 "job_1" printMyID).2.2
  (Task.SetDownstream h₃ 0 1).2

/-- The diamond `source -> {a, b} -> sink`, at the addresses 0 to 3. -/
def diamondHeap : Heap String :=
  let h₁ := (New (Heap.empty String) "diamond").2
  let h₂ := (Dag.MakeTask h₁ 0 "source" printMyID).2.2
  let h₃ := (Dag.MakeTask h₂ 0 "a" printMyID).2.2
  let h₄ := (Dag.MakeTask h₃ 0 "b" printMyID).2.2
  let h₅ := (Dag.MakeTask h₄ 0 "sink" printMyID).2.2
  let h₆ := (Task.SetDownstream h₅ 0 1).2
  let h₇ := (Task.SetDownstream h₆ 0 2).2
  let h₈ := (Task.SetUpstream h₇ 3 1).2
  (Task.SetUpstream h₈ 3 2).2

/-- A graph in which the task `b` elects its successor `e` and `e` has a
second predecessor `p` that fails: `b`, `p`, `e`, `u` at the addresses 0 to 3,
with the edges from `b` to `e`, from `b` to `u` and from `p` to `e`. -/
def electHeap : Heap String :=
  let h₁ := (New (Heap.empty String) "elect").2
  let h₂ := (Dag.MakeTask h₁ 0 "b" (fun _ => ("e", true, none))).2.2
  let h₃ := (Dag.MakeTask h₂ 0 "p" (fun _ => ("", false, none))).2.2
  let h₄ := (Dag.MakeTask h₃ 0 "e" printMyID).2.2
  let h₅ := (Dag.MakeTask h₄ 0 "u" printMyID).2.2
  let h₆ := (Task.SetDownstream h₅ 0 2).2
  let h₇ := (Task.SetDownstream h₆ 0 3).2
  (Task.SetDownstream h₇ 1 2).2

/-- The memory of `crossHeap` after `n.SetUpstream(up)` with `n` the task `a`
of `d1` (address 0) and `up` the task `a` of `d2` (address 1). -/
def crossEdgeHeap : Heap String := (Task.SetUpstream crossHeap 0 1).2

/-- The `branch_example` graph of main.go with the edge from `job_1` to `job_2`
set a second time. -/
def dupBranchHeap : Heap String := (Task.SetUpstream mainHeap 2 1).2

/-- A graph in which `source` elects `sink` and `sink`, which has no
successors, returns a branch target: `source`, `job_1`, `sink` at the
addresses 0 to 2, with the edges from `source` to `job_1` and to `sink`. -/
def panicBranchHeap : Heap String :=
  let h₁ := (New (Heap.empty String) "panic").2
  let h₂ := (Dag.MakeTask h₁ 0 "source" printMyIDBranchToSink).2.2
  let h₃ := (Dag.MakeTask h₂ 0 "job_1" printMyID).2.2
  let h₄ := (Dag.MakeTask h₃ 0 "sink" (fun _ => ("x", true, none))).2.2
  let h₅ := (Task.SetDownstream h₄ 0 1).2
  (Task.SetDownstream h₅ 0 2).2

/-- A graph with a cycle behind the successor that `b` does not elect: `b`,
`e`, `u`, `v` at the addresses 0 to 3, with the edges from `b` to `e`, from
`b` to `u`, from `u` to `v` and from `v` to `u`; `b` elects `e`. -/
def cycleHeap : Heap String :=
  let h₁ := (New (Heap.empty String) "cycle").2
  let h₂ := (Dag.MakeTask h₁ 0 "b" (fun _ => ("e", true, none))).2.2
  let h₃ := (Dag.MakeTask h₂ 0 "e" printMyID).2.2
  let h₄ := (Dag.MakeTask h₃ 0 "u" printMyID).2.2
  let h₅ := (Dag.MakeTask h₄ 0 "v" printMyID).2.2
  let h₆ := (Task.SetDownstream h₅ 0 1).2
  let h₇ := (Task.SetDownstream h₆ 0 2).2
  let h₈ := (Task.SetDownstream h₇ 2 3).2
  (Task.SetDownstream h₈ 3 2).2

/-- A rank that grows along the edges of the `branch_example` graph. -/
def branchRank : String → Nat := fun id =>
  if id = "source" then 0 else if id = "job_2" then 2 else 1

/-- The state in which `Run` starts the runners of a graph in example memory;
the stopped state when building the graph panics. -/
def startOf (h : Heap String) (d : DagPtr) : RunState String :=
  match Run.start h.tasks (h.dags d) with
  | some s => s
  | none => { nodes := [], pending := [], ended := [], calls := [], endCount := 0,
              panicked := true }

/-! ## The counting map -/

theorem SigCount.get_set (m : SigCount) (s k : TaskRunState) (v : Nat) :
    (m.set s v).get k = if k = s then v else m.get k := by
  unfold SigCount.set SigCount.get
  by_cases h : k = s <;> simp [h]

theorem sig_count_step (m : SigCount) (x : TaskRunState) :
    (match m x with
      | some _ => m.set x (m.get x + 1)
      | none => m.set x 1) = m.set x (m.get x + 1) := by
  cases hx : m x with
  | none => simp [SigCount.get, hx]
  | some c => rfl

theorem sig_count_foldl_get (sigs : List TaskRunState) (m : SigCount) (k : TaskRunState) :
    (sigs.foldl
      (fun m s =>
        match m s with
        | some _ => m.set s (m.get s + 1)
        | none => m.set s 1)
      m).get k = m.get k + sigs.count k := by
  induction sigs generalizing m with
  | nil => simp
  | cons x xs ih =>
    rw [List.foldl_cons, ih, sig_count_step, SigCount.get_set, List.count_cons]
    by_cases hk : k = x
    · subst hk
      simp
      omega
    · have hk2 : ¬ x = k := fun h => hk h.symm
      simp [hk, hk2]

/-- The map built by the counting loop holds, for every signal value, the
number of its occurrences among the received signals. -/
theorem sig_count_get (sigs : List TaskRunState) (s : TaskRunState) :
    (sig_count sigs).get s = sigs.count s := by
  unfold sig_count
  rw [sig_count_foldl_get]
  simp [SigCount.get, SigCount.empty]

/-! ## Counts and what they say about the received signals -/

theorem count_two (a b : TaskRunState) (hab : a ≠ b) (l : List TaskRunState) :
    l.count a + l.count b = l.countP (fun s => decide (s = a ∨ s = b)) := by
  induction l with
  | nil => simp
  | cons x xs ih =>
    rw [List.count_cons, List.count_cons, List.countP_cons, ← ih]
    by_cases h1 : x = a
    · subst h1
      simp [hab]
      omega
    · by_cases h2 : x = b
      · subst h2
        simp [h1]
        omega
      · simp [h1, h2]

theorem count_three (a b c : TaskRunState) (hab : a ≠ b) (hac : a ≠ c) (hbc : b ≠ c)
    (l : List TaskRunState) :
    l.count a + l.count b + l.count c
      = l.countP (fun s => decide (s = a ∨ s = b ∨ s = c)) := by
  induction l with
  | nil => simp
  | cons x xs ih =>
    rw [List.count_cons, List.count_cons, List.count_cons, List.countP_cons, ← ih]
    by_cases h1 : x = a
    · subst h1
      simp [hab, hac]
      omega
    · by_cases h2 : x = b
      · subst h2
        simp [h1, hbc]
        omega
      · by_cases h3 : x = c
        · subst h3
          simp [h1, h2]
          omega
        · simp [h1, h2, h3]

theorem count_four (a b c d : TaskRunState) (hab : a ≠ b) (hac : a ≠ c) (had : a ≠ d)
    (hbc : b ≠ c) (hbd : b ≠ d) (hcd : c ≠ d) (l : List TaskRunState) :
    l.count a + l.count b + l.count c + l.count d
      = l.countP (fun s => decide (s = a ∨ s = b ∨ s = c ∨ s = d)) := by
  induction l with
  | nil => simp
  | cons x xs ih =>
    rw [List.count_cons, List.count_cons, List.count_cons, List.count_cons,
      List.countP_cons, ← ih]
    by_cases h1 : x = a
    · subst h1
      simp [hab, hac, had]
      omega
    · by_cases h2 : x = b
      · subst h2
        simp [h1, hbc, hbd]
        omega
      · by_cases h3 : x = c
        · subst h3
          simp [h1, h2, hcd]
          omega
        · by_cases h4 : x = d
          · subst h4
            simp [h1, h2, h3]
            omega
          · simp [h1, h2, h3, h4]

/-- The test `sig_count[SKIP] == len(sigs)`: every signal is `SKIP`. -/
theorem skip_all_iff (l : List TaskRunState) :
    l.count TaskRunState.SKIP = l.length ↔ ∀ s ∈ l, s = TaskRunState.SKIP := by
  rw [List.count_eq_length]
  constructor
  · intro h s hs
    exact (h s hs).symm
  · intro h s hs
    exact (h s hs).symm

/-- The test `sig_count[FAIL] + sig_count[RESIGN] > 0`: some signal is `FAIL`
or `RESIGN`. -/
theorem fail_resign_pos_iff (l : List TaskRunState) :
    l.count TaskRunState.FAIL + l.count TaskRunState.RESIGN > 0
      ↔ ∃ s ∈ l, s = TaskRunState.FAIL ∨ s = TaskRunState.RESIGN := by
  rw [count_two _ _ (by decide), gt_iff_lt, List.countP_pos_iff]
  simp

/-- The test `sig_count[FAIL] + sig_count[RESIGN] + sig_count[SKIP] == len(sigs)`:
every signal is `FAIL`, `RESIGN` or `SKIP`. -/
theorem fail_resign_skip_all_iff (l : List TaskRunState) :
    l.count TaskRunState.FAIL + l.count TaskRunState.RESIGN + l.count TaskRunState.SKIP
        = l.length
      ↔ ∀ s ∈ l, s = TaskRunState.FAIL ∨ s = TaskRunState.RESIGN ∨ s = TaskRunState.SKIP := by
  rw [count_three _ _ _ (by decide) (by decide) (by decide), List.countP_eq_length]
  simp

/-- The test `sig_count[SUCCESS] + sig_count[SKIP] == len(sigs)`: every signal
is `SUCCESS` or `SKIP`. -/
theorem success_skip_all_iff (l : List TaskRunState) :
    l.count TaskRunState.SUCCESS + l.count TaskRunState.SKIP = l.length
      ↔ ∀ s ∈ l, s = TaskRunState.SUCCESS ∨ s = TaskRunState.SKIP := by
  rw [count_two _ _ (by decide), List.countP_eq_length]
  simp

/-- The test on the sum of the four counts: every signal is one of `SUCCESS`,
`FAIL`, `RESIGN`, `SKIP`. -/
theorem four_all_iff (l : List TaskRunState) :
    l.count TaskRunState.SUCCESS + l.count TaskRunState.FAIL + l.count TaskRunState.RESIGN
        + l.count TaskRunState.SKIP = l.length
      ↔ ∀ s ∈ l, s = TaskRunState.SUCCESS ∨ s = TaskRunState.FAIL ∨ s = TaskRunState.RESIGN
          ∨ s = TaskRunState.SKIP := by
  rw [count_four _ _ _ _ (by decide) (by decide) (by decide) (by decide) (by decide) (by decide),
    List.countP_eq_length]
  simp

/-- The test `sig_count[SUCCESS] > 0`: some signal is `SUCCESS`. -/
theorem success_pos_iff (l : List TaskRunState) :
    l.count TaskRunState.SUCCESS > 0 ↔ TaskRunState.SUCCESS ∈ l := by
  rw [gt_iff_lt, List.count_pos_iff]

/-! ## The decision of `run` in terms of the received signals -/

/-- For a non-root runner, `run` with each test on the counting map read as a
statement about the received signals. -/
theorem run_nonroot {Ctx : Type} (store : Store Ctx) (tr : TaskRun)
    (sigs : List TaskRunState) (ctx : Ctx) (hroot : tr.ins ≠ []) :
    tr.run store sigs ctx =
      if ∀ s ∈ sigs, s = TaskRunState.SKIP then
        { tr := { tr with state := TaskRunState.SKIP }, calls := [],
          sent := broadcast tr.outs TaskRunState.SKIP, exit := Exit.returned none }
      else if ((store tr.task).BestEffort = false
            ∧ ∃ s ∈ sigs, s = TaskRunState.FAIL ∨ s = TaskRunState.RESIGN)
          ∨ ((store tr.task).BestEffort = true
            ∧ ∀ s ∈ sigs, s = TaskRunState.FAIL ∨ s = TaskRunState.RESIGN
                ∨ s = TaskRunState.SKIP) then
        { tr := { tr with state := TaskRunState.RESIGN }, calls := [],
          sent := broadcast tr.outs TaskRunState.RESIGN, exit := Exit.returned none }
      else if TaskRunState.SUCCESS ∈ sigs
          ∧ (((store tr.task).BestEffort = false
              ∧ ∀ s ∈ sigs, s = TaskRunState.SUCCESS ∨ s = TaskRunState.SKIP)
            ∨ ((store tr.task).BestEffort = true
              ∧ ∀ s ∈ sigs, s = TaskRunState.SUCCESS ∨ s = TaskRunState.FAIL
                  ∨ s = TaskRunState.RESIGN ∨ s = TaskRunState.SKIP)) then
        tr.executeAndSignal store ctx
      else
        { tr := { tr with state := TaskRunState.ERROR }, calls := [],
          sent := broadcast tr.outs TaskRunState.RESIGN,
          exit := Exit.returned (some ("Task " ++ (store tr.task).ID
            ++ " reached ERROR state - undefined state sransition")) } := by
  have hlen : ¬ tr.ins.length = 0 := by
    intro h
    exact hroot (List.length_eq_zero.mp h)
  unfold TaskRun.run
  rw [if_neg hlen]
  simp only [sig_count_get, Bool.or_eq_true, Bool.and_eq_true, decide_eq_true_eq,
    Bool.not_eq_true', skip_all_iff, fail_resign_pos_iff, fail_resign_skip_all_iff,
    success_skip_all_iff, four_all_iff, success_pos_iff]

/-! ## Facts about `executeAndSignal` -/

/-- The runner `executeAndSignal` leaves behind: only the state has changed,
to `SUCCESS` or `FAIL` after the success flag. -/
theorem executeAndSignal_tr {Ctx : Type} (store : Store Ctx) (tr : TaskRun) (ctx : Ctx) :
    (tr.executeAndSignal store ctx).tr
      = { tr with state := if ((store tr.task).execFunc ctx).2.1 then TaskRunState.SUCCESS
                           else TaskRunState.FAIL } := by
  unfold TaskRun.executeAndSignal
  cases hok : ((store tr.task).execFunc ctx).2.1 <;> simp only [hok] <;> split_ifs <;> rfl

theorem executeAndSignal_state {Ctx : Type} (store : Store Ctx) (tr : TaskRun) (ctx : Ctx) :
    (tr.executeAndSignal store ctx).tr.state
      = if ((store tr.task).execFunc ctx).2.1 then TaskRunState.SUCCESS
        else TaskRunState.FAIL := by
  rw [executeAndSignal_tr]

/-- The function `executeAndSignal` calls `execFunc` once, with the context it was
given. -/
theorem executeAndSignal_calls {Ctx : Type} (store : Store Ctx) (tr : TaskRun) (ctx : Ctx) :
    (tr.executeAndSignal store ctx).calls = [ctx] := by
  unfold TaskRun.executeAndSignal
  simp only
  split_ifs <;> rfl

theorem executeAndSignal_state_cases {Ctx : Type} (store : Store Ctx) (tr : TaskRun)
    (ctx : Ctx) :
    (tr.executeAndSignal store ctx).tr.state = TaskRunState.SUCCESS
      ∨ (tr.executeAndSignal store ctx).tr.state = TaskRunState.FAIL := by
  rw [executeAndSignal_state]
  split_ifs
  · exact Or.inl rfl
  · exact Or.inr rfl

/-! ## The vote aggregation of `run` -/

/-- C1 (resignation). For a non-root runner whose received signals are not all
`SKIP`, `run` ends in state `RESIGN`, sends `RESIGN` on every outbound endpoint
and does not call `execFunc` if and only if `BestEffort` is false and some
signal is `FAIL` or `RESIGN`, or `BestEffort` is true and every signal is one
of `SKIP`, `FAIL`, `RESIGN`. -/
theorem run_resign_iff {Ctx : Type} (store : Store Ctx) (tr : TaskRun)
    (sigs : List TaskRunState) (ctx : Ctx) (hroot : tr.ins ≠ [])
    (hskip : ¬ ∀ s ∈ sigs, s = TaskRunState.SKIP) :
    ((tr.run store sigs ctx).tr.state = TaskRunState.RESIGN
        ∧ (tr.run store sigs ctx).sent = tr.outs.map (fun out => (out, TaskRunState.RESIGN))
        ∧ (tr.run store sigs ctx).calls = [])
      ↔ (((store tr.task).BestEffort = false
            ∧ ∃ s ∈ sigs, s = TaskRunState.FAIL ∨ s = TaskRunState.RESIGN)
          ∨ ((store tr.task).BestEffort = true
            ∧ ∀ s ∈ sigs, s = TaskRunState.SKIP ∨ s = TaskRunState.FAIL
                ∨ s = TaskRunState.RESIGN)) := by
  have hperm : (∀ s ∈ sigs, s = TaskRunState.SKIP ∨ s = TaskRunState.FAIL
        ∨ s = TaskRunState.RESIGN)
      ↔ (∀ s ∈ sigs, s = TaskRunState.FAIL ∨ s = TaskRunState.RESIGN
        ∨ s = TaskRunState.SKIP) := by
    constructor <;> intro h s hs <;> rcases h s hs with h1 | h1 | h1 <;> simp [h1]
  rw [hperm, run_nonroot store tr sigs ctx hroot, if_neg hskip]
  split_ifs with hr he
  · exact iff_of_true ⟨rfl, rfl, rfl⟩ hr
  · refine iff_of_false ?_ hr
    rintro ⟨hst, -, -⟩
    rcases executeAndSignal_state_cases store tr ctx with h | h <;> rw [h] at hst <;>
      exact absurd hst (by decide)
  · refine iff_of_false ?_ hr
    rintro ⟨hst, -, -⟩
    exact absurd hst (by decide)

/-- C1, at a runner with `BestEffort` false that received `SUCCESS` and `FAIL`. -/
theorem run_resign_iff_witness :
    (fanIn.run (oneStore false ("", true, none)) [TaskRunState.SUCCESS, TaskRunState.FAIL]
        "ctx").tr.state = TaskRunState.RESIGN
      ∧ (fanIn.run (oneStore false ("", true, none)) [TaskRunState.SUCCESS, TaskRunState.FAIL]
        "ctx").sent = [(some 3, TaskRunState.RESIGN)]
      ∧ (fanIn.run (oneStore false ("", true, none)) [TaskRunState.SUCCESS, TaskRunState.FAIL]
        "ctx").calls = [] :=
  (run_resign_iff (oneStore false ("", true, none)) fanIn
    [TaskRunState.SUCCESS, TaskRunState.FAIL] "ctx" (by decide) (by decide)).mpr
    (Or.inl ⟨rfl, TaskRunState.FAIL, by decide, Or.inl rfl⟩)

/-- C2 (execute). For a non-root runner whose received signals are all among
`SUCCESS`, `FAIL`, `SKIP`, `RESIGN`, `run` calls `execFunc` (it proceeds to
`executeAndSignal`) if and only if some signal is `SUCCESS` and, when
`BestEffort` is false, every signal other than `SUCCESS` is `SKIP`; otherwise
`execFunc` is not called. -/
theorem run_execute_iff {Ctx : Type} (store : Store Ctx) (tr : TaskRun)
    (sigs : List TaskRunState) (ctx : Ctx) (hroot : tr.ins ≠ [])
    (hdom : ∀ s ∈ sigs, s = TaskRunState.SUCCESS ∨ s = TaskRunState.FAIL
      ∨ s = TaskRunState.SKIP ∨ s = TaskRunState.RESIGN) :
    ((tr.run store sigs ctx).calls = [ctx]
        ↔ (TaskRunState.SUCCESS ∈ sigs
          ∧ ((store tr.task).BestEffort = false
            → ∀ s ∈ sigs, s ≠ TaskRunState.SUCCESS → s = TaskRunState.SKIP)))
      ∧ ((TaskRunState.SUCCESS ∈ sigs
          ∧ ((store tr.task).BestEffort = false
            → ∀ s ∈ sigs, s ≠ TaskRunState.SUCCESS → s = TaskRunState.SKIP))
        → tr.run store sigs ctx = tr.executeAndSignal store ctx)
      ∧ (¬ (TaskRunState.SUCCESS ∈ sigs
          ∧ ((store tr.task).BestEffort = false
            → ∀ s ∈ sigs, s ≠ TaskRunState.SUCCESS → s = TaskRunState.SKIP))
        → (tr.run store sigs ctx).calls = []) := by
  by_cases hc : TaskRunState.SUCCESS ∈ sigs
      ∧ ((store tr.task).BestEffort = false
        → ∀ s ∈ sigs, s ≠ TaskRunState.SUCCESS → s = TaskRunState.SKIP)
  · obtain ⟨hs, hrest⟩ := hc
    have h1 : ¬ ∀ s ∈ sigs, s = TaskRunState.SKIP := by
      intro h
      exact absurd (h _ hs) (by decide)
    have h2 : ¬ (((store tr.task).BestEffort = false
            ∧ ∃ s ∈ sigs, s = TaskRunState.FAIL ∨ s = TaskRunState.RESIGN)
          ∨ ((store tr.task).BestEffort = true
            ∧ ∀ s ∈ sigs, s = TaskRunState.FAIL ∨ s = TaskRunState.RESIGN
                ∨ s = TaskRunState.SKIP)) := by
      rintro (⟨hb, s, hmem, hs2⟩ | ⟨-, hall⟩)
      · have hne : s ≠ TaskRunState.SUCCESS := by
          rcases hs2 with h | h <;> rw [h] <;> decide
        have := hrest hb s hmem hne
        rcases hs2 with h | h <;> rw [h] at this <;> exact absurd this (by decide)
      · rcases hall _ hs with h | h | h <;> exact absurd h (by decide)
    have h3 : TaskRunState.SUCCESS ∈ sigs
          ∧ (((store tr.task).BestEffort = false
              ∧ ∀ s ∈ sigs, s = TaskRunState.SUCCESS ∨ s = TaskRunState.SKIP)
            ∨ ((store tr.task).BestEffort = true
              ∧ ∀ s ∈ sigs, s = TaskRunState.SUCCESS ∨ s = TaskRunState.FAIL
                  ∨ s = TaskRunState.RESIGN ∨ s = TaskRunState.SKIP)) := by
      refine ⟨hs, ?_⟩
      cases hb : (store tr.task).BestEffort
      · refine Or.inl ⟨rfl, fun s hmem => ?_⟩
        by_cases hss : s = TaskRunState.SUCCESS
        · exact Or.inl hss
        · exact Or.inr (hrest hb s hmem hss)
      · refine Or.inr ⟨rfl, fun s hmem => ?_⟩
        rcases hdom s hmem with h | h | h | h <;> simp [h]
    rw [run_nonroot store tr sigs ctx hroot, if_neg h1, if_neg h2, if_pos h3]
    exact ⟨iff_of_true (executeAndSignal_calls store tr ctx) ⟨hs, hrest⟩, fun _ => rfl,
      fun hn => absurd ⟨hs, hrest⟩ hn⟩
  · have hcalls : (tr.run store sigs ctx).calls = [] := by
      rw [run_nonroot store tr sigs ctx hroot]
      split_ifs with ha hr he
      · rfl
      · rfl
      · exfalso
        apply hc
        refine ⟨he.1, fun hb s hmem hne => ?_⟩
        rcases he.2 with ⟨-, hall⟩ | ⟨hb2, -⟩
        · rcases hall s hmem with h | h
          · exact absurd h hne
          · exact h
        · rw [hb] at hb2
          exact absurd hb2 (by decide)
      · rfl
    refine ⟨iff_of_false ?_ hc, fun h => absurd h hc, fun _ => hcalls⟩
    rw [hcalls]
    simp

/-- C2, at a runner with `BestEffort` true that received `SUCCESS` and `FAIL`:
it executes. -/
theorem run_execute_iff_witness :
    (fanIn.run (oneStore true ("", true, none)) [TaskRunState.SUCCESS, TaskRunState.FAIL]
        "ctx").calls = ["ctx"] :=
  (run_execute_iff (oneStore true ("", true, none)) fanIn
    [TaskRunState.SUCCESS, TaskRunState.FAIL] "ctx" (by decide) (by decide)).1.mpr
    ⟨by decide, fun h => absurd h (by decide)⟩

theorem run_root {Ctx : Type} (store : Store Ctx) (tr : TaskRun) (sigs : List TaskRunState)
    (ctx : Ctx) (hroot : tr.ins = []) :
    tr.run store sigs ctx = tr.executeAndSignal store ctx := by
  unfold TaskRun.run
  rw [if_pos (by rw [hroot]; rfl)]

/-- C3 (all-skip). For a non-root runner, with either value of `BestEffort`, if
every received signal is `SKIP` then `run` ends in state `SKIP`, sends `SKIP`
on every outbound endpoint, does not call `execFunc` and returns nil; the same
signals satisfy the resignation test for `BestEffort` true, and the runner
does not resign. -/
theorem run_all_skip {Ctx : Type} (store : Store Ctx) (tr : TaskRun)
    (sigs : List TaskRunState) (ctx : Ctx) (hroot : tr.ins ≠ [])
    (hall : ∀ s ∈ sigs, s = TaskRunState.SKIP) :
    (tr.run store sigs ctx).tr.state = TaskRunState.SKIP
      ∧ (tr.run store sigs ctx).sent = tr.outs.map (fun out => (out, TaskRunState.SKIP))
      ∧ (tr.run store sigs ctx).calls = []
      ∧ (tr.run store sigs ctx).exit = Exit.returned none
      ∧ (∀ s ∈ sigs, s = TaskRunState.SKIP ∨ s = TaskRunState.FAIL
          ∨ s = TaskRunState.RESIGN)
      ∧ (tr.run store sigs ctx).tr.state ≠ TaskRunState.RESIGN := by
  rw [run_nonroot store tr sigs ctx hroot, if_pos hall]
  exact ⟨rfl, rfl, rfl, rfl, fun s hs => Or.inl (hall s hs), by simp⟩

/-- C3, at a runner with `BestEffort` true that received `SKIP` twice: the
signals also satisfy the resignation rule, and the runner is skipped. -/
theorem run_all_skip_witness :
    (fanIn.run (oneStore true ("", true, none)) [TaskRunState.SKIP, TaskRunState.SKIP]
        "ctx").tr.state = TaskRunState.SKIP
      ∧ (fanIn.run (oneStore true ("", true, none)) [TaskRunState.SKIP, TaskRunState.SKIP]
        "ctx").sent = [(some 3, TaskRunState.SKIP)]
      ∧ (fanIn.run (oneStore true ("", true, none)) [TaskRunState.SKIP, TaskRunState.SKIP]
        "ctx").calls = [] :=
  ⟨(run_all_skip (oneStore true ("", true, none)) fanIn
      [TaskRunState.SKIP, TaskRunState.SKIP] "ctx" (by decide) (by decide)).1,
   (run_all_skip (oneStore true ("", true, none)) fanIn
      [TaskRunState.SKIP, TaskRunState.SKIP] "ctx" (by decide) (by decide)).2.1,
   (run_all_skip (oneStore true ("", true, none)) fanIn
      [TaskRunState.SKIP, TaskRunState.SKIP] "ctx" (by decide) (by decide)).2.2.1⟩

/-- C4 (the fallback is unreachable). When every received signal is one of
`SUCCESS`, `FAIL`, `SKIP`, `RESIGN`, `run` takes the skip, the resign or the
execute branch, for either value of `BestEffort`: it does not end in state
`ERROR`. -/
theorem run_no_fallback {Ctx : Type} (store : Store Ctx) (tr : TaskRun)
    (sigs : List TaskRunState) (ctx : Ctx)
    (hdom : ∀ s ∈ sigs, s = TaskRunState.SUCCESS ∨ s = TaskRunState.FAIL
      ∨ s = TaskRunState.SKIP ∨ s = TaskRunState.RESIGN) :
    (tr.run store sigs ctx).tr.state ≠ TaskRunState.ERROR
      ∧ (tr.run store sigs ctx
            = { tr := { tr with state := TaskRunState.SKIP }, calls := [],
                sent := tr.outs.map (fun out => (out, TaskRunState.SKIP)),
                exit := Exit.returned none }
          ∨ tr.run store sigs ctx
            = { tr := { tr with state := TaskRunState.RESIGN }, calls := [],
                sent := tr.outs.map (fun out => (out, TaskRunState.RESIGN)),
                exit := Exit.returned none }
          ∨ tr.run store sigs ctx = tr.executeAndSignal store ctx) := by
  have hexec : (tr.executeAndSignal store ctx).tr.state ≠ TaskRunState.ERROR := by
    rcases executeAndSignal_state_cases store tr ctx with h | h <;> rw [h] <;> decide
  by_cases hroot : tr.ins = []
  · rw [run_root store tr sigs ctx hroot]
    exact ⟨hexec, Or.inr (Or.inr rfl)⟩
  · rw [run_nonroot store tr sigs ctx hroot]
    split_ifs with ha hr he
    · exact ⟨by simp, Or.inl rfl⟩
    · exact ⟨by simp, Or.inr (Or.inl rfl)⟩
    · exact ⟨hexec, Or.inr (Or.inr rfl)⟩
    · exfalso
      apply he
      cases hb : (store tr.task).BestEffort
      · have hnf : ∀ s ∈ sigs, s = TaskRunState.SUCCESS ∨ s = TaskRunState.SKIP := by
          intro s hs
          rcases hdom s hs with h | h | h | h
          · exact Or.inl h
          · exact absurd (Or.inl ⟨hb, s, hs, Or.inl h⟩) hr
          · exact Or.inr h
          · exact absurd (Or.inl ⟨hb, s, hs, Or.inr h⟩) hr
        have hsucc : TaskRunState.SUCCESS ∈ sigs := by
          by_contra hn
          apply ha
          intro s hs
          rcases hnf s hs with h | h
          · rw [h] at hs
            exact absurd hs hn
          · exact h
        exact ⟨hsucc, Or.inl ⟨rfl, hnf⟩⟩
      · have hsucc : TaskRunState.SUCCESS ∈ sigs := by
          by_contra hn
          apply hr
          refine Or.inr ⟨hb, fun s hs => ?_⟩
          rcases hdom s hs with h | h | h | h
          · rw [h] at hs
            exact absurd hs hn
          · exact Or.inl h
          · exact Or.inr (Or.inr h)
          · exact Or.inr (Or.inl h)
        refine ⟨hsucc, Or.inr ⟨rfl, fun s hs => ?_⟩⟩
        rcases hdom s hs with h | h | h | h <;> simp [h]

/-- C4, at a runner with `BestEffort` true that received `FAIL` and `SUCCESS`. -/
theorem run_no_fallback_witness :
    (fanIn.run (oneStore true ("", true, none)) [TaskRunState.FAIL, TaskRunState.SUCCESS]
        "ctx").tr.state ≠ TaskRunState.ERROR :=
  (run_no_fallback (oneStore true ("", true, none)) fanIn
    [TaskRunState.FAIL, TaskRunState.SUCCESS] "ctx" (by decide)).1

/-- A received signal outside the four values can reach the fallback: with
`BestEffort` true and the signals `SUCCESS` and `ERROR`, `run` ends in state
`ERROR`. -/
theorem run_fallback_example :
    (fanIn.run (oneStore true ("", true, none)) [TaskRunState.SUCCESS, TaskRunState.ERROR]
        "ctx").tr.state = TaskRunState.ERROR := by
  decide

/-- C5 (order independence). Two lists of received signals that are
permutations of each other give the same outcome of `run`: the same final
state, the same calls of `execFunc`, the same signal on each outbound endpoint
and the same return value. -/
theorem run_perm {Ctx : Type} (store : Store Ctx) (tr : TaskRun)
    (sigs₁ sigs₂ : List TaskRunState) (ctx : Ctx) (hp : sigs₁.Perm sigs₂) :
    tr.run store sigs₁ ctx = tr.run store sigs₂ ctx := by
  unfold TaskRun.run
  simp only [sig_count_get, hp.count_eq, hp.length_eq]

/-- C5, at the signals `SUCCESS, FAIL` and `FAIL, SUCCESS`. -/
theorem run_perm_witness :
    fanIn.run (oneStore true ("", true, none)) [TaskRunState.SUCCESS, TaskRunState.FAIL] "ctx"
      = fanIn.run (oneStore true ("", true, none)) [TaskRunState.FAIL, TaskRunState.SUCCESS]
          "ctx" :=
  run_perm (oneStore true ("", true, none)) fanIn [TaskRunState.SUCCESS, TaskRunState.FAIL]
    [TaskRunState.FAIL, TaskRunState.SUCCESS] "ctx" (List.Perm.swap _ _ [])

/-! ## The signalling of `executeAndSignal` -/

/-- The function `executeAndSignal` with the final state computed first. -/
theorem executeAndSignal_eq {Ctx : Type} (store : Store Ctx) (tr : TaskRun) (ctx : Ctx) :
    tr.executeAndSignal store ctx
      = if ((store tr.task).execFunc ctx).1 = "" then
          { tr := { tr with state := if ((store tr.task).execFunc ctx).2.1 then
                      TaskRunState.SUCCESS else TaskRunState.FAIL },
            calls := [ctx],
            sent := broadcast tr.outs (if ((store tr.task).execFunc ctx).2.1 then
                      TaskRunState.SUCCESS else TaskRunState.FAIL),
            exit := Exit.returned
              (execError (store tr.task).ID ((store tr.task).execFunc ctx).2.2) }
        else if (signalBranch store (store tr.task).next ((store tr.task).execFunc ctx).1
            (if ((store tr.task).execFunc ctx).2.1 then TaskRunState.SUCCESS
             else TaskRunState.FAIL) 0 tr.outs).2 = true then
          { tr := { tr with state := if ((store tr.task).execFunc ctx).2.1 then
                      TaskRunState.SUCCESS else TaskRunState.FAIL },
            calls := [ctx],
            sent := (signalBranch store (store tr.task).next ((store tr.task).execFunc ctx).1
              (if ((store tr.task).execFunc ctx).2.1 then TaskRunState.SUCCESS
               else TaskRunState.FAIL) 0 tr.outs).1,
            exit := Exit.panicked }
        else
          { tr := { tr with state := if ((store tr.task).execFunc ctx).2.1 then
                      TaskRunState.SUCCESS else TaskRunState.FAIL },
            calls := [ctx],
            sent := (signalBranch store (store tr.task).next ((store tr.task).execFunc ctx).1
              (if ((store tr.task).execFunc ctx).2.1 then TaskRunState.SUCCESS
               else TaskRunState.FAIL) 0 tr.outs).1,
            exit := Exit.returned
              (execError (store tr.task).ID ((store tr.task).execFunc ctx).2.2) } := by
  unfold TaskRun.executeAndSignal
  cases hok : ((store tr.task).execFunc ctx).2.1 <;> simp [hok]

/-- While the index stays within `next`, the branching loop sends on every
endpoint and does not panic. -/
theorem signalBranch_in_range {Ctx : Type} (store : Store Ctx) (next : List TaskPtr)
    (nextID : String) (state : TaskRunState) :
    ∀ (outs : List Chan) (i : Nat), i + outs.length ≤ next.length →
      signalBranch store next nextID state i outs
        = (List.zipWith
            (fun out p => (out, if nextID = (store p).ID then state else TaskRunState.SKIP))
            outs (next.drop i), false) := by
  intro outs
  induction outs with
  | nil =>
    intro i _
    simp [signalBranch]
  | cons out rest ih =>
    intro i h
    have hi : i < next.length := by
      simp only [List.length_cons] at h
      omega
    have hrest : i + 1 + rest.length ≤ next.length := by
      simp only [List.length_cons] at h
      omega
    rw [signalBranch, List.getElem?_eq_getElem hi]
    simp only
    rw [ih (i + 1) hrest, List.drop_eq_getElem_cons hi]
    rfl

/-- From an index within `next`, the branching loop panics exactly when there
are more endpoints left than entries of `next`. -/
theorem signalBranch_panics_iff {Ctx : Type} (store : Store Ctx) (next : List TaskPtr)
    (nextID : String) (state : TaskRunState) :
    ∀ (outs : List Chan) (i : Nat), i ≤ next.length →
      ((signalBranch store next nextID state i outs).2 = true
        ↔ next.length < i + outs.length) := by
  intro outs
  induction outs with
  | nil =>
    intro i hi
    simp [signalBranch]
    omega
  | cons out rest ih =>
    intro i hi
    rw [signalBranch]
    by_cases hlt : i < next.length
    · rw [List.getElem?_eq_getElem hlt]
      simp only [List.length_cons]
      rw [ih (i + 1) (by omega)]
      omega
    · rw [List.getElem?_eq_none (by omega)]
      simp only [List.length_cons]
      constructor
      · intro _
        omega
      · intro _
        trivial

/-- How `executeAndSignal` ends: it panics exactly when a branch target is
returned and the runner has more outbound endpoints than the task has
successors; otherwise it returns the error built from the failure detail. -/
theorem executeAndSignal_exit {Ctx : Type} (store : Store Ctx) (tr : TaskRun) (ctx : Ctx) :
    (tr.executeAndSignal store ctx).exit
      = if ((store tr.task).execFunc ctx).1 ≠ ""
            ∧ (store tr.task).next.length < tr.outs.length then Exit.panicked
        else Exit.returned
          (execError (store tr.task).ID ((store tr.task).execFunc ctx).2.2) := by
  have hp := signalBranch_panics_iff store (store tr.task).next
    ((store tr.task).execFunc ctx).1
    (if ((store tr.task).execFunc ctx).2.1 then TaskRunState.SUCCESS else TaskRunState.FAIL)
    tr.outs 0 (Nat.zero_le _)
  rw [Nat.zero_add] at hp
  rw [executeAndSignal_eq]
  by_cases hid : ((store tr.task).execFunc ctx).1 = ""
  · simp [hid]
  · by_cases hlt : (store tr.task).next.length < tr.outs.length
    · have h2 := hp.mpr hlt
      simp [hid, hlt, h2]
    · have h2 : (signalBranch store (store tr.task).next ((store tr.task).execFunc ctx).1
          (if ((store tr.task).execFunc ctx).2.1 then TaskRunState.SUCCESS
           else TaskRunState.FAIL) 0 tr.outs).2 = false := by
        cases h : (signalBranch store (store tr.task).next ((store tr.task).execFunc ctx).1
          (if ((store tr.task).execFunc ctx).2.1 then TaskRunState.SUCCESS
           else TaskRunState.FAIL) 0 tr.outs).2
        · rfl
        · exact absurd (hp.mp h) hlt
      simp [hid, hlt, h2]

/-- The sends of `executeAndSignal` when a branch target is returned and the
runner has at most as many outbound endpoints as the task has successors. -/
theorem executeAndSignal_sent_branch {Ctx : Type} (store : Store Ctx) (tr : TaskRun)
    (ctx : Ctx) (hid : ((store tr.task).execFunc ctx).1 ≠ "")
    (hlen : tr.outs.length ≤ (store tr.task).next.length) :
    (tr.executeAndSignal store ctx).sent
      = List.zipWith
          (fun out p =>
            (out, if ((store tr.task).execFunc ctx).1 = (store p).ID then
                    (if ((store tr.task).execFunc ctx).2.1 then TaskRunState.SUCCESS
                     else TaskRunState.FAIL)
                  else TaskRunState.SKIP))
          tr.outs (store tr.task).next := by
  have h0 : 0 + tr.outs.length ≤ (store tr.task).next.length := by omega
  rw [executeAndSignal_eq, if_neg hid, signalBranch_in_range store _ _ _ tr.outs 0 h0]
  simp

/-- The sends of `executeAndSignal` when no branch target is returned. -/
theorem executeAndSignal_sent_all {Ctx : Type} (store : Store Ctx) (tr : TaskRun)
    (ctx : Ctx) (hid : ((store tr.task).execFunc ctx).1 = "") :
    (tr.executeAndSignal store ctx).sent
      = tr.outs.map (fun out =>
          (out, if ((store tr.task).execFunc ctx).2.1 then TaskRunState.SUCCESS
                else TaskRunState.FAIL)) := by
  rw [executeAndSignal_eq, if_pos hid]
  rfl

/-- Branching for a runner with one outbound endpoint for each successor of
its task, whose `execFunc` returns a non-empty branch target that is the ID of
a declared successor: `executeAndSignal` returns, sends one signal on each
endpoint, sends the resulting state on the endpoint of every successor with
that ID, of which there is one, and sends `SKIP` on the endpoint of every
other successor. -/
theorem executeAndSignal_branch_of_length {Ctx : Type} (store : Store Ctx) (tr : TaskRun)
    (ctx : Ctx) (hlen : tr.outs.length = (store tr.task).next.length)
    (hid : ((store tr.task).execFunc ctx).1 ≠ "")
    (hmatch : ∃ p ∈ (store tr.task).next, (store p).ID = ((store tr.task).execFunc ctx).1) :
    (tr.executeAndSignal store ctx).exit
        = Exit.returned (execError (store tr.task).ID ((store tr.task).execFunc ctx).2.2)
      ∧ (tr.executeAndSignal store ctx).sent.length = tr.outs.length
      ∧ (∀ (i : Nat) (p : TaskPtr) (out : Chan), (store tr.task).next[i]? = some p → tr.outs[i]? = some out →
          (store p).ID = ((store tr.task).execFunc ctx).1 →
          (tr.executeAndSignal store ctx).sent[i]?
            = some (out, if ((store tr.task).execFunc ctx).2.1 then TaskRunState.SUCCESS
                         else TaskRunState.FAIL))
      ∧ (∀ (i : Nat) (p : TaskPtr) (out : Chan), (store tr.task).next[i]? = some p → tr.outs[i]? = some out →
          (store p).ID ≠ ((store tr.task).execFunc ctx).1 →
          (tr.executeAndSignal store ctx).sent[i]? = some (out, TaskRunState.SKIP))
      ∧ (∃ (i : Nat) (p : TaskPtr) (out : Chan), (store tr.task).next[i]? = some p ∧ tr.outs[i]? = some out
          ∧ (store p).ID = ((store tr.task).execFunc ctx).1
          ∧ (tr.executeAndSignal store ctx).sent[i]?
            = some (out, if ((store tr.task).execFunc ctx).2.1 then TaskRunState.SUCCESS
                         else TaskRunState.FAIL)) := by
  have hsent := executeAndSignal_sent_branch store tr ctx hid (le_of_eq hlen)
  have hyes : ∀ (i : Nat) (p : TaskPtr) (out : Chan), (store tr.task).next[i]? = some p → tr.outs[i]? = some out →
      (store p).ID = ((store tr.task).execFunc ctx).1 →
      (tr.executeAndSignal store ctx).sent[i]?
        = some (out, if ((store tr.task).execFunc ctx).2.1 then TaskRunState.SUCCESS
                     else TaskRunState.FAIL) := by
    intro i p out hp hout hpid
    rw [hsent, List.getElem?_zipWith, hp, hout]
    simp [hpid]
  refine ⟨?_, ?_, hyes, ?_, ?_⟩
  · rw [executeAndSignal_exit, if_neg]
    rintro ⟨-, hlt⟩
    omega
  · rw [hsent, List.length_zipWith, hlen]
    simp
  · intro i p out hp hout hpid
    rw [hsent, List.getElem?_zipWith, hp, hout]
    have hne : ¬ ((store tr.task).execFunc ctx).1 = (store p).ID := fun h => hpid h.symm
    simp [hne]
  · obtain ⟨p, hmem, hpid⟩ := hmatch
    obtain ⟨i, hi⟩ := List.mem_iff_getElem?.mp hmem
    obtain ⟨hilt, -⟩ := List.getElem?_eq_some.mp hi
    have hio : i < tr.outs.length := by omega
    obtain ⟨out, hout⟩ : ∃ out, tr.outs[i]? = some out :=
      ⟨tr.outs[i], List.getElem?_eq_getElem hio⟩
    exact ⟨i, p, out, hi, hout, hpid, hyes i p out hi hout hpid⟩

/-- C7 (no branch target). When `execFunc` returns an empty branch target,
`executeAndSignal` ends in state `SUCCESS` exactly when the success flag is
true and in state `FAIL` otherwise, sends that state on every outbound
endpoint, and returns. -/
theorem executeAndSignal_no_branch {Ctx : Type} (store : Store Ctx) (tr : TaskRun)
    (ctx : Ctx) (hid : ((store tr.task).execFunc ctx).1 = "") :
    ((tr.executeAndSignal store ctx).tr.state = TaskRunState.SUCCESS
        ↔ ((store tr.task).execFunc ctx).2.1 = true)
      ∧ ((tr.executeAndSignal store ctx).tr.state = TaskRunState.FAIL
        ↔ ((store tr.task).execFunc ctx).2.1 = false)
      ∧ (tr.executeAndSignal store ctx).sent
        = tr.outs.map (fun out => (out, (tr.executeAndSignal store ctx).tr.state))
      ∧ (tr.executeAndSignal store ctx).exit
        = Exit.returned (execError (store tr.task).ID ((store tr.task).execFunc ctx).2.2) := by
  refine ⟨?_, ?_, ?_, ?_⟩
  · rw [executeAndSignal_state]
    cases ((store tr.task).execFunc ctx).2.1 <;> simp
  · rw [executeAndSignal_state]
    cases ((store tr.task).execFunc ctx).2.1 <;> simp
  · rw [executeAndSignal_sent_all store tr ctx hid, executeAndSignal_state]
  · rw [executeAndSignal_exit, if_neg]
    rintro ⟨hne, -⟩
    exact hne hid

/-- C7, at a sink whose `execFunc` returns `("", false, nil)`: `FAIL` is sent on
the completion endpoint. -/
theorem executeAndSignal_no_branch_witness :
    (oneRun.executeAndSignal (oneStore false ("", false, none)) "ctx").tr.state
        = TaskRunState.FAIL
      ∧ (oneRun.executeAndSignal (oneStore false ("", false, none)) "ctx").sent
        = [(Run.endChan, TaskRunState.FAIL)] :=
  ⟨(executeAndSignal_no_branch (oneStore false ("", false, none)) oneRun "ctx" rfl).2.1.mpr rfl,
   (executeAndSignal_no_branch (oneStore false ("", false, none)) oneRun "ctx" rfl).2.2.1⟩

/-- The runners `Run` builds for the one-task graph and for the
`branch_example` graph of main.go. -/
theorem build_examples (res : String × Bool × Option String) :
    Run.build (oneStore false res) oneDag
        = some { nodes := [("only", oneRun)], fresh := 1, endCount := 1 }
      ∧ Run.build (branchStore false) branchDag
        = some { nodes := [("source", branchSource),
                           ("job_1", { task := 1, ins := [some 1], outs := [some 2],
                                       state := TaskRunState.WAIT }),
                           ("job_2", { task := 2, ins := [some 2], outs := [Run.endChan],
                                       state := TaskRunState.WAIT }),
                           ("sink", { task := 3, ins := [some 3], outs := [Run.endChan],
                                      state := TaskRunState.WAIT })],
                 fresh := 4, endCount := 2 } := by
  constructor
  · rfl
  · decide

/-- C8 (the code fails here). The runner `Run` builds for the only task of a
one-task graph has the completion channel as its only outbound endpoint; when
the `execFunc` of that sink returns the branch target `x`, `executeAndSignal`
reads `tr.task.next[0]` of an empty `next`: it panics and no signal is sent. -/
theorem sink_branch_target_panics :
    Run.build (oneStore false ("x", true, none)) oneDag
        = some { nodes := [("only", oneRun)], fresh := 1, endCount := 1 }
      ∧ (oneStore false ("x", true, none) oneRun.task).next = []
      ∧ oneRun.outs = [Run.endChan]
      ∧ (oneRun.executeAndSignal (oneStore false ("x", true, none)) "ctx").exit
        = Exit.panicked
      ∧ (oneRun.executeAndSignal (oneStore false ("x", true, none)) "ctx").sent = [] := by
  decide

/-- C9 (root execution). A runner with no inbound endpoints goes straight to
`executeAndSignal`, whatever `BestEffort` and `sigs` are: `execFunc` is called
once, with the context given, and the final state is `SUCCESS` or `FAIL`
after the success flag, never `SKIP`, `RESIGN` or `ERROR`. -/
theorem run_root_executes {Ctx : Type} (store : Store Ctx) (tr : TaskRun)
    (sigs : List TaskRunState) (ctx : Ctx) (hroot : tr.ins = []) :
    tr.run store sigs ctx = tr.executeAndSignal store ctx
      ∧ (tr.run store sigs ctx).calls = [ctx]
      ∧ (tr.run store sigs ctx).tr.state
        = (if ((store tr.task).execFunc ctx).2.1 then TaskRunState.SUCCESS
           else TaskRunState.FAIL)
      ∧ ((tr.run store sigs ctx).tr.state = TaskRunState.SUCCESS
        ∨ (tr.run store sigs ctx).tr.state = TaskRunState.FAIL)
      ∧ (tr.run store sigs ctx).tr.state ≠ TaskRunState.SKIP
      ∧ (tr.run store sigs ctx).tr.state ≠ TaskRunState.RESIGN
      ∧ (tr.run store sigs ctx).tr.state ≠ TaskRunState.ERROR := by
  rw [run_root store tr sigs ctx hroot]
  refine ⟨rfl, executeAndSignal_calls store tr ctx, executeAndSignal_state store tr ctx,
    executeAndSignal_state_cases store tr ctx, ?_, ?_, ?_⟩ <;>
  · rcases executeAndSignal_state_cases store tr ctx with h | h <;> rw [h] <;> decide

/-- C9, at the runner of `source` in the `branch_example` graph, with
`BestEffort` true. -/
theorem run_root_executes_witness :
    (branchSource.run (branchStore true) [] "source").calls = ["source"]
      ∧ (branchSource.run (branchStore true) [] "source").tr.state = TaskRunState.SUCCESS :=
  ⟨(run_root_executes (branchStore true) branchSource [] "source" rfl).2.1,
   (run_root_executes (branchStore true) branchSource [] "source" rfl).2.2.1⟩

/-! ## The failure detail -/

theorem signalBranch_congr {Ctx : Type} (store₁ store₂ : Store Ctx)
    (hID : ∀ p, (store₁ p).ID = (store₂ p).ID) (next : List TaskPtr) (nextID : String)
    (state : TaskRunState) :
    ∀ (outs : List Chan) (i : Nat),
      signalBranch store₁ next nextID state i outs
        = signalBranch store₂ next nextID state i outs := by
  intro outs
  induction outs with
  | nil =>
    intro i
    simp [signalBranch]
  | cons out rest ih =>
    intro i
    rw [signalBranch, signalBranch]
    cases next[i]? with
    | none => rfl
    | some p =>
      simp only
      rw [ih (i + 1), hID p]

/-- The failure detail has no part in what `executeAndSignal` does before it
ends: with any other failure detail returned by `execFunc`, the final runner,
the calls, the sends and whether the call panics are the same. -/
theorem executeAndSignal_withErr {Ctx : Type} (store : Store Ctx) (tr : TaskRun) (ctx : Ctx)
    (e : Option String) :
    (tr.executeAndSignal (withErr store tr.task e) ctx).tr = (tr.executeAndSignal store ctx).tr
      ∧ (tr.executeAndSignal (withErr store tr.task e) ctx).calls
        = (tr.executeAndSignal store ctx).calls
      ∧ (tr.executeAndSignal (withErr store tr.task e) ctx).sent
        = (tr.executeAndSignal store ctx).sent
      ∧ ((tr.executeAndSignal (withErr store tr.task e) ctx).exit = Exit.panicked
        ↔ (tr.executeAndSignal store ctx).exit = Exit.panicked) := by
  have hID : ∀ p, (withErr store tr.task e p).ID = (store p).ID := by
    intro p
    unfold withErr
    split_ifs <;> rfl
  have h1 : ((withErr store tr.task e tr.task).execFunc ctx).1
      = ((store tr.task).execFunc ctx).1 := by
    simp [withErr]
  have h2 : ((withErr store tr.task e tr.task).execFunc ctx).2.1
      = ((store tr.task).execFunc ctx).2.1 := by
    simp [withErr]
  have h3 : (withErr store tr.task e tr.task).next = (store tr.task).next := by
    simp [withErr]
  refine ⟨?_, ?_, ?_, ?_⟩
  · rw [executeAndSignal_tr, executeAndSignal_tr, h2]
  · rw [executeAndSignal_calls, executeAndSignal_calls]
  · rw [executeAndSignal_eq, executeAndSignal_eq, h1, h2, h3,
      signalBranch_congr (withErr store tr.task e) store hID]
    split_ifs <;> rfl
  · rw [executeAndSignal_exit, executeAndSignal_exit, h1, h3]
    split_ifs <;> simp

/-- When `executeAndSignal` does not run past the end of `next`, it returns a
non-nil error exactly when the failure detail is non-nil. -/
theorem executeAndSignal_error_iff {Ctx : Type} (store : Store Ctx) (tr : TaskRun) (ctx : Ctx)
    (hrange : ((store tr.task).execFunc ctx).1 = ""
      ∨ tr.outs.length ≤ (store tr.task).next.length) :
    ∃ r, (tr.executeAndSignal store ctx).exit = Exit.returned r
      ∧ (r ≠ none ↔ ((store tr.task).execFunc ctx).2.2 ≠ none) := by
  refine ⟨execError (store tr.task).ID ((store tr.task).execFunc ctx).2.2, ?_, ?_⟩
  · rw [executeAndSignal_exit, if_neg]
    rintro ⟨hne, hlt⟩
    rcases hrange with h | h
    · exact hne h
    · omega
  · cases ((store tr.task).execFunc ctx).2.2 <;> simp [execError]

/-- C10 (the code fails here). For the sink runner `Run` builds in a one-task
graph, whose `execFunc` returns the branch target `x`, the success flag false
and the failure detail `boom`: `executeAndSignal` sets the state to `FAIL`,
then panics on `tr.task.next[0]`; it returns no error and sends no signal. -/
theorem sink_branch_target_error_lost :
    ((oneStore false ("x", false, some "boom") oneRun.task).execFunc "ctx").2.2 = some "boom"
      ∧ (oneRun.executeAndSignal (oneStore false ("x", false, some "boom")) "ctx").tr.state
        = TaskRunState.FAIL
      ∧ (oneRun.executeAndSignal (oneStore false ("x", false, some "boom")) "ctx").exit
        = Exit.panicked
      ∧ (∀ r, (oneRun.executeAndSignal (oneStore false ("x", false, some "boom")) "ctx").exit
          ≠ Exit.returned r)
      ∧ (oneRun.executeAndSignal (oneStore false ("x", false, some "boom")) "ctx").sent
        = [] := by
  refine ⟨rfl, by decide, by decide, ?_, by decide⟩
  intro r h
  have hp : (oneRun.executeAndSignal (oneStore false ("x", false, some "boom")) "ctx").exit
      = Exit.panicked := by decide
  rw [hp] at h
  exact Exit.noConfusion h

/-! ## The map of runners -/

theorem lookup_cons_eq (k a : String) (b : TaskRun) (es : Nodes) :
    List.lookup k ((a, b) :: es) = if k = a then some b else List.lookup k es := by
  by_cases h : k = a
  · simp [List.lookup_cons, h]
  · have hb : (k == a) = false := by simpa using h
    simp [List.lookup_cons, h, hb]

theorem hasKey_of_lookup (nodes : Nodes) (k : String) (tr : TaskRun)
    (h : List.lookup k nodes = some tr) : nodes.any (fun e => e.1 = k) = true := by
  induction nodes with
  | nil => simp at h
  | cons e es ih =>
    obtain ⟨a, b⟩ := e
    rw [lookup_cons_eq] at h
    by_cases hk : k = a
    · simp [hk]
    · rw [if_neg hk] at h
      simp [ih h]

theorem lookup_none_of_no_key (nodes : Nodes) (k : String)
    (h : nodes.any (fun e => e.1 = k) = false) : List.lookup k nodes = none := by
  cases hl : List.lookup k nodes with
  | none => rfl
  | some tr =>
    rw [hasKey_of_lookup nodes k tr hl] at h
    exact absurd h (by decide)

theorem lookup_replace (nodes : Nodes) (id k : String) (tr : TaskRun) :
    List.lookup k (nodes.map (fun e => if e.1 = id then (id, tr) else e))
      = if k = id then (if nodes.any (fun e => e.1 = id) then some tr else none)
        else List.lookup k nodes := by
  induction nodes with
  | nil => simp
  | cons e es ih =>
    obtain ⟨a, b⟩ := e
    by_cases ha : a = id
    · subst ha
      simp only [List.map_cons, if_true, lookup_cons_eq, ih]
      by_cases hk : k = a
      · simp [hk]
      · simp [hk]
    · simp only [List.map_cons, if_neg ha, lookup_cons_eq, ih]
      by_cases hk : k = id
      · subst hk
        have hka : ¬ k = a := fun h => ha h.symm
        have hd : decide (a = k) = false := by simpa using ha
        simp [hka]
        rw [hd, Bool.false_or]
      · simp [hk]

theorem lookup_append_one (nodes : Nodes) (id k : String) (tr : TaskRun) :
    List.lookup k (nodes ++ [(id, tr)])
      = match List.lookup k nodes with
        | some v => some v
        | none => if k = id then some tr else none := by
  induction nodes with
  | nil =>
    simp [lookup_cons_eq]
  | cons e es ih =>
    obtain ⟨a, b⟩ := e
    rw [List.cons_append, lookup_cons_eq, lookup_cons_eq, ih]
    by_cases hk : k = a
    · simp [hk]
    · simp [hk]

/-- Reading the map after the assignment `nodes[id] = tr`. -/
theorem lookup_put (nodes : Nodes) (id k : String) (tr : TaskRun) :
    List.lookup k (nodes.put id tr) = if k = id then some tr else List.lookup k nodes := by
  unfold Nodes.put
  by_cases hany : nodes.any (fun e => e.1 = id) = true
  · rw [if_pos hany, lookup_replace]
    by_cases hk : k = id
    · simp [hk, hany]
    · simp [hk]
  · rw [if_neg hany, lookup_append_one]
    have hnone : List.lookup id nodes = none :=
      lookup_none_of_no_key nodes id (Bool.eq_false_iff.mpr hany)
    by_cases hk : k = id
    · subst hk
      simp [hnone]
    · cases List.lookup k nodes <;> simp [hk]

/-- Assigning under a key the map already has leaves the keys as they are. -/
theorem keys_put_of_lookup (nodes : Nodes) (id : String) (tr₀ tr : TaskRun)
    (h : List.lookup id nodes = some tr₀) :
    (nodes.put id tr).map Prod.fst = nodes.map Prod.fst := by
  unfold Nodes.put
  rw [if_pos (hasKey_of_lookup nodes id tr₀ h), List.map_map]
  apply List.map_congr_left
  intro e _
  by_cases he : e.1 = id
  · simp [he]
  · simp [he]

theorem mem_keys_of_lookup (nodes : Nodes) (k : String) (tr : TaskRun)
    (h : List.lookup k nodes = some tr) : k ∈ nodes.map Prod.fst := by
  have := hasKey_of_lookup nodes k tr h
  rw [List.any_eq_true] at this
  obtain ⟨e, he, hk⟩ := this
  rw [List.mem_map]
  exact ⟨e, he, by simpa using hk⟩

theorem keys_put_nodup (nodes : Nodes) (id : String) (tr : TaskRun)
    (h : (nodes.map Prod.fst).Nodup) : ((nodes.put id tr).map Prod.fst).Nodup := by
  unfold Nodes.put
  by_cases hany : nodes.any (fun e => e.1 = id) = true
  · rw [if_pos hany, List.map_map]
    have : nodes.map (Prod.fst ∘ fun e => if e.1 = id then (id, tr) else e)
        = nodes.map Prod.fst := by
      apply List.map_congr_left
      intro e _
      by_cases he : e.1 = id
      · simp [he]
      · simp [he]
    rw [this]
    exact h
  · rw [if_neg hany, List.map_append, List.nodup_append]
    refine ⟨h, by simp, ?_⟩
    intro k hk hk2
    have hkid : k = id := by simpa using hk2
    subst hkid
    apply hany
    rw [List.any_eq_true]
    rw [List.mem_map] at hk
    obtain ⟨e, he, hek⟩ := hk
    exact ⟨e, he, by simpa using hek⟩

/-! ## The outbound endpoints `Run` gives a runner -/

theorem shaped_congr {Ctx : Type} (store : Store Ctx) (v w : List String) (nodes : Nodes)
    (hvw : ∀ x, x ∈ v ↔ x ∈ w) (h : OutsShaped store v nodes) : OutsShaped store w nodes := by
  intro id tr hl
  rw [h id tr hl]
  simp only [hvw id]

theorem shaped_put {Ctx : Type} (store : Store Ctx) (v : List String) (nodes : Nodes)
    (id : String) (tr₀ tr : TaskRun) (h : OutsShaped store v nodes)
    (hl : List.lookup id nodes = some tr₀) (htask : tr.task = tr₀.task)
    (houts : tr.outs.length = tr₀.outs.length) : OutsShaped store v (nodes.put id tr) := by
  intro k t hk
  rw [lookup_put] at hk
  by_cases hkid : k = id
  · rw [if_pos hkid] at hk
    have ht : tr = t := Option.some.inj hk
    subst ht
    subst hkid
    rw [houts, htask]
    exact h k tr₀ hl
  · rw [if_neg hkid] at hk
    exact h k t hk

theorem setOuts_shaped {Ctx : Type} (store : Store Ctx) (v : List String) (id ptID : String)
    (ch : Chan) :
    ∀ (targets : List TaskPtr) (k : Nat) (nodes nodes' : Nodes),
      OutsShaped store v nodes → Run.setOuts store id ptID ch k targets nodes = some nodes' →
      OutsShaped store v nodes' ∧ nodes'.map Prod.fst = nodes.map Prod.fst := by
  intro targets
  induction targets with
  | nil =>
    intro k nodes nodes' hs h
    simp only [Run.setOuts, Option.some.injEq] at h
    subst h
    exact ⟨hs, rfl⟩
  | cons target rest ih =>
    intro k nodes nodes' hs h
    rw [Run.setOuts] at h
    by_cases hid : (store target).ID = id
    · rw [if_pos hid] at h
      cases hl : List.lookup ptID nodes with
      | none =>
        simp only [hl] at h
        exact absurd h (by simp)
      | some ptr =>
        simp only [hl] at h
        by_cases hk : k < ptr.outs.length
        · rw [if_pos hk] at h
          have hs2 := shaped_put store v nodes ptID ptr { ptr with outs := ptr.outs.set k ch }
            hs hl rfl (List.length_set _ _ _)
          obtain ⟨h1, h2⟩ := ih (k + 1) _ nodes' hs2 h
          exact ⟨h1, by rw [h2, keys_put_of_lookup nodes ptID ptr _ hl]⟩
        · rw [if_neg hk] at h
          exact absurd h (by simp)
    · rw [if_neg hid] at h
      exact ih (k + 1) nodes nodes' hs h

theorem setIns_shaped {Ctx : Type} (store : Store Ctx) (v : List String) (id : String) :
    ∀ (priors : List TaskPtr) (j : Nat) (st st' : BuildState),
      OutsShaped store v st.nodes → Run.setIns store id j priors st = some st' →
      OutsShaped store v st'.nodes ∧ st'.nodes.map Prod.fst = st.nodes.map Prod.fst
        ∧ st'.endCount = st.endCount := by
  intro priors
  induction priors with
  | nil =>
    intro j st st' hs h
    simp only [Run.setIns, Option.some.injEq] at h
    subst h
    exact ⟨hs, rfl, rfl⟩
  | cons pt rest ih =>
    intro j st st' hs h
    rw [Run.setIns] at h
    cases hl : List.lookup id st.nodes with
    | none =>
      simp only [hl] at h
      exact absurd h (by simp)
    | some tr =>
      simp only [hl] at h
      by_cases hj : j < tr.ins.length
      · rw [if_pos hj] at h
        have hs2 := shaped_put store v st.nodes id tr
          { tr with ins := tr.ins.set j (some st.fresh) } hs hl rfl rfl
        cases ho : Run.setOuts store id (store pt).ID (some st.fresh) 0 (store pt).next
            (st.nodes.put id { tr with ins := tr.ins.set j (some st.fresh) }) with
        | none =>
          simp only [ho] at h
          exact absurd h (by simp)
        | some nodes2 =>
          simp only [ho] at h
          obtain ⟨h1, h2⟩ := setOuts_shaped store v id (store pt).ID (some st.fresh)
            (store pt).next 0 _ nodes2 hs2 ho
          obtain ⟨h3, h4, h5⟩ := ih (j + 1) _ st' h1 h
          exact ⟨h3, by rw [h4, h2, keys_put_of_lookup st.nodes id tr _ hl], h5⟩
      · rw [if_neg hj] at h
        exact absurd h (by simp)

theorem setEdgesOf_shaped {Ctx : Type} (store : Store Ctx) (v : List String) (id : String)
    (st st' : BuildState) (hs : OutsShaped store v st.nodes) (hv : id ∉ v)
    (h : Run.setEdgesOf store st id = some st') :
    OutsShaped store (id :: v) st'.nodes
      ∧ st'.nodes.map Prod.fst = st.nodes.map Prod.fst := by
  unfold Run.setEdgesOf at h
  cases hl : List.lookup id st.nodes with
  | none =>
    simp only [hl] at h
    exact absurd h (by simp)
  | some tr =>
    simp only [hl] at h
    by_cases hsink : (store tr.task).next.length = 0
    · rw [if_pos hsink] at h
      have hnil : (store tr.task).next = [] := List.length_eq_zero.mp hsink
      have hs2 : OutsShaped store (id :: v)
          (st.nodes.put id { tr with outs := tr.outs ++ [Run.endChan] }) := by
        intro k t hk
        rw [lookup_put] at hk
        by_cases hkid : k = id
        · rw [if_pos hkid] at hk
          have ht := Option.some.inj hk
          subst ht
          subst hkid
          have h0 := hs k tr hl
          simp only [hv, false_and, if_false] at h0
          simp [h0, hnil]
        · rw [if_neg hkid] at hk
          rw [hs k t hk]
          simp [hkid]
      obtain ⟨h1, h2, -⟩ := setIns_shaped store (id :: v) id (store tr.task).prior 0 _ st'
        hs2 h
      exact ⟨h1, by rw [h2]; exact keys_put_of_lookup st.nodes id tr _ hl⟩
    · rw [if_neg hsink] at h
      have hne : ¬ (store tr.task).next = [] := fun hn => hsink (by rw [hn]; rfl)
      have hs2 : OutsShaped store (id :: v) st.nodes := by
        intro k t hk
        rw [hs k t hk]
        by_cases hkid : k = id
        · subst hkid
          rw [hl] at hk
          have ht := Option.some.inj hk
          subst ht
          simp [hne]
        · simp [hkid]
      obtain ⟨h1, h2, -⟩ := setIns_shaped store (id :: v) id (store tr.task).prior 0 st st'
        hs2 h
      exact ⟨h1, h2⟩

theorem setEdges_shaped {Ctx : Type} (store : Store Ctx) :
    ∀ (ids v : List String) (st st' : BuildState),
      OutsShaped store v st.nodes → ids.Nodup → (∀ x ∈ ids, x ∉ v) →
      Run.setEdges store ids st = some st' →
      OutsShaped store (ids ++ v) st'.nodes
        ∧ st'.nodes.map Prod.fst = st.nodes.map Prod.fst := by
  intro ids
  induction ids with
  | nil =>
    intro v st st' hs _ _ h
    simp only [Run.setEdges, Option.some.injEq] at h
    subst h
    exact ⟨hs, rfl⟩
  | cons id rest ih =>
    intro v st st' hs hnd hdis h
    rw [Run.setEdges] at h
    cases h1 : Run.setEdgesOf store st id with
    | none =>
      simp only [h1] at h
      exact absurd h (by simp)
    | some st1 =>
      simp only [h1] at h
      obtain ⟨hidrest, hndrest⟩ := List.nodup_cons.mp hnd
      obtain ⟨hs1, hk1⟩ := setEdgesOf_shaped store v id st st1 hs
        (hdis id (List.mem_cons_self _ _)) h1
      have hdis2 : ∀ x ∈ rest, x ∉ id :: v := by
        intro x hx hxv
        rcases List.mem_cons.mp hxv with hxe | hxv2
        · subst hxe
          exact hidrest hx
        · exact hdis x (List.mem_cons_of_mem _ hx) hxv2
      obtain ⟨hs2, hk2⟩ := ih (id :: v) st1 st' hs1 hndrest hdis2 h
      refine ⟨shaped_congr store _ _ _ ?_ hs2, by rw [hk2, hk1]⟩
      intro x
      simp only [List.mem_append, List.mem_cons]
      tauto

theorem newNodes_shaped {Ctx : Type} (store : Store Ctx) (d : Dag) :
    OutsShaped store [] (Run.newNodes store d)
      ∧ ((Run.newNodes store d).map Prod.fst).Nodup := by
  unfold Run.newNodes
  have hgen : ∀ (tasks : List TaskPtr) (nodes : Nodes),
      OutsShaped store [] nodes → (nodes.map Prod.fst).Nodup →
      OutsShaped store []
          (tasks.foldl
            (fun nodes t =>
              nodes.put (store t).ID
                { task := t,
                  ins := List.replicate (store t).prior.length none,
                  outs := List.replicate (store t).next.length none,
                  state := TaskRunState.WAIT })
            nodes)
        ∧ ((tasks.foldl
            (fun nodes t =>
              nodes.put (store t).ID
                { task := t,
                  ins := List.replicate (store t).prior.length none,
                  outs := List.replicate (store t).next.length none,
                  state := TaskRunState.WAIT })
            nodes).map Prod.fst).Nodup := by
    intro tasks
    induction tasks with
    | nil =>
      intro nodes hs hn
      exact ⟨hs, hn⟩
    | cons t rest ih =>
      intro nodes hs hn
      rw [List.foldl_cons]
      apply ih
      · intro k r hk
        rw [lookup_put] at hk
        by_cases hkid : k = (store t).ID
        · rw [if_pos hkid] at hk
          have hr := Option.some.inj hk
          subst hr
          simp
        · rw [if_neg hkid] at hk
          exact hs k r hk
      · exact keys_put_nodup nodes _ _ hn
  apply hgen
  · intro k r hk
    simp at hk
  · simp

/-- Every runner `Run` builds has one outbound endpoint for each successor of
its task, or exactly one (the completion channel is appended) when the task
has no successor. -/
theorem build_outs_length {Ctx : Type} (store : Store Ctx) (d : Dag) (st : BuildState)
    (h : Run.build store d = some st) (id : String) (tr : TaskRun)
    (hl : List.lookup id st.nodes = some tr) :
    tr.outs.length
      = if (store tr.task).next = [] then 1 else (store tr.task).next.length := by
  unfold Run.build at h
  obtain ⟨hs0, hn0⟩ := newNodes_shaped store d
  obtain ⟨hs, hk⟩ := setEdges_shaped store _ [] _ st hs0 hn0 (fun _ _ => by simp) h
  have hmem : id ∈ (Run.newNodes store d).map Prod.fst ++ [] := by
    rw [List.append_nil]
    have := mem_keys_of_lookup st.nodes id tr hl
    rw [hk] at this
    exact this
  rw [hs id tr hl]
  by_cases hnil : (store tr.task).next = []
  · rw [if_pos hnil, if_pos ⟨hmem, hnil⟩, hnil]
    rfl
  · rw [if_neg hnil, if_neg (fun hc => hnil hc.2)]
    rfl

/-- Every sink runner `Run` builds panics in `executeAndSignal` when its
`execFunc` returns a branch target. -/
theorem build_sink_branch_panics {Ctx : Type} (store : Store Ctx) (d : Dag) (st : BuildState)
    (h : Run.build store d = some st) (id : String) (tr : TaskRun)
    (hl : List.lookup id st.nodes = some tr) (hsink : (store tr.task).next = [])
    (ctx : Ctx) (hid : ((store tr.task).execFunc ctx).1 ≠ "") :
    (tr.executeAndSignal store ctx).exit = Exit.panicked := by
  have hlen := build_outs_length store d st h id tr hl
  rw [if_pos hsink] at hlen
  rw [executeAndSignal_exit, if_pos]
  refine ⟨hid, ?_⟩
  rw [hsink, hlen]
  exact Nat.zero_lt_one

/-- Every runner `Run` builds for a task with a successor has one outbound
endpoint for each successor. -/
theorem build_branch_in_range {Ctx : Type} (store : Store Ctx) (d : Dag) (st : BuildState)
    (h : Run.build store d = some st) (id : String) (tr : TaskRun)
    (hl : List.lookup id st.nodes = some tr) (hsucc : (store tr.task).next ≠ []) :
    tr.outs.length = (store tr.task).next.length := by
  rw [build_outs_length store d st h id tr hl, if_neg hsucc]

/-- C6 (branching exclusivity). For every runner `Run` builds, whose task has
a successor with the ID that `execFunc` returns as a non-empty branch target:
`executeAndSignal` returns, sends one signal on each outbound endpoint, sends
the resulting state (`SUCCESS` if the success flag is true, `FAIL` otherwise)
on the endpoint of every successor with that ID, of which there is one, and
sends `SKIP` on the endpoint of every other successor, whatever the success
flag is. -/
theorem executeAndSignal_branch_exclusive {Ctx : Type} (store : Store Ctx) (d : Dag)
    (st : BuildState) (id : String) (tr : TaskRun) (ctx : Ctx)
    (hbuild : Run.build store d = some st) (hl : List.lookup id st.nodes = some tr)
    (hid : ((store tr.task).execFunc ctx).1 ≠ "")
    (hmatch : ∃ p ∈ (store tr.task).next, (store p).ID = ((store tr.task).execFunc ctx).1) :
    (tr.executeAndSignal store ctx).exit
        = Exit.returned (execError (store tr.task).ID ((store tr.task).execFunc ctx).2.2)
      ∧ (tr.executeAndSignal store ctx).sent.length = tr.outs.length
      ∧ (∀ (i : Nat) (p : TaskPtr) (out : Chan), (store tr.task).next[i]? = some p →
          tr.outs[i]? = some out →
          (store p).ID = ((store tr.task).execFunc ctx).1 →
          (tr.executeAndSignal store ctx).sent[i]?
            = some (out, if ((store tr.task).execFunc ctx).2.1 then TaskRunState.SUCCESS
                         else TaskRunState.FAIL))
      ∧ (∀ (i : Nat) (p : TaskPtr) (out : Chan), (store tr.task).next[i]? = some p →
          tr.outs[i]? = some out →
          (store p).ID ≠ ((store tr.task).execFunc ctx).1 →
          (tr.executeAndSignal store ctx).sent[i]? = some (out, TaskRunState.SKIP))
      ∧ (∃ (i : Nat) (p : TaskPtr) (out : Chan), (store tr.task).next[i]? = some p
          ∧ tr.outs[i]? = some out
          ∧ (store p).ID = ((store tr.task).execFunc ctx).1
          ∧ (tr.executeAndSignal store ctx).sent[i]?
            = some (out, if ((store tr.task).execFunc ctx).2.1 then TaskRunState.SUCCESS
                         else TaskRunState.FAIL)) := by
  have hsucc : (store tr.task).next ≠ [] := by
    obtain ⟨p, hp, -⟩ := hmatch
    exact List.ne_nil_of_mem hp
  exact executeAndSignal_branch_of_length store tr ctx
    (build_branch_in_range store d st hbuild id tr hl hsucc) hid hmatch

/-- C6, at the runner `Run` builds for `source` in the `branch_example` graph
of main.go, whose `execFunc` returns the branch target `sink`: `job_1` is sent
`SKIP` and `sink` is sent `SUCCESS`. -/
theorem executeAndSignal_branch_exclusive_witness :
    (branchSource.executeAndSignal (branchStore false) "source").sent[0]?
        = some (some 1, TaskRunState.SKIP)
      ∧ (branchSource.executeAndSignal (branchStore false) "source").sent[1]?
        = some (some 3, TaskRunState.SUCCESS) :=
  ⟨(executeAndSignal_branch_exclusive (branchStore false) branchDag
      { nodes := [("source", branchSource),
                  ("job_1", { task := 1, ins := [some 1], outs := [some 2],
                              state := TaskRunState.WAIT }),
                  ("job_2", { task := 2, ins := [some 2], outs := [Run.endChan],
                              state := TaskRunState.WAIT }),
                  ("sink", { task := 3, ins := [some 3], outs := [Run.endChan],
                             state := TaskRunState.WAIT })],
        fresh := 4, endCount := 2 }
      "source" branchSource "source" (by decide) (by decide)
      (by decide) ⟨3, by decide, by decide⟩).2.2.2.1 0 1 (some 1)
      (by decide) (by decide) (by decide),
   (executeAndSignal_branch_exclusive (branchStore false) branchDag
      { nodes := [("source", branchSource),
                  ("job_1", { task := 1, ins := [some 1], outs := [some 2],
                              state := TaskRunState.WAIT }),
                  ("job_2", { task := 2, ins := [some 2], outs := [Run.endChan],
                              state := TaskRunState.WAIT }),
                  ("sink", { task := 3, ins := [some 3], outs := [Run.endChan],
                             state := TaskRunState.WAIT })],
        fresh := 4, endCount := 2 }
      "source" branchSource "source" (by decide) (by decide)
      (by decide) ⟨3, by decide, by decide⟩).2.2.1 1 3 (some 3)
      (by decide) (by decide) (by decide)⟩


/-! ## The graph-building operations of dag.go -/

theorem hasTaskFrom_iff {Ctx : Type} (store : Store Ctx) (id : String) (l : List TaskPtr) :
    hasTaskFrom store id l = true ↔ ∃ p ∈ l, (store p).ID = id := by
  induction l with
  | nil => simp [hasTaskFrom]
  | cons n rest ih =>
    rw [hasTaskFrom]
    by_cases hn : (store n).ID = id
    · rw [if_pos hn]
      exact iff_of_true rfl ⟨n, List.mem_cons_self _ _, hn⟩
    · rw [if_neg hn, ih]
      constructor
      · rintro ⟨p, hp, hpid⟩
        exact ⟨p, List.mem_cons_of_mem _ hp, hpid⟩
      · rintro ⟨p, hp, hpid⟩
        rcases List.mem_cons.mp hp with h | h
        · subst h
          exact absurd hpid hn
        · exact ⟨p, h, hpid⟩

/-- The method `hasTask` answers whether some task in the list of the Dag has
the ID. -/
theorem hasTask_iff {Ctx : Type} (store : Store Ctx) (d : Dag) (id : String) :
    Dag.hasTask store d id = true ↔ ∃ p ∈ d.Tasks, (store p).ID = id :=
  hasTaskFrom_iff store id d.Tasks

theorem Store.set_same {Ctx : Type} (store : Store Ctx) (p : TaskPtr) (t : Task Ctx) :
    Store.set store p t p = t := by
  simp [Store.set]

theorem Store.set_other {Ctx : Type} (store : Store Ctx) (p q : TaskPtr) (t : Task Ctx)
    (h : q ≠ p) : Store.set store p t q = store q := by
  simp [Store.set, h]

theorem setDag_same (dags : DagPtr → Dag) (p : DagPtr) (d : Dag) : setDag dags p d p = d := by
  simp [setDag]

theorem setDag_other (dags : DagPtr → Dag) (p q : DagPtr) (d : Dag) (h : q ≠ p) :
    setDag dags p d q = dags q := by
  simp [setDag, h]

/-- C11. `MakeTask` returns an error if and only if the ID is empty or the Dag
already holds a task with that ID; on error no `*Task` is returned and the
memory (so the task list of the Dag) is unchanged; on success the task list of
the Dag is the previous list with the newly allocated task appended at the
end, the returned task is that one, it has the given ID, is owned by this Dag
and has empty `next` and `prior`, and no other task or Dag has changed. -/
theorem makeTask_spec {Ctx : Type} (h : Heap Ctx) (d : DagPtr) (id : String)
    (op : ExecFunc Ctx) :
    ((Dag.MakeTask h d id op).2.1 ≠ none
        ↔ (id = "" ∨ ∃ p ∈ (h.dags d).Tasks, (h.tasks p).ID = id))
      ∧ ((Dag.MakeTask h d id op).2.1 ≠ none →
          (Dag.MakeTask h d id op).1 = none ∧ (Dag.MakeTask h d id op).2.2 = h)
      ∧ ((Dag.MakeTask h d id op).2.1 = none →
          (Dag.MakeTask h d id op).1 = some h.nTasks
          ∧ ((Dag.MakeTask h d id op).2.2.dags d).Tasks = (h.dags d).Tasks ++ [h.nTasks]
          ∧ ((Dag.MakeTask h d id op).2.2.tasks h.nTasks).ID = id
          ∧ ((Dag.MakeTask h d id op).2.2.tasks h.nTasks).owner = d
          ∧ ((Dag.MakeTask h d id op).2.2.tasks h.nTasks).next = []
          ∧ ((Dag.MakeTask h d id op).2.2.tasks h.nTasks).prior = []
          ∧ (Dag.MakeTask h d id op).2.2.nTasks = h.nTasks + 1
          ∧ (∀ q, q ≠ h.nTasks → (Dag.MakeTask h d id op).2.2.tasks q = h.tasks q)
          ∧ (∀ e, e ≠ d → (Dag.MakeTask h d id op).2.2.dags e = h.dags e)) := by
  unfold Dag.MakeTask
  by_cases hid : id = ""
  · rw [if_pos hid]
    refine ⟨iff_of_true (by simp) (Or.inl hid), fun _ => ⟨rfl, rfl⟩, fun hn => ?_⟩
    exact absurd hn (by simp)
  · rw [if_neg hid]
    by_cases hhas : Dag.hasTask h.tasks (h.dags d) id = true
    · rw [if_pos hhas]
      refine ⟨iff_of_true (by simp) (Or.inr ((hasTask_iff _ _ _).mp hhas)),
        fun _ => ⟨rfl, rfl⟩, fun hn => ?_⟩
      exact absurd hn (by simp)
    · rw [if_neg hhas]
      refine ⟨iff_of_false (by simp) ?_, fun hn => absurd rfl hn, fun _ => ?_⟩
      · rintro (h1 | h2)
        · exact hid h1
        · exact hhas ((hasTask_iff _ _ _).mpr h2)
      · refine ⟨rfl, ?_, ?_, ?_, ?_, ?_, rfl, ?_, ?_⟩
        · simp [setDag]
        · simp [Store.set]
        · simp [Store.set]
        · simp [Store.set]
        · simp [Store.set]
        · intro q hq
          simp [Store.set, hq]
        · intro e he
          simp [setDag, he]

/-- C12 (the code fails here). The tasks at 0 and 1 of `crossHeap` belong to
the different Dags `d1` and `d2` and both have the ID `a`. `SetUpstream`
looks for the ID of `up` among the tasks of the Dag of `n`, finds `n` itself,
returns nil and sets the edge across the two Dags; so does `SetDownstream`. -/
theorem setUpstream_across_dags :
    (crossHeap.tasks 0).owner = 0 ∧ (crossHeap.tasks 1).owner = 1
      ∧ (crossHeap.dags 0).Tasks = [0] ∧ (crossHeap.dags 1).Tasks = [1]
      ∧ (crossHeap.tasks 0).ID = "a" ∧ (crossHeap.tasks 1).ID = "a"
      ∧ (Task.SetUpstream crossHeap 0 1).1 = none
      ∧ ((Task.SetUpstream crossHeap 0 1).2.tasks 1).next = [0]
      ∧ ((Task.SetUpstream crossHeap 0 1).2.tasks 0).prior = [1]
      ∧ (Task.SetDownstream crossHeap 0 1).1 = none
      ∧ ((Task.SetDownstream crossHeap 0 1).2.tasks 0).next = [1]
      ∧ ((Task.SetDownstream crossHeap 0 1).2.tasks 1).prior = [0] := by
  decide

/-- C15 (the code fails here). In `asymHeap` the task `x` (at 0) belongs to the
Dag `d1`, which also has a task `y`, and the task `y` at 2 belongs to the Dag
`d2`. For the edge from the task at 0 to the task at 2, `SetUpstream` called
on the task at 2 returns an error and changes nothing, and `SetDownstream`
called on the task at 0 returns nil and sets the edge. -/
theorem setUpstream_setDownstream_differ :
    (asymHeap.tasks 0).owner = 0 ∧ (asymHeap.tasks 2).owner = 1
      ∧ (asymHeap.tasks 0).ID = "x" ∧ (asymHeap.tasks 1).ID = "y"
      ∧ (asymHeap.tasks 2).ID = "y"
      ∧ (asymHeap.dags 0).Tasks = [0, 1] ∧ (asymHeap.dags 1).Tasks = [2]
      ∧ (Task.SetUpstream asymHeap 2 0).1
        = some "Tasks x and y do not belong to the same Dag"
      ∧ ((Task.SetUpstream asymHeap 2 0).2.tasks 0).next = []
      ∧ ((Task.SetUpstream asymHeap 2 0).2.tasks 2).prior = []
      ∧ (Task.SetDownstream asymHeap 0 2).1 = none
      ∧ ((Task.SetDownstream asymHeap 0 2).2.tasks 0).next = [2]
      ∧ ((Task.SetDownstream asymHeap 0 2).2.tasks 2).prior = [0] := by
  decide

/-- When `b.SetUpstream(a)` and `a.SetDownstream(b)` both succeed, they leave
the same memory. -/
theorem setUpstream_setDownstream_same_effect {Ctx : Type} (h : Heap Ctx) (a b : TaskPtr)
    (hu : (Task.SetUpstream h b a).1 = none) (hd : (Task.SetDownstream h a b).1 = none) :
    (Task.SetUpstream h b a).2 = (Task.SetDownstream h a b).2 := by
  unfold Task.SetUpstream at hu ⊢
  unfold Task.SetDownstream at hd ⊢
  split_ifs at hu hd ⊢
  rfl

/-- C20. Every signal `run` sends on an outbound endpoint, in each of its
branches and in both branches of `executeAndSignal`, is `SUCCESS`, `FAIL`,
`SKIP` or `RESIGN`; `WAIT`, `RUN`, `STOPPED` and `ERROR` are never sent. The
same holds for `executeAndSignal` called on its own. -/
theorem sent_four_valued {Ctx : Type} (store : Store Ctx) (tr : TaskRun)
    (sigs : List TaskRunState) (ctx : Ctx) :
    (∀ e ∈ (tr.run store sigs ctx).sent,
        (e.2 = TaskRunState.SUCCESS ∨ e.2 = TaskRunState.FAIL ∨ e.2 = TaskRunState.SKIP
          ∨ e.2 = TaskRunState.RESIGN)
        ∧ e.2 ≠ TaskRunState.WAIT ∧ e.2 ≠ TaskRunState.RUN
        ∧ e.2 ≠ TaskRunState.STOPPED ∧ e.2 ≠ TaskRunState.ERROR)
      ∧ (∀ e ∈ (tr.executeAndSignal store ctx).sent,
        (e.2 = TaskRunState.SUCCESS ∨ e.2 = TaskRunState.FAIL ∨ e.2 = TaskRunState.SKIP
          ∨ e.2 = TaskRunState.RESIGN)
        ∧ e.2 ≠ TaskRunState.WAIT ∧ e.2 ≠ TaskRunState.RUN
        ∧ e.2 ≠ TaskRunState.STOPPED ∧ e.2 ≠ TaskRunState.ERROR) := by
  have hfour : ∀ v : TaskRunState,
      (v = TaskRunState.SUCCESS ∨ v = TaskRunState.FAIL ∨ v = TaskRunState.SKIP
        ∨ v = TaskRunState.RESIGN) →
      (v = TaskRunState.SUCCESS ∨ v = TaskRunState.FAIL ∨ v = TaskRunState.SKIP
          ∨ v = TaskRunState.RESIGN)
        ∧ v ≠ TaskRunState.WAIT ∧ v ≠ TaskRunState.RUN
        ∧ v ≠ TaskRunState.STOPPED ∧ v ≠ TaskRunState.ERROR := by
    intro v hv
    refine ⟨hv, ?_, ?_, ?_, ?_⟩ <;>
      · rcases hv with h | h | h | h <;> rw [h] <;> decide
  have hbroad : ∀ (outs : List Chan) (v : TaskRunState) (e : Chan × TaskRunState),
      e ∈ broadcast outs v → e.2 = v := by
    intro outs v e he
    unfold broadcast at he
    rw [List.mem_map] at he
    obtain ⟨out, -, hout⟩ := he
    rw [← hout]
  have hloop : ∀ (next : List TaskPtr) (nextID : String) (v : TaskRunState)
      (outs : List Chan) (i : Nat) (e : Chan × TaskRunState),
      e ∈ (signalBranch store next nextID v i outs).1 → e.2 = v ∨ e.2 = TaskRunState.SKIP := by
    intro next nextID v outs
    induction outs with
    | nil =>
      intro i e he
      simp [signalBranch] at he
    | cons out rest ih =>
      intro i e he
      rw [signalBranch] at he
      cases hn : next[i]? with
      | none =>
        simp [hn] at he
      | some p =>
        simp only [hn] at he
        rcases List.mem_cons.mp he with h | h
        · rw [h]
          by_cases hp : nextID = (store p).ID
          · simp [hp]
          · simp [hp]
        · exact ih (i + 1) e h
  have hexec : ∀ e ∈ (tr.executeAndSignal store ctx).sent,
      e.2 = TaskRunState.SUCCESS ∨ e.2 = TaskRunState.FAIL ∨ e.2 = TaskRunState.SKIP
        ∨ e.2 = TaskRunState.RESIGN := by
    intro e he
    have hst : ∀ v : TaskRunState,
        v = (if ((store tr.task).execFunc ctx).2.1 then TaskRunState.SUCCESS
             else TaskRunState.FAIL) →
        v = TaskRunState.SUCCESS ∨ v = TaskRunState.FAIL ∨ v = TaskRunState.SKIP
          ∨ v = TaskRunState.RESIGN := by
      intro v hv
      rw [hv]
      split_ifs
      · exact Or.inl rfl
      · exact Or.inr (Or.inl rfl)
    by_cases hid : ((store tr.task).execFunc ctx).1 = ""
    · rw [executeAndSignal_sent_all store tr ctx hid, List.mem_map] at he
      obtain ⟨out, -, hout⟩ := he
      rw [← hout]
      exact hst _ rfl
    · have hsent : (tr.executeAndSignal store ctx).sent
          = (signalBranch store (store tr.task).next ((store tr.task).execFunc ctx).1
              (if ((store tr.task).execFunc ctx).2.1 then TaskRunState.SUCCESS
               else TaskRunState.FAIL) 0 tr.outs).1 := by
        rw [executeAndSignal_eq, if_neg hid]
        by_cases hp : (signalBranch store (store tr.task).next
            ((store tr.task).execFunc ctx).1
            (if ((store tr.task).execFunc ctx).2.1 then TaskRunState.SUCCESS
             else TaskRunState.FAIL) 0 tr.outs).2 = true
        · rw [if_pos hp]
        · rw [if_neg hp]
      rw [hsent] at he
      rcases hloop _ _ _ _ _ e he with h | h
      · exact hst _ h
      · exact Or.inr (Or.inr (Or.inl h))
  refine ⟨fun e he => hfour _ ?_, fun e he => hfour _ (hexec e he)⟩
  by_cases hroot : tr.ins = []
  · rw [run_root store tr sigs ctx hroot] at he
    exact hexec e he
  · rw [run_nonroot store tr sigs ctx hroot] at he
    split_ifs at he
    · exact Or.inr (Or.inr (Or.inl (hbroad _ _ e he)))
    · exact Or.inr (Or.inr (Or.inr (hbroad _ _ e he)))
    · exact hexec e he
    · exact Or.inr (Or.inr (Or.inr (hbroad _ _ e he)))

/-! ## What the graph-building operations preserve -/

theorem withEdge_next {Ctx : Type} (tasks : Store Ctx) (a b q : TaskPtr) :
    (withEdge tasks a b q).next
      = if q = a then (tasks q).next ++ [b] else (tasks q).next := by
  unfold withEdge Store.set
  by_cases hb : q = b
  · by_cases ha : b = a
    · subst hb
      subst ha
      simp
    · subst hb
      simp [ha]
  · by_cases ha : q = a
    · subst ha
      simp [hb]
    · simp [hb, ha]

theorem withEdge_prior {Ctx : Type} (tasks : Store Ctx) (a b q : TaskPtr) :
    (withEdge tasks a b q).prior
      = if q = b then (tasks q).prior ++ [a] else (tasks q).prior := by
  unfold withEdge Store.set
  by_cases hb : q = b
  · by_cases ha : b = a
    · subst hb
      subst ha
      simp
    · subst hb
      simp [ha]
  · by_cases ha : q = a
    · subst ha
      simp [hb]
    · simp [hb, ha]

theorem withEdge_ID {Ctx : Type} (tasks : Store Ctx) (a b q : TaskPtr) :
    (withEdge tasks a b q).ID = (tasks q).ID := by
  unfold withEdge Store.set
  by_cases hb : q = b
  · by_cases ha : b = a
    · subst hb
      subst ha
      simp
    · subst hb
      simp [ha]
  · by_cases ha : q = a
    · subst ha
      simp [hb]
    · simp [hb, ha]

theorem withEdge_owner {Ctx : Type} (tasks : Store Ctx) (a b q : TaskPtr) :
    (withEdge tasks a b q).owner = (tasks q).owner := by
  unfold withEdge Store.set
  by_cases hb : q = b
  · by_cases ha : b = a
    · subst hb
      subst ha
      simp
    · subst hb
      simp [ha]
  · by_cases ha : q = a
    · subst ha
      simp [hb]
    · simp [hb, ha]

/-- What `SetUpstream` returns and leaves: an error and the memory as it was
when the Dag of `n` has no task with the ID of `up`, nil and the edge from
`up` to `n` otherwise. -/
theorem setUpstream_eq {Ctx : Type} (h : Heap Ctx) (n up : TaskPtr) :
    Task.SetUpstream h n up
      = if Dag.hasTask h.tasks (h.dags (h.tasks n).owner) (h.tasks up).ID = true then
          (none, { h with tasks := withEdge h.tasks up n })
        else
          (some ("Tasks " ++ (h.tasks up).ID ++ " and " ++ (h.tasks n).ID
            ++ " do not belong to the same Dag"), h) := by
  unfold Task.SetUpstream
  by_cases hc : Dag.hasTask h.tasks (h.dags (h.tasks n).owner) (h.tasks up).ID = true
  · simp [hc, withEdge]
  · simp [hc]

/-- What `SetDownstream` returns and leaves: an error and the memory as it was
when the Dag of `n` has no task with the ID of `down`, nil and the edge from
`n` to `down` otherwise. -/
theorem setDownstream_eq {Ctx : Type} (h : Heap Ctx) (n down : TaskPtr) :
    Task.SetDownstream h n down
      = if Dag.hasTask h.tasks (h.dags (h.tasks n).owner) (h.tasks down).ID = true then
          (none, { h with tasks := withEdge h.tasks n down })
        else
          (some ("Tasks " ++ (h.tasks down).ID ++ " and " ++ (h.tasks n).ID
            ++ " do not belong to the same Dag"), h) := by
  unfold Task.SetDownstream
  by_cases hc : Dag.hasTask h.tasks (h.dags (h.tasks n).owner) (h.tasks down).ID = true
  · simp [hc, withEdge]
  · simp [hc]

theorem sound_empty (Ctx : Type) : (Heap.empty Ctx).Sound := by
  refine ⟨?_, ?_, ?_, ?_, ?_, ?_, ?_, ?_⟩ <;> simp [Heap.empty]

theorem sound_new {Ctx : Type} (h : Heap Ctx) (dname : String) (hs : h.Sound) :
    (New h dname).2.Sound := by
  have howner : ∀ p, p < h.nTasks → (h.tasks p).owner ≠ h.nDags := by
    intro p hp ho
    have h1 := hs.registered p hp
    rw [ho, hs.fresh_dags h.nDags (le_refl _)] at h1
    simp at h1
  have hdag : ∀ d, ((New h dname).2.dags d).Tasks = (h.dags d).Tasks := by
    intro d
    by_cases hd : d = h.nDags
    · subst hd
      simp [New, setDag, hs.fresh_dags h.nDags (le_refl _)]
    · simp [New, setDag, hd]
  refine ⟨?_, ?_, ?_, ?_, ?_, ?_, ?_, ?_⟩
  · intro p hp
    rw [hdag]
    exact hs.registered p hp
  · intro d p hp
    rw [hdag] at hp
    exact hs.listed d p hp
  · intro d
    rw [hdag]
    exact hs.ids_nodup d
  · intro d p hp
    rw [hdag] at hp
    exact hs.ids_nonempty d p hp
  · exact hs.fresh_tasks
  · intro d hd
    rw [hdag]
    apply hs.fresh_dags
    simp only [New] at hd
    omega
  · exact hs.mirrored
  · exact hs.totals

theorem sound_makeTask {Ctx : Type} (h : Heap Ctx) (d : DagPtr) (id : String)
    (op : ExecFunc Ctx) (hs : h.Sound) (hd : d < h.nDags) :
    (Dag.MakeTask h d id op).2.2.Sound := by
  unfold Dag.MakeTask
  by_cases hid : id = ""
  · rw [if_pos hid]
    exact hs
  · rw [if_neg hid]
    by_cases hhas : Dag.hasTask h.tasks (h.dags d) id = true
    · rw [if_pos hhas]
      exact hs
    · rw [if_neg hhas]
      have hnew : ∀ p ∈ (h.dags d).Tasks, (h.tasks p).ID ≠ id := by
        intro p hp hpid
        exact hhas ((hasTask_iff _ _ _).mpr ⟨p, hp, hpid⟩)
      have hlt : ∀ e q, q ∈ (h.dags e).Tasks → q ≠ h.nTasks := by
        intro e q hq hqe
        have hq2 := (hs.listed e q hq).1
        rw [hqe] at hq2
        exact Nat.lt_irrefl _ hq2
      have hnext0 : ∀ q, (h.tasks q).next.count h.nTasks = 0 := by
        intro q
        rw [hs.mirrored q h.nTasks, (hs.fresh_tasks h.nTasks (le_refl _)).2]
        rfl
      have hprior0 : ∀ q, (h.tasks q).prior.count h.nTasks = 0 := by
        intro q
        rw [← hs.mirrored h.nTasks q, (hs.fresh_tasks h.nTasks (le_refl _)).1]
        rfl
      refine ⟨?_, ?_, ?_, ?_, ?_, ?_, ?_, ?_⟩
      · intro p hp
        dsimp only at hp ⊢
        by_cases hpn : p = h.nTasks
        · subst hpn
          simp [Store.set, setDag]
        · have hp2 : p < h.nTasks := by omega
          have hreg := hs.registered p hp2
          rw [Store.set_other _ _ _ _ hpn]
          by_cases ho : (h.tasks p).owner = d
          · rw [ho, setDag_same]
            rw [ho] at hreg
            exact List.mem_append_left _ hreg
          · rw [setDag_other _ _ _ _ ho]
            exact hreg
      · intro e p hp
        dsimp only at hp ⊢
        by_cases he : e = d
        · subst he
          rw [setDag_same] at hp
          rcases List.mem_append.mp hp with h1 | h1
          · have := hs.listed e p h1
            rw [Store.set_other _ _ _ _ (hlt e p h1)]
            exact ⟨Nat.lt_succ_of_lt this.1, this.2⟩
          · have hpn : p = h.nTasks := by simpa using h1
            subst hpn
            simp [Store.set]
        · rw [setDag_other _ _ _ _ he] at hp
          have := hs.listed e p hp
          rw [Store.set_other _ _ _ _ (hlt e p hp)]
          exact ⟨Nat.lt_succ_of_lt this.1, this.2⟩
      · intro e
        dsimp only
        by_cases he : e = d
        · subst he
          rw [setDag_same]
          dsimp only
          rw [List.map_append, List.nodup_append]
          have hmap : (h.dags e).Tasks.map
              (fun p => (Store.set h.tasks h.nTasks
                { ID := id, owner := e, execFunc := op, next := [], prior := [],
                  BestEffort := false } p).ID)
              = (h.dags e).Tasks.map (fun p => (h.tasks p).ID) := by
            apply List.map_congr_left
            intro q hq
            rw [Store.set_other _ _ _ _ (hlt e q hq)]
          rw [hmap]
          refine ⟨hs.ids_nodup e, by simp, ?_⟩
          intro x hx hx2
          rw [List.mem_map] at hx
          obtain ⟨q, hq, hqx⟩ := hx
          have hxid : x = id := by simpa [Store.set] using hx2
          rw [hxid] at hqx
          exact hnew q hq hqx
        · rw [setDag_other _ _ _ _ he]
          have hmap : (h.dags e).Tasks.map
              (fun p => (Store.set h.tasks h.nTasks
                { ID := id, owner := d, execFunc := op, next := [], prior := [],
                  BestEffort := false } p).ID)
              = (h.dags e).Tasks.map (fun p => (h.tasks p).ID) := by
            apply List.map_congr_left
            intro q hq
            rw [Store.set_other _ _ _ _ (hlt e q hq)]
          rw [hmap]
          exact hs.ids_nodup e
      · intro e p hp
        dsimp only at hp ⊢
        by_cases he : e = d
        · subst he
          rw [setDag_same] at hp
          rcases List.mem_append.mp hp with h1 | h1
          · rw [Store.set_other _ _ _ _ (hlt e p h1)]
            exact hs.ids_nonempty e p h1
          · have hpn : p = h.nTasks := by simpa using h1
            subst hpn
            simpa [Store.set] using hid
        · rw [setDag_other _ _ _ _ he] at hp
          rw [Store.set_other _ _ _ _ (hlt e p hp)]
          exact hs.ids_nonempty e p hp
      · intro p hp
        dsimp only at hp ⊢
        have hpn : p ≠ h.nTasks := by omega
        rw [Store.set_other _ _ _ _ hpn]
        exact hs.fresh_tasks p (by omega)
      · intro e he
        dsimp only at he ⊢
        have hed : e ≠ d := by
          intro hed
          rw [hed] at he
          exact Nat.not_le_of_lt hd he
        rw [setDag_other _ _ _ _ hed]
        exact hs.fresh_dags e he
      · intro a b
        dsimp only
        by_cases ha : a = h.nTasks
        · by_cases hb : b = h.nTasks
          · subst ha
            subst hb
            simp [Store.set]
          · subst ha
            rw [Store.set_same, Store.set_other _ _ _ _ hb]
            simp [hprior0 b]
        · by_cases hb : b = h.nTasks
          · subst hb
            rw [Store.set_same, Store.set_other _ _ _ _ ha]
            simp [hnext0 a]
          · rw [Store.set_other _ _ _ _ ha, Store.set_other _ _ _ _ hb]
            exact hs.mirrored a b
      · dsimp only
        rw [Finset.sum_range_succ, Finset.sum_range_succ, Store.set_same]
        have h1 : Finset.sum (Finset.range h.nTasks)
            (fun p => (Store.set h.tasks h.nTasks
              { ID := id, owner := d, execFunc := op, next := [], prior := [],
                BestEffort := false } p).next.length)
            = Finset.sum (Finset.range h.nTasks) (fun p => (h.tasks p).next.length) := by
          apply Finset.sum_congr rfl
          intro q hq
          have hq2 : q ≠ h.nTasks := by
            have := Finset.mem_range.mp hq
            omega
          rw [Store.set_other _ _ _ _ hq2]
        have h2 : Finset.sum (Finset.range h.nTasks)
            (fun p => (Store.set h.tasks h.nTasks
              { ID := id, owner := d, execFunc := op, next := [], prior := [],
                BestEffort := false } p).prior.length)
            = Finset.sum (Finset.range h.nTasks) (fun p => (h.tasks p).prior.length) := by
          apply Finset.sum_congr rfl
          intro q hq
          have hq2 : q ≠ h.nTasks := by
            have := Finset.mem_range.mp hq
            omega
          rw [Store.set_other _ _ _ _ hq2]
        rw [h1, h2, hs.totals]

theorem sound_edge {Ctx : Type} (h : Heap Ctx) (a b : TaskPtr) (hs : h.Sound)
    (ha : a < h.nTasks) (hb : b < h.nTasks) :
    Heap.Sound { h with tasks := withEdge h.tasks a b } := by
  refine ⟨?_, ?_, ?_, ?_, ?_, ?_, ?_, ?_⟩
  · intro p hp
    dsimp only at hp ⊢
    rw [withEdge_owner]
    exact hs.registered p hp
  · intro d p hp
    dsimp only at hp ⊢
    rw [withEdge_owner]
    exact hs.listed d p hp
  · intro d
    dsimp only
    have hmap : (h.dags d).Tasks.map (fun p => (withEdge h.tasks a b p).ID)
        = (h.dags d).Tasks.map (fun p => (h.tasks p).ID) := by
      apply List.map_congr_left
      intro q _
      rw [withEdge_ID]
    rw [hmap]
    exact hs.ids_nodup d
  · intro d p hp
    dsimp only at hp ⊢
    rw [withEdge_ID]
    exact hs.ids_nonempty d p hp
  · intro p hp
    dsimp only at hp ⊢
    have hpa : p ≠ a := by
      intro hpa
      rw [hpa] at hp
      exact Nat.not_le_of_lt ha hp
    have hpb : p ≠ b := by
      intro hpb
      rw [hpb] at hp
      exact Nat.not_le_of_lt hb hp
    rw [withEdge_next, withEdge_prior, if_neg hpa, if_neg hpb]
    exact hs.fresh_tasks p hp
  · exact hs.fresh_dags
  · intro x y
    dsimp only
    rw [withEdge_next, withEdge_prior]
    have hm := hs.mirrored x y
    by_cases hx : x = a
    · by_cases hy : y = b
      · rw [if_pos hx, if_pos hy, List.count_append, List.count_append, hm, hx, hy]
        simp
      · rw [if_pos hx, if_neg hy, List.count_append, hm]
        have hby : ¬ b = y := fun hc => hy hc.symm
        simp [List.count_cons, hby]
    · by_cases hy : y = b
      · rw [if_neg hx, if_pos hy, List.count_append, hm]
        have hax : ¬ a = x := fun hc => hx hc.symm
        simp [List.count_cons, hax]
      · rw [if_neg hx, if_neg hy]
        exact hm
  · dsimp only
    have h1 : Finset.sum (Finset.range h.nTasks)
        (fun p => (withEdge h.tasks a b p).next.length)
        = Finset.sum (Finset.range h.nTasks) (fun p => (h.tasks p).next.length) + 1 := by
      have hfun : ∀ p ∈ Finset.range h.nTasks, (withEdge h.tasks a b p).next.length
          = (h.tasks p).next.length + (if p = a then 1 else 0) := by
        intro p _
        rw [withEdge_next]
        by_cases hp : p = a
        · simp [hp]
        · simp [hp]
      rw [Finset.sum_congr rfl hfun, Finset.sum_add_distrib, Finset.sum_ite_eq']
      simp [ha]
    have h2 : Finset.sum (Finset.range h.nTasks)
        (fun p => (withEdge h.tasks a b p).prior.length)
        = Finset.sum (Finset.range h.nTasks) (fun p => (h.tasks p).prior.length) + 1 := by
      have hfun : ∀ p ∈ Finset.range h.nTasks, (withEdge h.tasks a b p).prior.length
          = (h.tasks p).prior.length + (if p = b then 1 else 0) := by
        intro p _
        rw [withEdge_prior]
        by_cases hp : p = b
        · simp [hp]
        · simp [hp]
      rw [Finset.sum_congr rfl hfun, Finset.sum_add_distrib, Finset.sum_ite_eq']
      simp [hb]
    rw [h1, h2, hs.totals]

theorem sound_setUpstream {Ctx : Type} (h : Heap Ctx) (n up : TaskPtr) (hs : h.Sound)
    (hn : n < h.nTasks) (hup : up < h.nTasks) : (Task.SetUpstream h n up).2.Sound := by
  rw [setUpstream_eq]
  split_ifs
  · exact sound_edge h up n hs hup hn
  · exact hs

theorem sound_setDownstream {Ctx : Type} (h : Heap Ctx) (n down : TaskPtr) (hs : h.Sound)
    (hn : n < h.nTasks) (hdown : down < h.nTasks) : (Task.SetDownstream h n down).2.Sound := by
  rw [setDownstream_eq]
  split_ifs
  · exact sound_edge h n down hs hn hdown
  · exact hs

/-- Every reachable memory is sound. -/
theorem reachable_sound {Ctx : Type} (h : Heap Ctx) (hr : Reachable h) : h.Sound := by
  induction hr with
  | empty => exact sound_empty Ctx
  | new h dname _ ih => exact sound_new h dname ih
  | makeTask h d id op _ hd ih => exact sound_makeTask h d id op ih hd
  | setUpstream h n up _ hn hup ih => exact sound_setUpstream h n up ih hn hup
  | setDownstream h n down _ hn hdown ih => exact sound_setDownstream h n down ih hn hdown

/-- In a reachable memory, `SetUpstream` and `SetDownstream` on two tasks of
the same Dag return nil and record the edge. -/
theorem setUpstream_same_dag {Ctx : Type} (h : Heap Ctx) (hr : Reachable h) (n up : TaskPtr)
    (hup : up < h.nTasks)
    (hsame : (h.tasks n).owner = (h.tasks up).owner) :
    Task.SetUpstream h n up = (none, { h with tasks := withEdge h.tasks up n })
      ∧ Task.SetDownstream h n up = (none, { h with tasks := withEdge h.tasks n up }) := by
  have hs := reachable_sound h hr
  have hhas : Dag.hasTask h.tasks (h.dags (h.tasks n).owner) (h.tasks up).ID = true := by
    rw [hasTask_iff, hsame]
    exact ⟨up, hs.registered up hup, rfl⟩
  constructor
  · rw [setUpstream_eq, if_pos hhas]
  · rw [setDownstream_eq, if_pos hhas]

/-- C13 (mirrored edges). In every reachable memory, for every two tasks `a`
and `b` the number of occurrences of `b` in `a.next` is the number of
occurrences of `a` in `b.prior`, and over the allocated tasks the total length
of the `next` lists is the total length of the `prior` lists. -/
theorem edges_mirrored {Ctx : Type} (h : Heap Ctx) (hr : Reachable h) :
    (∀ a b : TaskPtr, (h.tasks a).next.count b = (h.tasks b).prior.count a)
      ∧ Finset.sum (Finset.range h.nTasks) (fun p => (h.tasks p).next.length)
        = Finset.sum (Finset.range h.nTasks) (fun p => (h.tasks p).prior.length) :=
  ⟨(reachable_sound h hr).mirrored, (reachable_sound h hr).totals⟩

/-- C13, at the memory with the edge from `a` to `b` set twice. -/
theorem edges_mirrored_witness :
    (dupHeap.tasks 0).next.count 1 = (dupHeap.tasks 1).prior.count 0
      ∧ (dupHeap.tasks 0).next.count 1 = 2 :=
  ⟨(edges_mirrored dupHeap
      (Reachable.setUpstream _ 1 0
        (Reachable.setUpstream _ 1 0
          (Reachable.makeTask _ 0 "b" printMyID
            (Reachable.makeTask _ 0 "a" printMyID
              (Reachable.new _ "dup" Reachable.empty) (by decide))
            (by decide))
          (by decide) (by decide))
        (by decide) (by decide))).1 0 1,
   by decide⟩

/-- C14 (unique, non-empty IDs). In every reachable memory and for every Dag,
the IDs of the tasks in the task list of the Dag are pairwise different, so
two entries of the list with the same ID are the same task, and none of them
is the empty string. -/
theorem task_ids_unique {Ctx : Type} (h : Heap Ctx) (hr : Reachable h) (d : DagPtr) :
    ((h.dags d).Tasks.map (fun p => (h.tasks p).ID)).Nodup
      ∧ (∀ p ∈ (h.dags d).Tasks, ∀ q ∈ (h.dags d).Tasks,
          (h.tasks p).ID = (h.tasks q).ID → p = q)
      ∧ (∀ p ∈ (h.dags d).Tasks, (h.tasks p).ID ≠ "") := by
  have hs := reachable_sound h hr
  refine ⟨hs.ids_nodup d, ?_, hs.ids_nonempty d⟩
  intro p hp q hq hpq
  exact List.inj_on_of_nodup_map (hs.ids_nodup d) hp hq hpq

/-- C14, at the memory of `asymHeap` after a `MakeTask` that fails on the
duplicate ID `x`. -/
theorem task_ids_unique_witness :
    (((Dag.MakeTask asymHeap 0 "x" printMyID).2.2.dags 0).Tasks.map
        (fun p => ((Dag.MakeTask asymHeap 0 "x" printMyID).2.2.tasks p).ID)).Nodup :=
  (task_ids_unique (Dag.MakeTask asymHeap 0 "x" printMyID).2.2
    (Reachable.makeTask _ 0 "x" printMyID
      (Reachable.makeTask _ 1 "y" printMyID
        (Reachable.makeTask _ 0 "y" printMyID
          (Reachable.makeTask _ 0 "x" printMyID
            (Reachable.new _ "d2" (Reachable.new _ "d1" Reachable.empty))
            (by decide))
          (by decide))
        (by decide))
      (by decide)) 0).1


/-! ## Runs: reachable states and bounded exploration -/

theorem reach_mem_within {Ctx : Type} (store : Store Ctx) (params : String → Ctx)
    (s s' : RunState Ctx) (hr : Run.Reach store params s s') :
    ∀ n, (Run.after store params n s).isEmpty = true → s' ∈ Run.within store params n s := by
  induction hr with
  | refl s =>
    intro n hn
    cases n with
    | zero => simp [Run.after] at hn
    | succ m => simp [Run.within]
  | step s s₁ s₂ hs _ ih =>
    intro n hn
    cases n with
    | zero => simp [Run.after] at hn
    | succ m =>
      have hm : (Run.after store params m s₁).isEmpty = true := by
        rw [Run.after, List.isEmpty_iff] at hn
        rw [List.isEmpty_iff]
        cases hl : Run.after store params m s₁ with
        | nil => rfl
        | cons x xs =>
          have hx : x ∈ (Run.succs store params s).flatMap (Run.after store params m) := by
            rw [List.mem_flatMap]
            exact ⟨s₁, hs, by rw [hl]; exact List.mem_cons_self _ _⟩
          rw [hn] at hx
          simp at hx
      rw [Run.within]
      apply List.mem_cons_of_mem
      rw [List.mem_flatMap]
      exact ⟨s₁, hs, ih m hm⟩

/-- When no run from `s` has `n` steps, what holds of the states after fewer
than `n` steps holds of every state a run from `s` reaches. -/
theorem reach_check {Ctx : Type} (store : Store Ctx) (params : String → Ctx)
    (Q : RunState Ctx → Prop) (s : RunState Ctx) (n : Nat)
    (hn : (Run.after store params n s).isEmpty = true)
    (hall : ∀ x ∈ Run.within store params n s, Q x) :
    ∀ s', Run.Reach store params s s' → Q s' :=
  fun s' hr => hall s' (reach_mem_within store params s s' hr n hn)

/-- What holds at the start and is kept by every step holds of every state a
run reaches. -/
theorem reach_invariant {Ctx : Type} (store : Store Ctx) (params : String → Ctx)
    (I : RunState Ctx → Prop)
    (hstep : ∀ s s', I s → s' ∈ Run.succs store params s → I s')
    (s s' : RunState Ctx) (hr : Run.Reach store params s s') (hs : I s) : I s' := by
  induction hr with
  | refl s => exact hs
  | step s s₁ s₂ h₁ _ ih => exact ih (hstep s s₁ hs h₁)

/-- The two kinds of step: the runner under a key that has not ended receives
on its inbound endpoints and runs, or `Run` receives a pending send on `end`. -/
theorem succs_cases {Ctx : Type} (store : Store Ctx) (params : String → Ctx)
    (s s' : RunState Ctx) (h : s' ∈ Run.succs store params s) :
    (∃ id tr r, List.lookup id s.nodes = some tr ∧ id ∉ s.ended
        ∧ r ∈ receiveAll tr.ins s.pending
        ∧ s' = { nodes := s.nodes.put id (tr.run store r.1 (params id)).tr,
                 pending := r.2 ++ (tr.run store r.1 (params id)).sent,
                 ended := id :: s.ended,
                 calls := s.calls
                   ++ (tr.run store r.1 (params id)).calls.map (fun c => (id, c)),
                 endCount := s.endCount,
                 panicked := s.panicked
                   || decide ((tr.run store r.1 (params id)).exit = Exit.panicked) })
      ∨ (∃ e ∈ s.pending,
          s' = { s with pending := s.pending.erase e, endCount := s.endCount - 1 }) := by
  unfold Run.succs at h
  by_cases hp : s.panicked = true
  · rw [if_pos hp] at h
    simp at h
  · rw [if_neg hp, List.mem_append] at h
    rcases h with h | h
    · left
      rw [List.mem_flatMap] at h
      obtain ⟨id, -, hid⟩ := h
      unfold Run.stepsOf at hid
      cases hl : List.lookup id s.nodes with
      | none =>
        simp [hl] at hid
      | some tr =>
        simp only [hl] at hid
        by_cases he : id ∈ s.ended
        · rw [if_pos he] at hid
          simp at hid
        · rw [if_neg he, List.mem_map] at hid
          obtain ⟨r, hr, hs'⟩ := hid
          exact ⟨id, tr, r, hl, he, hr, hs'.symm⟩
    · right
      unfold Run.waitSteps at h
      by_cases hc : s.endCount > 0
      · rw [if_pos hc, List.mem_map] at h
        obtain ⟨e, he, hs'⟩ := h
        exact ⟨e, (List.mem_filter.mp he).1, hs'.symm⟩
      · rw [if_neg hc] at h
        simp at h

/-- What a runner receives: every value comes from a pending send on one of
its inbound endpoints, and the sends left were pending. -/
theorem receiveAll_spec :
    ∀ (ins : List Chan) (pending : List (Chan × TaskRunState))
      (r : List TaskRunState × List (Chan × TaskRunState)),
      r ∈ receiveAll ins pending →
      (∀ v ∈ r.1, ∃ c ∈ ins, (c, v) ∈ pending) ∧ (∀ e ∈ r.2, e ∈ pending) := by
  intro ins
  induction ins with
  | nil =>
    intro pending r hr
    simp only [receiveAll, List.mem_singleton] at hr
    subst hr
    exact ⟨by simp, fun e he => he⟩
  | cons c rest ih =>
    intro pending r hr
    rw [receiveAll, List.mem_flatMap] at hr
    obtain ⟨e, he, hr2⟩ := hr
    rw [List.mem_map] at hr2
    obtain ⟨r', hr', hrr⟩ := hr2
    obtain ⟨hemem, hec⟩ := List.mem_filter.mp he
    have hec2 : e.1 = c := by
      have := of_decide_eq_true hec
      exact this.2
    obtain ⟨h1, h2⟩ := ih (pending.erase e) r' hr'
    subst hrr
    constructor
    · intro v hv
      rcases List.mem_cons.mp hv with hv1 | hv1
      · refine ⟨c, List.mem_cons_self _ _, ?_⟩
        rw [hv1, ← hec2]
        exact hemem
      · obtain ⟨c', hc', hmem⟩ := h1 v hv1
        exact ⟨c', List.mem_cons_of_mem _ hc', List.mem_of_mem_erase hmem⟩
    · intro x hx
      exact List.mem_of_mem_erase (h2 x hx)

/-- The method `run` changes nothing of the runner but its state. -/
theorem run_static {Ctx : Type} (store : Store Ctx) (tr : TaskRun) (sigs : List TaskRunState)
    (ctx : Ctx) :
    (tr.run store sigs ctx).tr.task = tr.task ∧ (tr.run store sigs ctx).tr.ins = tr.ins
      ∧ (tr.run store sigs ctx).tr.outs = tr.outs := by
  by_cases hroot : tr.ins = []
  · rw [run_root store tr sigs ctx hroot, executeAndSignal_tr]
    exact ⟨rfl, rfl, rfl⟩
  · rw [run_nonroot store tr sigs ctx hroot]
    split_ifs
    · exact ⟨rfl, rfl, rfl⟩
    · exact ⟨rfl, rfl, rfl⟩
    · rw [executeAndSignal_tr]
      exact ⟨rfl, rfl, rfl⟩
    · exact ⟨rfl, rfl, rfl⟩

/-- A runner ends in state `SUCCESS` only through `executeAndSignal`. -/
theorem run_success_executes {Ctx : Type} (store : Store Ctx) (tr : TaskRun)
    (sigs : List TaskRunState) (ctx : Ctx)
    (h : (tr.run store sigs ctx).tr.state = TaskRunState.SUCCESS) :
    tr.run store sigs ctx = tr.executeAndSignal store ctx := by
  by_cases hroot : tr.ins = []
  · exact run_root store tr sigs ctx hroot
  · rw [run_nonroot store tr sigs ctx hroot] at h ⊢
    split_ifs at h ⊢
    all_goals rfl

theorem signalBranch_mem {Ctx : Type} (store : Store Ctx) (next : List TaskPtr)
    (nextID : String) (state : TaskRunState) :
    ∀ (outs : List Chan) (i : Nat) (e : Chan × TaskRunState),
      e ∈ (signalBranch store next nextID state i outs).1 →
      ∃ (j : Nat) (p : TaskPtr), outs[j]? = some e.1 ∧ next[i + j]? = some p
        ∧ e.2 = if nextID = (store p).ID then state else TaskRunState.SKIP := by
  intro outs
  induction outs with
  | nil =>
    intro i e he
    simp [signalBranch] at he
  | cons out rest ih =>
    intro i e he
    rw [signalBranch] at he
    cases hn : next[i]? with
    | none => simp [hn] at he
    | some p =>
      simp only [hn] at he
      rcases List.mem_cons.mp he with h | h
      · refine ⟨0, p, ?_, ?_, ?_⟩
        · rw [h]
          simp
        · simpa using hn
        · rw [h]
      · obtain ⟨j, q, h1, h2, h3⟩ := ih (i + 1) e h
        refine ⟨j + 1, q, ?_, ?_, h3⟩
        · simpa using h1
        · rw [← h2]
          congr 1
          omega

/-- The sends of `executeAndSignal` with a branch target: a send on the
endpoint at a position `k` carries the final state when `next[k]` has the
target ID and `SKIP` otherwise. -/
theorem executeAndSignal_sent_mem {Ctx : Type} (store : Store Ctx) (tr : TaskRun) (ctx : Ctx)
    (hid : ((store tr.task).execFunc ctx).1 ≠ "") (e : Chan × TaskRunState)
    (he : e ∈ (tr.executeAndSignal store ctx).sent) :
    ∃ (k : Nat) (p : TaskPtr), tr.outs[k]? = some e.1 ∧ (store tr.task).next[k]? = some p
      ∧ e.2 = if ((store tr.task).execFunc ctx).1 = (store p).ID then
                (if ((store tr.task).execFunc ctx).2.1 then TaskRunState.SUCCESS
                 else TaskRunState.FAIL)
              else TaskRunState.SKIP := by
  have hsent : (tr.executeAndSignal store ctx).sent
      = (signalBranch store (store tr.task).next ((store tr.task).execFunc ctx).1
          (if ((store tr.task).execFunc ctx).2.1 then TaskRunState.SUCCESS
           else TaskRunState.FAIL) 0 tr.outs).1 := by
    rw [executeAndSignal_eq, if_neg hid]
    by_cases hp : (signalBranch store (store tr.task).next
        ((store tr.task).execFunc ctx).1
        (if ((store tr.task).execFunc ctx).2.1 then TaskRunState.SUCCESS
         else TaskRunState.FAIL) 0 tr.outs).2 = true
    · rw [if_pos hp]
    · rw [if_neg hp]
  rw [hsent] at he
  obtain ⟨j, p, h1, h2, h3⟩ := signalBranch_mem store _ _ _ tr.outs 0 e he
  rw [Nat.zero_add] at h2
  exact ⟨j, p, h1, h2, h3⟩

/-- Every send of `run` is on one of the outbound endpoints of the runner. -/
theorem run_sent_endpoint {Ctx : Type} (store : Store Ctx) (tr : TaskRun)
    (sigs : List TaskRunState) (ctx : Ctx) (e : Chan × TaskRunState)
    (he : e ∈ (tr.run store sigs ctx).sent) : ∃ k : Nat, tr.outs[k]? = some e.1 := by
  have hbroad : ∀ (v : TaskRunState), e ∈ broadcast tr.outs v →
      ∃ k : Nat, tr.outs[k]? = some e.1 := by
    intro v hv
    unfold broadcast at hv
    rw [List.mem_map] at hv
    obtain ⟨out, hout, hoe⟩ := hv
    obtain ⟨k, hk⟩ := List.mem_iff_getElem?.mp hout
    exact ⟨k, by rw [hk, ← hoe]⟩
  have hexec : e ∈ (tr.executeAndSignal store ctx).sent →
      ∃ k : Nat, tr.outs[k]? = some e.1 := by
    intro hx
    by_cases hid : ((store tr.task).execFunc ctx).1 = ""
    · rw [executeAndSignal_sent_all store tr ctx hid] at hx
      exact hbroad _ hx
    · obtain ⟨k, p, h1, -, -⟩ := executeAndSignal_sent_mem store tr ctx hid e hx
      exact ⟨k, h1⟩
  by_cases hroot : tr.ins = []
  · rw [run_root store tr sigs ctx hroot] at he
    exact hexec he
  · rw [run_nonroot store tr sigs ctx hroot] at he
    split_ifs at he
    · exact hbroad _ he
    · exact hbroad _ he
    · exact hexec he
    · exact hbroad _ he

/-! ## Skip propagation behind an election -/

/-- A non-root runner that received only `SKIP` is skipped. -/
theorem run_of_all_skip {Ctx : Type} (store : Store Ctx) (tr : TaskRun)
    (sigs : List TaskRunState) (ctx : Ctx) (hroot : tr.ins ≠ [])
    (hall : ∀ s ∈ sigs, s = TaskRunState.SKIP) :
    tr.run store sigs ctx
      = { tr := { tr with state := TaskRunState.SKIP }, calls := [],
          sent := broadcast tr.outs TaskRunState.SKIP, exit := Exit.returned none } := by
  rw [run_nonroot store tr sigs ctx hroot, if_pos hall]

/-- A runner that received only `SUCCESS` executes. -/
theorem run_of_all_success {Ctx : Type} (store : Store Ctx) (tr : TaskRun)
    (sigs : List TaskRunState) (ctx : Ctx) (hlen : sigs.length = tr.ins.length)
    (hall : ∀ s ∈ sigs, s = TaskRunState.SUCCESS) :
    tr.run store sigs ctx = tr.executeAndSignal store ctx := by
  by_cases hroot : tr.ins = []
  · exact run_root store tr sigs ctx hroot
  · have hne : sigs ≠ [] := by
      intro h
      rw [h] at hlen
      exact hroot (List.length_eq_zero.mp hlen.symm)
    obtain ⟨v, hv⟩ := List.exists_mem_of_ne_nil sigs hne
    have hmem : TaskRunState.SUCCESS ∈ sigs := by
      rw [← hall v hv]
      exact hv
    have h1 : ¬ ∀ s ∈ sigs, s = TaskRunState.SKIP := fun h => absurd (h _ hmem) (by decide)
    have h2 : ¬ (((store tr.task).BestEffort = false
          ∧ ∃ s ∈ sigs, s = TaskRunState.FAIL ∨ s = TaskRunState.RESIGN)
        ∨ ((store tr.task).BestEffort = true
          ∧ ∀ s ∈ sigs, s = TaskRunState.FAIL ∨ s = TaskRunState.RESIGN
              ∨ s = TaskRunState.SKIP)) := by
      rintro (⟨-, s, hs, hs'⟩ | ⟨-, h⟩)
      · rw [hall s hs] at hs'
        exact absurd hs' (by decide)
      · exact absurd (h _ hmem) (by decide)
    have h3 : TaskRunState.SUCCESS ∈ sigs
        ∧ (((store tr.task).BestEffort = false
            ∧ ∀ s ∈ sigs, s = TaskRunState.SUCCESS ∨ s = TaskRunState.SKIP)
          ∨ ((store tr.task).BestEffort = true
            ∧ ∀ s ∈ sigs, s = TaskRunState.SUCCESS ∨ s = TaskRunState.FAIL
                ∨ s = TaskRunState.RESIGN ∨ s = TaskRunState.SKIP)) := by
      refine ⟨hmem, ?_⟩
      cases hb : (store tr.task).BestEffort
      · exact Or.inl ⟨rfl, fun s hs => Or.inl (hall s hs)⟩
      · exact Or.inr ⟨rfl, fun s hs => Or.inl (hall s hs)⟩
    rw [run_nonroot store tr sigs ctx hroot, if_neg h1, if_neg h2, if_pos h3]

/-- A runner receives one value for each of its inbound endpoints. -/
theorem receiveAll_length :
    ∀ (ins : List Chan) (pending : List (Chan × TaskRunState))
      (r : List TaskRunState × List (Chan × TaskRunState)),
      r ∈ receiveAll ins pending → r.1.length = ins.length := by
  intro ins
  induction ins with
  | nil =>
    intro pending r hr
    simp only [receiveAll, List.mem_singleton] at hr
    rw [hr]
    rfl
  | cons c rest ih =>
    intro pending r hr
    simp only [receiveAll, List.mem_flatMap, List.mem_map] at hr
    obtain ⟨e, -, r', hr', hrr⟩ := hr
    rw [← hrr]
    simp only [List.length_cons]
    rw [ih _ r' hr']

theorem mem_of_lookup (nodes : Nodes) (k : String) (tr : TaskRun)
    (h : List.lookup k nodes = some tr) : (k, tr) ∈ nodes := by
  induction nodes with
  | nil => simp at h
  | cons e es ih =>
    obtain ⟨a, b⟩ := e
    rw [lookup_cons_eq] at h
    by_cases hk : k = a
    · rw [if_pos hk] at h
      have hb := Option.some.inj h
      rw [hk, hb]
      exact List.mem_cons_self _ _
    · rw [if_neg hk] at h
      exact List.mem_cons_of_mem _ (ih h)

/-- Skip propagation behind the unchosen endpoints of an electing runner. In
every state a run reaches in which the runner under `bid`, if it has ended,
has ended in state `SUCCESS`: no runner with a key in the region has called
`execFunc`, and every one of them that has ended is in state `SKIP`. -/
theorem skip_region_safe {Ctx : Type} (store : Store Ctx) (params : String → Ctx)
    (s₀ : RunState Ctx) (bid : String) (trB : TaskRun) (region : List String)
    (hstart : s₀.pending = [] ∧ s₀.ended = [] ∧ s₀.calls = [])
    (hB : List.lookup bid s₀.nodes = some trB)
    (htarget : ((store trB.task).execFunc (params bid)).1 ≠ "")
    (hregion : BehindUnchosen store s₀.nodes bid (store trB.task).next
      ((store trB.task).execFunc (params bid)).1 region)
    (s : RunState Ctx) (hr : Run.Reach store params s₀ s)
    (hcond : bid ∈ s.ended →
      ∃ tr, List.lookup bid s.nodes = some tr ∧ tr.state = TaskRunState.SUCCESS) :
    (∀ c ∈ s.calls, c.1 ∉ region)
      ∧ (∀ id ∈ region, id ∈ s.ended → ∀ tr, List.lookup id s.nodes = some tr →
          tr.state = TaskRunState.SKIP) := by
  have hinv := reach_invariant store params
    (fun s =>
      (∀ id tr, List.lookup id s.nodes = some tr →
        ∃ tr₀, List.lookup id s₀.nodes = some tr₀ ∧ tr.task = tr₀.task
          ∧ tr.ins = tr₀.ins ∧ tr.outs = tr₀.outs)
      ∧ ((bid ∈ s.ended →
            ∃ tr, List.lookup bid s.nodes = some tr ∧ tr.state = TaskRunState.SUCCESS) →
          (∀ e ∈ s.pending, (∃ e₀ ∈ s₀.nodes, e₀.1 ∈ region ∧ e.1 ∈ e₀.2.ins) →
              e.2 = TaskRunState.SKIP)
          ∧ (∀ c ∈ s.calls, c.1 ∉ region)
          ∧ (∀ id ∈ region, id ∈ s.ended → ∀ tr, List.lookup id s.nodes = some tr →
              tr.state = TaskRunState.SKIP)))
    ?_ s₀ s hr ?_
  · exact ⟨(hinv.2 hcond).2.1, (hinv.2 hcond).2.2⟩
  · -- every step keeps the invariant
    intro s s' hI hstep
    obtain ⟨hA, hrest⟩ := hI
    rcases succs_cases store params s s' hstep with
      ⟨X, tr, r, hl, hXe, hrecv, hs'⟩ | ⟨e, he, hs'⟩
    · obtain ⟨tr₀, hl₀, ht₀, hi₀, ho₀⟩ := hA X tr hl
      have hstat := run_static store tr r.1 (params X)
      have hnodes : s'.nodes = s.nodes.put X (tr.run store r.1 (params X)).tr := by
        rw [hs']
      have hpend : s'.pending = r.2 ++ (tr.run store r.1 (params X)).sent := by
        rw [hs']
      have hend : s'.ended = X :: s.ended := by
        rw [hs']
      have hcalls : s'.calls = s.calls
          ++ (tr.run store r.1 (params X)).calls.map (fun c => (X, c)) := by
        rw [hs']
      refine ⟨?_, ?_⟩
      · intro id t ht
        rw [hnodes, lookup_put] at ht
        by_cases hid : id = X
        · rw [if_pos hid] at ht
          have hteq := Option.some.inj ht
          rw [← hteq, hid]
          exact ⟨tr₀, hl₀, by rw [hstat.1, ht₀], by rw [hstat.2.1, hi₀],
            by rw [hstat.2.2, ho₀]⟩
        · rw [if_neg hid] at ht
          exact hA id t ht
      · intro hcond'
        have hcond_s : bid ∈ s.ended →
            ∃ t, List.lookup bid s.nodes = some t ∧ t.state = TaskRunState.SUCCESS := by
          intro hb
          have hbX : bid ≠ X := fun hc => hXe (hc ▸ hb)
          have hb' : bid ∈ s'.ended := by
            rw [hend]
            exact List.mem_cons_of_mem _ hb
          obtain ⟨t, ht, hts⟩ := hcond' hb'
          rw [hnodes, lookup_put, if_neg hbX] at ht
          exact ⟨t, ht, hts⟩
        obtain ⟨hP, hC, hS⟩ := hrest hcond_s
        obtain ⟨hrv, hrl⟩ := receiveAll_spec tr.ins s.pending r hrecv
        by_cases hXr : X ∈ region
        · -- a runner of the region receives only `SKIP`
          have hmem₀ : (X, tr₀) ∈ s₀.nodes := mem_of_lookup _ _ _ hl₀
          obtain ⟨hins, -⟩ := hregion (X, tr₀) hmem₀ hXr
          have hroot : tr.ins ≠ [] := by
            rw [hi₀]
            exact hins
          have hall : ∀ v ∈ r.1, v = TaskRunState.SKIP := by
            intro v hv
            obtain ⟨c, hc, hcv⟩ := hrv v hv
            exact hP (c, v) hcv ⟨(X, tr₀), hmem₀, hXr, by rw [← hi₀]; exact hc⟩
          have hrun := run_of_all_skip store tr r.1 (params X) hroot hall
          have hst : (tr.run store r.1 (params X)).tr.state = TaskRunState.SKIP := by
            rw [hrun]
          have hsent : (tr.run store r.1 (params X)).sent
              = tr.outs.map (fun out => (out, TaskRunState.SKIP)) := by
            rw [hrun]
            rfl
          have hcl : (tr.run store r.1 (params X)).calls = [] := by
            rw [hrun]
          refine ⟨?_, ?_, ?_⟩
          · intro e he _
            rw [hpend, List.mem_append] at he
            rcases he with he | he
            · exact hP e (hrl e he) (by assumption)
            · rw [hsent, List.mem_map] at he
              obtain ⟨out, -, hout⟩ := he
              rw [← hout]
          · intro c hc
            rw [hcalls, hcl] at hc
            simp only [List.map_nil, List.append_nil] at hc
            exact hC c hc
          · intro id hid hide t ht
            rw [hnodes, lookup_put] at ht
            by_cases hidX : id = X
            · rw [if_pos hidX] at ht
              rw [← Option.some.inj ht]
              exact hst
            · rw [if_neg hidX] at ht
              rw [hend] at hide
              rcases List.mem_cons.mp hide with h1 | h1
              · exact absurd h1 hidX
              · exact hS id hid h1 t ht
        · -- a runner outside the region
          refine ⟨?_, ?_, ?_⟩
          · intro e he hfeed
            rw [hpend, List.mem_append] at he
            rcases he with he | he
            · exact hP e (hrl e he) hfeed
            · obtain ⟨e₀, he₀, he₀r, hce₀⟩ := hfeed
              obtain ⟨-, hfeeders⟩ := hregion e₀ he₀ he₀r
              have hmemX : (X, tr₀) ∈ s₀.nodes := mem_of_lookup _ _ _ hl₀
              obtain ⟨k, hk⟩ := run_sent_endpoint store tr r.1 (params X) e he
              have hklt : k < tr₀.outs.length := by
                rw [← ho₀]
                exact (List.getElem?_eq_some.mp hk).1
              have hXb : X = bid := by
                rcases hfeeders e.1 hce₀ (X, tr₀) hmemX k hklt (by rw [← ho₀]; exact hk)
                  with h1 | h1
                · exact absurd h1 hXr
                · exact h1.1
              have htrB : tr₀ = trB := by
                rw [hXb, hB] at hl₀
                exact (Option.some.inj hl₀).symm
              have hbend : bid ∈ s'.ended := by
                rw [hend, hXb]
                exact List.mem_cons_self _ _
              obtain ⟨t, ht, hts⟩ := hcond' hbend
              rw [hnodes, lookup_put, if_pos hXb.symm] at ht
              have hstate : (tr.run store r.1 (params X)).tr.state = TaskRunState.SUCCESS := by
                rw [Option.some.inj ht]
                exact hts
              have hexec := run_success_executes store tr r.1 (params X) hstate
              rw [hexec] at he
              have htask : tr.task = trB.task := by rw [ht₀, htrB]
              have hid : ((store tr.task).execFunc (params X)).1 ≠ "" := by
                rw [htask, hXb]
                exact htarget
              obtain ⟨k', p, hk', hp, hval⟩ :=
                executeAndSignal_sent_mem store tr (params X) hid e he
              have hk'lt : k' < tr₀.outs.length := by
                rw [← ho₀]
                exact (List.getElem?_eq_some.mp hk').1
              rcases hfeeders e.1 hce₀ (X, tr₀) hmemX k' hk'lt (by rw [← ho₀]; exact hk')
                with h1 | h1
              · exact absurd h1 hXr
              · have hne := h1.2
                rw [htask] at hp
                rw [hp] at hne
                have hpne : ¬ ((store tr.task).execFunc (params X)).1 = (store p).ID := by
                  intro hc
                  apply hne
                  rw [htask, hXb] at hc
                  simp [hc]
                rw [hval, if_neg hpne]
          · intro c hc
            rw [hcalls, List.mem_append] at hc
            rcases hc with hc | hc
            · exact hC c hc
            · rw [List.mem_map] at hc
              obtain ⟨x, -, hx⟩ := hc
              rw [← hx]
              exact hXr
          · intro id hid hide t ht
            have hidX : id ≠ X := fun hc => hXr (hc ▸ hid)
            rw [hnodes, lookup_put, if_neg hidX] at ht
            rw [hend] at hide
            rcases List.mem_cons.mp hide with h1 | h1
            · exact absurd h1 hidX
            · exact hS id hid h1 t ht
    · -- `Run` receives on `end`
      have hnodes : s'.nodes = s.nodes := by rw [hs']
      have hpend : s'.pending = s.pending.erase e := by rw [hs']
      have hend : s'.ended = s.ended := by rw [hs']
      have hcalls : s'.calls = s.calls := by rw [hs']
      refine ⟨?_, ?_⟩
      · rw [hnodes]
        exact hA
      · rw [hnodes, hpend, hend, hcalls]
        intro hcond'
        obtain ⟨hP, hC, hS⟩ := hrest hcond'
        exact ⟨fun x hx hf => hP x (List.mem_of_mem_erase hx) hf, hC, hS⟩
  · -- the start
    obtain ⟨h1, h2, h3⟩ := hstart
    refine ⟨fun id tr hl => ⟨tr, hl, rfl, rfl, rfl⟩, fun _ => ⟨?_, ?_, ?_⟩⟩
    · rw [h1]
      simp
    · rw [h3]
      simp
    · rw [h2]
      simp

/-- The elected successor executes when it hears only from the election. In
every state a run reaches in which the runner under `bid`, if it has ended,
has ended in state `SUCCESS`: the runner under `eid`, once it has ended, has
called `execFunc` with its context. -/
theorem elected_only_executes {Ctx : Type} (store : Store Ctx) (params : String → Ctx)
    (s₀ : RunState Ctx) (bid : String) (trB : TaskRun) (eid : String)
    (hstart : s₀.pending = [] ∧ s₀.ended = [] ∧ s₀.calls = [])
    (hB : List.lookup bid s₀.nodes = some trB)
    (htarget : ((store trB.task).execFunc (params bid)).1 ≠ "")
    (hfed : FedByElection store s₀.nodes bid (store trB.task).next
      ((store trB.task).execFunc (params bid)).1 eid)
    (s : RunState Ctx) (hr : Run.Reach store params s₀ s)
    (hcond : bid ∈ s.ended →
      ∃ tr, List.lookup bid s.nodes = some tr ∧ tr.state = TaskRunState.SUCCESS) :
    eid ∈ s.ended → (eid, params eid) ∈ s.calls := by
  have hinv := reach_invariant store params
    (fun s =>
      (∀ id tr, List.lookup id s.nodes = some tr →
        ∃ tr₀, List.lookup id s₀.nodes = some tr₀ ∧ tr.task = tr₀.task
          ∧ tr.ins = tr₀.ins ∧ tr.outs = tr₀.outs)
      ∧ ((bid ∈ s.ended →
            ∃ tr, List.lookup bid s.nodes = some tr ∧ tr.state = TaskRunState.SUCCESS) →
          (∀ e ∈ s.pending, (∃ e₀ ∈ s₀.nodes, e₀.1 = eid ∧ e.1 ∈ e₀.2.ins) →
              e.2 = TaskRunState.SUCCESS)
          ∧ (eid ∈ s.ended → (eid, params eid) ∈ s.calls)))
    ?_ s₀ s hr ?_
  · exact (hinv.2 hcond).2
  · intro s s' hI hstep
    obtain ⟨hA, hrest⟩ := hI
    rcases succs_cases store params s s' hstep with
      ⟨X, tr, r, hl, hXe, hrecv, hs'⟩ | ⟨e, he, hs'⟩
    · obtain ⟨tr₀, hl₀, ht₀, hi₀, ho₀⟩ := hA X tr hl
      have hstat := run_static store tr r.1 (params X)
      have hnodes : s'.nodes = s.nodes.put X (tr.run store r.1 (params X)).tr := by
        rw [hs']
      have hpend : s'.pending = r.2 ++ (tr.run store r.1 (params X)).sent := by
        rw [hs']
      have hend : s'.ended = X :: s.ended := by
        rw [hs']
      have hcalls : s'.calls = s.calls
          ++ (tr.run store r.1 (params X)).calls.map (fun c => (X, c)) := by
        rw [hs']
      have hmemX : (X, tr₀) ∈ s₀.nodes := mem_of_lookup _ _ _ hl₀
      refine ⟨?_, ?_⟩
      · intro id t ht
        rw [hnodes, lookup_put] at ht
        by_cases hid : id = X
        · rw [if_pos hid] at ht
          have hteq := Option.some.inj ht
          rw [← hteq, hid]
          exact ⟨tr₀, hl₀, by rw [hstat.1, ht₀], by rw [hstat.2.1, hi₀],
            by rw [hstat.2.2, ho₀]⟩
        · rw [if_neg hid] at ht
          exact hA id t ht
      · intro hcond'
        have hcond_s : bid ∈ s.ended →
            ∃ t, List.lookup bid s.nodes = some t ∧ t.state = TaskRunState.SUCCESS := by
          intro hb
          have hbX : bid ≠ X := fun hc => hXe (hc ▸ hb)
          have hb' : bid ∈ s'.ended := by
            rw [hend]
            exact List.mem_cons_of_mem _ hb
          obtain ⟨t, ht, hts⟩ := hcond' hb'
          rw [hnodes, lookup_put, if_neg hbX] at ht
          exact ⟨t, ht, hts⟩
        obtain ⟨hP, hC⟩ := hrest hcond_s
        obtain ⟨hrv, hrl⟩ := receiveAll_spec tr.ins s.pending r hrecv
        refine ⟨?_, ?_⟩
        · intro e he hfeed
          rw [hpend, List.mem_append] at he
          rcases he with he | he
          · exact hP e (hrl e he) hfeed
          · obtain ⟨e₀, he₀, he₀r, hce₀⟩ := hfeed
            obtain ⟨-, hfeeders⟩ := hfed e₀ he₀ he₀r
            obtain ⟨k, hk⟩ := run_sent_endpoint store tr r.1 (params X) e he
            have hklt : k < tr₀.outs.length := by
              rw [← ho₀]
              exact (List.getElem?_eq_some.mp hk).1
            have hXb : X = bid :=
              (hfeeders e.1 hce₀ (X, tr₀) hmemX k hklt (by rw [← ho₀]; exact hk)).1
            have htrB : tr₀ = trB := by
              rw [hXb, hB] at hl₀
              exact (Option.some.inj hl₀).symm
            have hbend : bid ∈ s'.ended := by
              rw [hend, hXb]
              exact List.mem_cons_self _ _
            obtain ⟨t, ht, hts⟩ := hcond' hbend
            rw [hnodes, lookup_put, if_pos hXb.symm] at ht
            have hstate : (tr.run store r.1 (params X)).tr.state = TaskRunState.SUCCESS := by
              rw [Option.some.inj ht]
              exact hts
            have hexec := run_success_executes store tr r.1 (params X) hstate
            rw [hexec] at he hstate
            have htask : tr.task = trB.task := by rw [ht₀, htrB]
            have hid : ((store tr.task).execFunc (params X)).1 ≠ "" := by
              rw [htask, hXb]
              exact htarget
            obtain ⟨k', p, hk', hp, hval⟩ :=
              executeAndSignal_sent_mem store tr (params X) hid e he
            have hk'lt : k' < tr₀.outs.length := by
              rw [← ho₀]
              exact (List.getElem?_eq_some.mp hk').1
            have hch := (hfeeders e.1 hce₀ (X, tr₀) hmemX k' hk'lt
              (by rw [← ho₀]; exact hk')).2
            rw [htask] at hp
            rw [hp] at hch
            have hpeq : ((store tr.task).execFunc (params X)).1 = (store p).ID := by
              rw [htask, hXb]
              simpa using hch.symm
            rw [executeAndSignal_state] at hstate
            rw [hval, if_pos hpeq]
            exact hstate
        · intro hee
          rw [hend] at hee
          rw [hcalls, List.mem_append]
          by_cases hXeid : X = eid
          · right
            obtain ⟨hins, hfeeders⟩ := hfed (X, tr₀) hmemX hXeid
            have hall : ∀ v ∈ r.1, v = TaskRunState.SUCCESS := by
              intro v hv
              obtain ⟨c, hc, hcv⟩ := hrv v hv
              exact hP (c, v) hcv ⟨(X, tr₀), hmemX, hXeid, by rw [← hi₀]; exact hc⟩
            rw [run_of_all_success store tr r.1 (params X)
              (receiveAll_length tr.ins s.pending r hrecv) hall, executeAndSignal_calls,
              ← hXeid]
            simp
          · left
            rcases List.mem_cons.mp hee with h1 | h1
            · exact absurd h1.symm hXeid
            · exact hC h1
    · have hnodes : s'.nodes = s.nodes := by rw [hs']
      have hpend : s'.pending = s.pending.erase e := by rw [hs']
      have hend : s'.ended = s.ended := by rw [hs']
      have hcalls : s'.calls = s.calls := by rw [hs']
      refine ⟨?_, ?_⟩
      · rw [hnodes]
        exact hA
      · rw [hnodes, hpend, hend, hcalls]
        intro hcond'
        obtain ⟨hP, hC⟩ := hrest hcond'
        exact ⟨fun x hx hf => hP x (List.mem_of_mem_erase hx) hf, hC⟩
  · obtain ⟨h1, h2, h3⟩ := hstart
    refine ⟨fun id tr hl => ⟨tr, hl, rfl, rfl, rfl⟩, fun _ => ⟨?_, ?_⟩⟩
    · rw [h1]
      simp
    · rw [h2]
      simp

/-! ## Every runner ends -/

/-- A step is taken only when no goroutine has panicked; it is the step of a
runner, or `Run` receiving a value on the completion channel while it still
waits for one. -/
theorem succs_full {Ctx : Type} (store : Store Ctx) (params : String → Ctx)
    (s s' : RunState Ctx) (h : s' ∈ Run.succs store params s) :
    s.panicked = false
      ∧ ((∃ id tr r, List.lookup id s.nodes = some tr ∧ id ∉ s.ended
            ∧ r ∈ receiveAll tr.ins s.pending
            ∧ s' = { nodes := s.nodes.put id (tr.run store r.1 (params id)).tr,
                     pending := r.2 ++ (tr.run store r.1 (params id)).sent,
                     ended := id :: s.ended,
                     calls := s.calls
                       ++ (tr.run store r.1 (params id)).calls.map (fun c => (id, c)),
                     endCount := s.endCount,
                     panicked := s.panicked
                       || decide ((tr.run store r.1 (params id)).exit = Exit.panicked) })
        ∨ (∃ e ∈ s.pending, e.1 = Run.endChan ∧ 0 < s.endCount
            ∧ s' = { s with pending := s.pending.erase e, endCount := s.endCount - 1 })) := by
  have hp : s.panicked = false := by
    cases hpan : s.panicked with
    | false => rfl
    | true =>
      unfold Run.succs at h
      rw [if_pos hpan] at h
      simp at h
  refine ⟨hp, ?_⟩
  rcases succs_cases store params s s' h with h1 | h1
  · exact Or.inl h1
  · right
    unfold Run.succs at h
    rw [if_neg (by rw [hp]; simp), List.mem_append] at h
    rcases h with h | h
    · -- the step of a runner is not a step of `Run`: take it from the other case
      rw [List.mem_flatMap] at h
      obtain ⟨id, -, hid⟩ := h
      unfold Run.stepsOf at hid
      cases hl : List.lookup id s.nodes with
      | none => simp [hl] at hid
      | some tr =>
        simp only [hl] at hid
        by_cases he : id ∈ s.ended
        · rw [if_pos he] at hid
          simp at hid
        · rw [if_neg he, List.mem_map] at hid
          obtain ⟨r, -, hs'⟩ := hid
          obtain ⟨e, -, hs''⟩ := h1
          have hend : s'.ended = id :: s.ended := by rw [← hs']
          rw [hs''] at hend
          have hlen := congrArg List.length hend
          simp at hlen
    · unfold Run.waitSteps at h
      by_cases hc : s.endCount > 0
      · rw [if_pos hc, List.mem_map] at h
        obtain ⟨e, he, hs'⟩ := h
        obtain ⟨hmem, hch⟩ := List.mem_filter.mp he
        exact ⟨e, hmem, of_decide_eq_true hch, hc, hs'.symm⟩
      · rw [if_neg hc] at h
        simp at h

theorem lookup_of_mem_nodup (nodes : Nodes) (k : String) (tr : TaskRun)
    (hn : (nodes.map (fun e => e.1)).Nodup) (h : (k, tr) ∈ nodes) :
    List.lookup k nodes = some tr := by
  induction nodes with
  | nil => simp at h
  | cons e es ih =>
    obtain ⟨a, b⟩ := e
    rw [lookup_cons_eq]
    rw [List.map_cons, List.nodup_cons] at hn
    rcases List.mem_cons.mp h with h1 | h1
    · have hk : k = a := congrArg Prod.fst h1
      have hb : tr = b := congrArg Prod.snd h1
      rw [if_pos hk, hb]
    · have hk : k ≠ a := by
        intro hc
        apply hn.1
        rw [List.mem_map]
        exact ⟨(k, tr), h1, hc⟩
      rw [if_neg hk]
      exact ih hn.2 h1

theorem lookup_some_of_key (nodes : Nodes) (k : String)
    (h : k ∈ nodes.map (fun e => e.1)) : ∃ tr, List.lookup k nodes = some tr := by
  induction nodes with
  | nil => simp at h
  | cons e es ih =>
    obtain ⟨a, b⟩ := e
    rw [lookup_cons_eq]
    by_cases hk : k = a
    · rw [if_pos hk]
      exact ⟨b, rfl⟩
    · rw [if_neg hk]
      rw [List.map_cons, List.mem_cons] at h
      rcases h with h | h
      · exact absurd h hk
      · exact ih h

/-- A runner leaves alone the pending sends on channels that are not its
inbound endpoints. -/
theorem receiveAll_keeps :
    ∀ (ins : List Chan) (pending : List (Chan × TaskRunState))
      (r : List TaskRunState × List (Chan × TaskRunState)),
      r ∈ receiveAll ins pending → ∀ e ∈ pending, e.1 ∉ ins → e ∈ r.2 := by
  intro ins
  induction ins with
  | nil =>
    intro pending r hr e he _
    simp only [receiveAll, List.mem_singleton] at hr
    rw [hr]
    exact he
  | cons c rest ih =>
    intro pending r hr e he hne
    rw [receiveAll, List.mem_flatMap] at hr
    obtain ⟨e₀, he₀, hr2⟩ := hr
    rw [List.mem_map] at hr2
    obtain ⟨r', hr', hrr⟩ := hr2
    have hec : e₀.1 = c := (of_decide_eq_true (List.mem_filter.mp he₀).2).2
    have hee : e ≠ e₀ := by
      intro hc
      apply hne
      rw [hc, hec]
      exact List.mem_cons_self _ _
    rw [← hrr]
    exact ih (pending.erase e₀) r' hr' e ((List.mem_erase_of_ne hee).mpr he)
      (fun hc => hne (List.mem_cons_of_mem _ hc))

/-- A runner can receive when a send is pending on each of its inbound
endpoints, these being different channels and none of them nil. -/
theorem receiveAll_ne_nil :
    ∀ (ins : List Chan) (pending : List (Chan × TaskRunState)), ins.Nodup →
      (∀ c ∈ ins, c ≠ none ∧ ∃ v, (c, v) ∈ pending) → receiveAll ins pending ≠ [] := by
  intro ins
  induction ins with
  | nil =>
    intro pending _ _
    simp [receiveAll]
  | cons c rest ih =>
    intro pending hnd hall
    rw [List.nodup_cons] at hnd
    obtain ⟨hc, v, hv⟩ := hall c (List.mem_cons_self _ _)
    have hrest : receiveAll rest (pending.erase (c, v)) ≠ [] := by
      apply ih _ hnd.2
      intro c' hc'
      obtain ⟨hc'n, v', hv'⟩ := hall c' (List.mem_cons_of_mem _ hc')
      refine ⟨hc'n, v', ?_⟩
      have hne : (c', v') ≠ (c, v) := by
        intro heq
        have hcc : c' = c := congrArg Prod.fst heq
        exact hnd.1 (hcc ▸ hc')
      exact (List.mem_erase_of_ne hne).mpr hv'
    obtain ⟨r', hr'⟩ := List.exists_mem_of_ne_nil _ hrest
    apply List.ne_nil_of_mem (a := (v :: r'.1, r'.2))
    rw [receiveAll, List.mem_flatMap]
    refine ⟨(c, v), ?_, ?_⟩
    · rw [List.mem_filter]
      exact ⟨hv, decide_eq_true ⟨hc, rfl⟩⟩
    · rw [List.mem_map]
      exact ⟨r', hr', rfl⟩

/-- When `executeAndSignal` does not panic it sends on every outbound
endpoint. -/
theorem executeAndSignal_sends_all {Ctx : Type} (store : Store Ctx) (tr : TaskRun) (ctx : Ctx)
    (h : (tr.executeAndSignal store ctx).exit ≠ Exit.panicked) :
    ∀ c ∈ tr.outs, ∃ v, (c, v) ∈ (tr.executeAndSignal store ctx).sent := by
  intro c hc
  by_cases hid : ((store tr.task).execFunc ctx).1 = ""
  · rw [executeAndSignal_sent_all store tr ctx hid]
    exact ⟨_, List.mem_map.mpr ⟨c, hc, rfl⟩⟩
  · have hlen : tr.outs.length ≤ (store tr.task).next.length := by
      by_contra hlt
      apply h
      rw [executeAndSignal_exit, if_pos ⟨hid, Nat.lt_of_not_le hlt⟩]
    rw [executeAndSignal_sent_branch store tr ctx hid hlen]
    obtain ⟨k, hk, hkc⟩ := List.getElem_of_mem hc
    have hk' : k < (store tr.task).next.length := Nat.lt_of_lt_of_le hk hlen
    refine ⟨if ((store tr.task).execFunc ctx).1 = (store ((store tr.task).next[k])).ID then
        (if ((store tr.task).execFunc ctx).2.1 then TaskRunState.SUCCESS
         else TaskRunState.FAIL)
      else TaskRunState.SKIP, ?_⟩
    rw [List.mem_iff_getElem]
    refine ⟨k, by rw [List.length_zipWith]; exact Nat.lt_min.mpr ⟨hk, hk'⟩, ?_⟩
    rw [List.getElem_zipWith, hkc]

/-- When `run` does not panic it sends on every outbound endpoint. -/
theorem run_sends_all {Ctx : Type} (store : Store Ctx) (tr : TaskRun)
    (sigs : List TaskRunState) (ctx : Ctx)
    (h : (tr.run store sigs ctx).exit ≠ Exit.panicked) :
    ∀ c ∈ tr.outs, ∃ v, (c, v) ∈ (tr.run store sigs ctx).sent := by
  have hbroad : ∀ (v : TaskRunState), ∀ c ∈ tr.outs, ∃ w, (c, w) ∈ broadcast tr.outs v :=
    fun v c hc => ⟨v, List.mem_map.mpr ⟨c, hc, rfl⟩⟩
  by_cases hroot : tr.ins = []
  · rw [run_root store tr sigs ctx hroot] at h ⊢
    exact executeAndSignal_sends_all store tr ctx h
  · rw [run_nonroot store tr sigs ctx hroot] at h ⊢
    split_ifs at h ⊢
    · exact hbroad _
    · exact hbroad _
    · exact executeAndSignal_sends_all store tr ctx h
    · exact hbroad _

theorem filter_length_le {α : Type} (p q : α → Bool) (hpq : ∀ x, p x = true → q x = true) :
    ∀ l : List α, (l.filter p).length ≤ (l.filter q).length := by
  intro l
  induction l with
  | nil => simp
  | cons a l ih =>
    rw [List.filter_cons, List.filter_cons]
    by_cases hp : p a = true
    · rw [if_pos hp, if_pos (hpq a hp)]
      simp only [List.length_cons]
      exact Nat.succ_le_succ ih
    · rw [if_neg hp]
      by_cases hq : q a = true
      · rw [if_pos hq]
        simp only [List.length_cons]
        exact Nat.le_succ_of_le ih
      · rw [if_neg hq]
        exact ih

theorem filter_length_lt {α : Type} (p q : α → Bool) (hpq : ∀ x, p x = true → q x = true)
    (z : α) (hqz : q z = true) (hpz : ¬ p z = true) :
    ∀ l : List α, z ∈ l → (l.filter p).length < (l.filter q).length := by
  intro l
  induction l with
  | nil =>
    intro hz
    simp at hz
  | cons a l ih =>
    intro hz
    rw [List.filter_cons, List.filter_cons]
    rcases List.mem_cons.mp hz with hza | hzl
    · rw [← hza, if_neg hpz, if_pos hqz]
      simp only [List.length_cons]
      exact Nat.lt_succ_of_le (filter_length_le p q hpq l)
    · by_cases hp : p a = true
      · rw [if_pos hp, if_pos (hpq a hp)]
        simp only [List.length_cons]
        exact Nat.succ_lt_succ (ih hzl)
      · rw [if_neg hp]
        by_cases hq : q a = true
        · rw [if_pos hq]
          simp only [List.length_cons]
          exact Nat.lt_succ_of_lt (ih hzl)
        · rw [if_neg hq]
          exact ih hzl

/-- Every step leaves less of the run. -/
theorem left_lt {Ctx : Type} (store : Store Ctx) (params : String → Ctx)
    (s s' : RunState Ctx) (h : s' ∈ Run.succs store params s) : s'.left < s.left := by
  rcases (succs_full store params s s' h).2 with
    ⟨id, tr, r, hl, hne, -, hs'⟩ | ⟨e, -, -, hpos, hs'⟩
  · have hkeys : (s.nodes.put id (tr.run store r.1 (params id)).tr).map (fun e => e.1)
        = s.nodes.map (fun e => e.1) := keys_put_of_lookup s.nodes id tr _ hl
    have hmem : id ∈ s.nodes.map (fun e => e.1) := mem_keys_of_lookup s.nodes id tr hl
    rw [hs']
    unfold RunState.left
    simp only
    rw [hkeys]
    apply Nat.add_lt_add_right
    apply filter_length_lt _ _ _ id _ _ _ hmem
    · intro x hx
      have hx' := of_decide_eq_true hx
      exact decide_eq_true (fun hc => hx' (List.mem_cons_of_mem _ hc))
    · exact decide_eq_true hne
    · intro hc
      exact (of_decide_eq_true hc) (List.mem_cons_self _ _)
  · rw [hs']
    unfold RunState.left
    simp only
    apply Nat.add_lt_add_left
    exact Nat.sub_lt hpos Nat.one_pos

/-- Every run is finite: no run from `s` has more steps than is left of it. -/
theorem after_nil_of_left {Ctx : Type} (store : Store Ctx) (params : String → Ctx) :
    ∀ (n : Nat) (s : RunState Ctx), s.left < n → Run.after store params n s = [] := by
  intro n
  induction n with
  | zero =>
    intro s h
    exact absurd h (Nat.not_lt_zero _)
  | succ m ih =>
    intro s h
    rw [Run.after, List.flatMap_eq_nil_iff]
    intro s' hs'
    exact ih s' (Nat.lt_of_lt_of_le (left_lt store params s s' hs') (Nat.le_of_lt_succ h))

/-- What a run keeps, from a start with nothing sent in a graph wired one
channel per edge: the keys and the task and endpoints of every runner, and,
while no goroutine has panicked, a pending send on every channel from a runner
that has ended to a runner that has not. -/
theorem wired_invariant {Ctx : Type} (store : Store Ctx) (params : String → Ctx)
    (s₀ : RunState Ctx) (rank : String → Nat)
    (hstart : s₀.pending = [] ∧ s₀.ended = [] ∧ s₀.calls = [])
    (hw : WellWired s₀.nodes rank)
    (s : RunState Ctx) (hr : Run.Reach store params s₀ s) :
    s.nodes.map (fun e => e.1) = s₀.nodes.map (fun e => e.1)
      ∧ (∀ id tr, List.lookup id s.nodes = some tr →
          ∃ tr₀, List.lookup id s₀.nodes = some tr₀ ∧ tr.task = tr₀.task
            ∧ tr.ins = tr₀.ins ∧ tr.outs = tr₀.outs)
      ∧ (s.panicked = false →
          ∀ X ∈ s.ended, ∀ trX, List.lookup X s₀.nodes = some trX → ∀ c ∈ trX.outs,
            ∀ Y trY, List.lookup Y s₀.nodes = some trY → c ∈ trY.ins → Y ∉ s.ended →
              ∃ v, (c, v) ∈ s.pending) := by
  obtain ⟨-, hins, hdisj, -, -⟩ := hw
  refine reach_invariant store params
    (fun s =>
      s.nodes.map (fun e => e.1) = s₀.nodes.map (fun e => e.1)
      ∧ (∀ id tr, List.lookup id s.nodes = some tr →
          ∃ tr₀, List.lookup id s₀.nodes = some tr₀ ∧ tr.task = tr₀.task
            ∧ tr.ins = tr₀.ins ∧ tr.outs = tr₀.outs)
      ∧ (s.panicked = false →
          ∀ X ∈ s.ended, ∀ trX, List.lookup X s₀.nodes = some trX → ∀ c ∈ trX.outs,
            ∀ Y trY, List.lookup Y s₀.nodes = some trY → c ∈ trY.ins → Y ∉ s.ended →
              ∃ v, (c, v) ∈ s.pending))
    ?_ s₀ s hr ?_
  · intro s s' hI hstep
    obtain ⟨hK, hA, hL⟩ := hI
    obtain ⟨hpan, hcase⟩ := succs_full store params s s' hstep
    rcases hcase with ⟨Z, tr, r, hl, hZe, hrecv, hs'⟩ | ⟨e, he, hech, hpos, hs'⟩
    · obtain ⟨tr₀, hl₀, ht₀, hi₀, ho₀⟩ := hA Z tr hl
      have hstat := run_static store tr r.1 (params Z)
      have hnodes : s'.nodes = s.nodes.put Z (tr.run store r.1 (params Z)).tr := by
        rw [hs']
      have hpend : s'.pending = r.2 ++ (tr.run store r.1 (params Z)).sent := by
        rw [hs']
      have hend : s'.ended = Z :: s.ended := by
        rw [hs']
      have hpan' : s'.panicked = (s.panicked
          || decide ((tr.run store r.1 (params Z)).exit = Exit.panicked)) := by
        rw [hs']
      refine ⟨?_, ?_, ?_⟩
      · rw [hnodes]
        exact (keys_put_of_lookup s.nodes Z tr _ hl).trans hK
      · intro id t ht
        rw [hnodes, lookup_put] at ht
        by_cases hid : id = Z
        · rw [if_pos hid] at ht
          have hteq := Option.some.inj ht
          rw [← hteq, hid]
          exact ⟨tr₀, hl₀, by rw [hstat.1, ht₀], by rw [hstat.2.1, hi₀],
            by rw [hstat.2.2, ho₀]⟩
        · rw [if_neg hid] at ht
          exact hA id t ht
      · intro hp' X hX trX hlX c hc Y trY hlY hcY hYe
        have hexit : (tr.run store r.1 (params Z)).exit ≠ Exit.panicked := by
          intro hcontra
          rw [hpan', hpan, hcontra] at hp'
          simp at hp'
        rw [hend] at hX hYe
        have hYZ : Y ≠ Z := fun h => hYe (h ▸ List.mem_cons_self _ _)
        have hYe' : Y ∉ s.ended := fun h => hYe (List.mem_cons_of_mem _ h)
        rcases List.mem_cons.mp hX with hXZ | hXe
        · have htrX : trX = tr₀ := by
            rw [hXZ, hl₀] at hlX
            exact (Option.some.inj hlX).symm
          have hc' : c ∈ tr.outs := by
            rw [ho₀, ← htrX]
            exact hc
          obtain ⟨v, hv⟩ := run_sends_all store tr r.1 (params Z) hexit c hc'
          exact ⟨v, by rw [hpend]; exact List.mem_append_right _ hv⟩
        · obtain ⟨v, hv⟩ := hL hpan X hXe trX hlX c hc Y trY hlY hcY hYe'
          have hcZ : c ∉ tr.ins := by
            intro hcin
            rw [hi₀] at hcin
            exact hYZ (hdisj (Y, trY) (mem_of_lookup _ _ _ hlY) (Z, tr₀)
              (mem_of_lookup _ _ _ hl₀) c hcY hcin)
          exact ⟨v, by
            rw [hpend]
            exact List.mem_append_left _
              (receiveAll_keeps tr.ins s.pending r hrecv (c, v) hv hcZ)⟩
    · have hnodes : s'.nodes = s.nodes := by rw [hs']
      have hpend : s'.pending = s.pending.erase e := by rw [hs']
      have hend : s'.ended = s.ended := by rw [hs']
      refine ⟨?_, ?_, ?_⟩
      · rw [hnodes]
        exact hK
      · rw [hnodes]
        exact hA
      · intro _ X hX trX hlX c hc Y trY hlY hcY hYe
        rw [hend] at hX hYe
        obtain ⟨v, hv⟩ := hL hpan X hX trX hlX c hc Y trY hlY hcY hYe
        have hce : c ≠ Run.endChan := by
          intro h
          exact (hins (Y, trY) (mem_of_lookup _ _ _ hlY)).2.2 (h ▸ hcY)
        have hne : (c, v) ≠ e := by
          intro h
          apply hce
          rw [← hech, ← h]
        exact ⟨v, by rw [hpend]; exact (List.mem_erase_of_ne hne).mpr hv⟩
  · refine ⟨rfl, fun id tr hl => ⟨tr, hl, rfl, rfl, rfl⟩, ?_⟩
    intro _ X hX
    rw [hstart.2.1] at hX
    simp at hX

/-- In a graph wired one channel per edge and acyclic, a run that has come to
a stop without a panic has ended every runner. -/
theorem terminal_all_ended {Ctx : Type} (store : Store Ctx) (params : String → Ctx)
    (s₀ : RunState Ctx) (rank : String → Nat)
    (hstart : s₀.pending = [] ∧ s₀.ended = [] ∧ s₀.calls = [])
    (hw : WellWired s₀.nodes rank)
    (s : RunState Ctx) (hr : Run.Reach store params s₀ s)
    (hterm : Run.succs store params s = []) (hpan : s.panicked = false) :
    ∀ id ∈ s₀.nodes.map (fun e => e.1), id ∈ s.ended := by
  obtain ⟨hK, hA, hL⟩ := wired_invariant store params s₀ rank hstart hw s hr
  obtain ⟨hnd, hins, -, hsender, hrank⟩ := hw
  have key : ∀ (n : Nat) (id : String), rank id = n → id ∈ s₀.nodes.map (fun e => e.1) →
      id ∈ s.ended := by
    intro n
    induction n using Nat.strong_induction_on with
    | _ n ih =>
      intro Y hYn hYk
      by_contra hYe
      have hYk' : Y ∈ s.nodes.map (fun e => e.1) := by
        rw [hK]
        exact hYk
      obtain ⟨trY, hlY⟩ := lookup_some_of_key s.nodes Y hYk'
      obtain ⟨tr₀, hl₀, -, hi₀, -⟩ := hA Y trY hlY
      have hmemY : (Y, tr₀) ∈ s₀.nodes := mem_of_lookup _ _ _ hl₀
      obtain ⟨hnodup, hnone, -⟩ := hins (Y, tr₀) hmemY
      have hrecv : receiveAll trY.ins s.pending ≠ [] := by
        apply receiveAll_ne_nil
        · rw [hi₀]
          exact hnodup
        · intro c hc
          rw [hi₀] at hc
          refine ⟨fun h => hnone (h ▸ hc), ?_⟩
          obtain ⟨e', he', hce'⟩ := hsender (Y, tr₀) hmemY c hc
          have hlt : rank e'.1 < n := by
            rw [← hYn]
            exact hrank (Y, tr₀) hmemY e' he' c hc hce'
          have hX : e'.1 ∈ s.ended :=
            ih (rank e'.1) hlt e'.1 rfl (List.mem_map.mpr ⟨e', he', rfl⟩)
          exact hL hpan e'.1 hX e'.2 (lookup_of_mem_nodup s₀.nodes e'.1 e'.2 hnd he') c hce'
            Y tr₀ hl₀ hc hYe
      obtain ⟨r, hr'⟩ := List.exists_mem_of_ne_nil _ hrecv
      have hstep : Run.stepsOf store params s Y ≠ [] := by
        unfold Run.stepsOf
        simp only [hlY]
        rw [if_neg hYe]
        exact List.ne_nil_of_mem (List.mem_map.mpr ⟨r, hr', rfl⟩)
      obtain ⟨s', hs'⟩ := List.exists_mem_of_ne_nil _ hstep
      have hin : s' ∈ Run.succs store params s := by
        unfold Run.succs
        rw [if_neg (by rw [hpan]; simp), List.mem_append]
        left
        rw [List.mem_flatMap]
        exact ⟨Y, hYk', hs'⟩
      rw [hterm] at hin
      simp at hin
  intro id hid
  exact key (rank id) id rfl hid

/-! ## Runs of the example graphs -/

theorem reach_of_mem_after {Ctx : Type} (store : Store Ctx) (params : String → Ctx) :
    ∀ (n : Nat) (s s' : RunState Ctx), s' ∈ Run.after store params n s →
      Run.Reach store params s s' := by
  intro n
  induction n with
  | zero =>
    intro s s' h
    simp only [Run.after, List.mem_singleton] at h
    rw [h]
    exact Run.Reach.refl s
  | succ m ih =>
    intro s s' h
    simp only [Run.after, List.mem_flatMap] at h
    obtain ⟨s₁, h₁, h₂⟩ := h
    exact Run.Reach.step s s₁ s' h₁ (ih s₁ s' h₂)

theorem mem_insertions {α : Type} (a : α) (l₁ l₂ : List α) :
    l₁ ++ a :: l₂ ∈ insertions a (l₁ ++ l₂) := by
  induction l₁ with
  | nil =>
    cases l₂ with
    | nil => simp [insertions]
    | cons b l => simp [insertions]
  | cons b l ih =>
    simp only [List.cons_append, insertions, List.mem_cons, List.mem_map]
    right
    exact ⟨_, ih, rfl⟩

/-- Every order of the elements of a list is among `orders`. -/
theorem mem_orders {α : Type} : ∀ (l ids : List α), ids.Perm l → ids ∈ orders l := by
  intro l
  induction l with
  | nil =>
    intro ids h
    rw [List.perm_nil.mp h]
    simp [orders]
  | cons a l ih =>
    intro ids h
    have ha : a ∈ ids := h.symm.subset (List.mem_cons_self a l)
    obtain ⟨l₁, l₂, hsplit⟩ := List.append_of_mem ha
    rw [hsplit] at h ⊢
    have hp : (l₁ ++ l₂).Perm l :=
      List.Perm.cons_inv ((List.perm_middle.symm).trans h)
    simp only [orders, List.mem_flatMap]
    exact ⟨l₁ ++ l₂, ih _ hp, mem_insertions a l₁ l₂⟩

/-- The order of the task list is one of the orders of the second pass. -/
theorem build_eq_buildIn {Ctx : Type} (store : Store Ctx) (d : Dag) :
    Run.build store d = Run.buildIn store d ((Run.newNodes store d).map (fun e => e.1)) :=
  rfl

theorem reachable_dupHeap : Reachable dupHeap :=
  Reachable.setUpstream _ 1 0
    (Reachable.setUpstream _ 1 0
      (Reachable.makeTask _ 0 "b" printMyID
        (Reachable.makeTask _ 0 "a" printMyID
          (Reachable.new _ "dup" Reachable.empty) (by decide))
        (by decide))
      (by decide) (by decide))
    (by decide) (by decide)

theorem reachable_crossHeap : Reachable crossHeap :=
  Reachable.makeTask _ 1 "a" printMyID
    (Reachable.makeTask _ 0 "a" printMyID
      (Reachable.new _ "d2" (Reachable.new _ "d1" Reachable.empty))
      (by decide))
    (by decide)

theorem reachable_crossEdgeHeap : Reachable crossEdgeHeap :=
  Reachable.setUpstream _ 0 1 reachable_crossHeap (by decide) (by decide)

theorem tasks_dupHeap : (dupHeap.dags 0).Tasks = [0, 1] := by
  decide

set_option maxRecDepth 100000 in
/-- The linear graph `source -> job_1` of main.go, for each order of the
second pass: every run ends, it ends with `Run` returned, and then both tasks
are in state `SUCCESS` and each `execFunc` was called once. -/
theorem run_linear :
    ∀ s₀ ∈ Run.starts linearHeap.tasks (linearHeap.dags 0),
      (Run.after linearHeap.tasks idParams 4 s₀).isEmpty = true
        ∧ ∀ s, Run.Reach linearHeap.tasks idParams s₀ s →
          ((Run.succs linearHeap.tasks idParams s).isEmpty = true → s.returned = true)
            ∧ (s.returned = true →
                s.table = [("source", TaskRunState.SUCCESS), ("job_1", TaskRunState.SUCCESS)]
                  ∧ s.calls = [("source", "source"), ("job_1", "job_1")]) := by
  intro s₀ hs₀
  have h : ∀ s₀ ∈ Run.starts linearHeap.tasks (linearHeap.dags 0),
      (Run.after linearHeap.tasks idParams 4 s₀).isEmpty = true
        ∧ ∀ s ∈ Run.within linearHeap.tasks idParams 4 s₀,
          ((Run.succs linearHeap.tasks idParams s).isEmpty = true → s.returned = true)
            ∧ (s.returned = true →
                s.table = [("source", TaskRunState.SUCCESS), ("job_1", TaskRunState.SUCCESS)]
                  ∧ s.calls = [("source", "source"), ("job_1", "job_1")]) := by
    decide
  exact ⟨(h s₀ hs₀).1, reach_check _ _ _ s₀ 4 (h s₀ hs₀).1 (h s₀ hs₀).2⟩

set_option maxRecDepth 100000 in
/-- The diamond `source -> {a, b} -> sink`, for each order of the second pass:
every run ends, it ends with `Run` returned, and then the four tasks are in
state `SUCCESS` and each `execFunc` was called once. -/
theorem run_diamond :
    ∀ s₀ ∈ Run.starts diamondHeap.tasks (diamondHeap.dags 0),
      (Run.after diamondHeap.tasks idParams 6 s₀).isEmpty = true
        ∧ ∀ s, Run.Reach diamondHeap.tasks idParams s₀ s →
          ((Run.succs diamondHeap.tasks idParams s).isEmpty = true → s.returned = true)
            ∧ (s.returned = true →
                s.table = [("source", TaskRunState.SUCCESS), ("a", TaskRunState.SUCCESS),
                           ("b", TaskRunState.SUCCESS), ("sink", TaskRunState.SUCCESS)]
                  ∧ s.calls.length = 4
                  ∧ ∀ id ∈ ["source", "a", "b", "sink"], s.calls.count (id, id) = 1) := by
  intro s₀ hs₀
  have h : ∀ s₀ ∈ Run.starts diamondHeap.tasks (diamondHeap.dags 0),
      (Run.after diamondHeap.tasks idParams 6 s₀).isEmpty = true
        ∧ ∀ s ∈ Run.within diamondHeap.tasks idParams 6 s₀,
          ((Run.succs diamondHeap.tasks idParams s).isEmpty = true → s.returned = true)
            ∧ (s.returned = true →
                s.table = [("source", TaskRunState.SUCCESS), ("a", TaskRunState.SUCCESS),
                           ("b", TaskRunState.SUCCESS), ("sink", TaskRunState.SUCCESS)]
                  ∧ s.calls.length = 4
                  ∧ ∀ id ∈ ["source", "a", "b", "sink"], s.calls.count (id, id) = 1) := by
    decide
  exact ⟨(h s₀ hs₀).1, reach_check _ _ _ s₀ 6 (h s₀ hs₀).1 (h s₀ hs₀).2⟩

set_option maxRecDepth 100000 in
/-- The `branch_example` graph of main.go, for each order of the second pass:
every run ends, it ends with `Run` returned, and then `source` and `sink` are
in state `SUCCESS`, `job_1` and `job_2` in state `SKIP`, and only `source` and
`sink` have called `execFunc`. -/
theorem run_branch_example :
    ∀ s₀ ∈ Run.starts mainHeap.tasks (mainHeap.dags 0),
      (Run.after mainHeap.tasks idParams 7 s₀).isEmpty = true
        ∧ ∀ s, Run.Reach mainHeap.tasks idParams s₀ s →
          ((Run.succs mainHeap.tasks idParams s).isEmpty = true → s.returned = true)
            ∧ (s.returned = true →
                s.table = [("source", TaskRunState.SUCCESS), ("job_1", TaskRunState.SKIP),
                           ("job_2", TaskRunState.SKIP), ("sink", TaskRunState.SUCCESS)]
                  ∧ s.calls = [("source", "source"), ("sink", "sink")]) := by
  intro s₀ hs₀
  have h : ∀ s₀ ∈ Run.starts mainHeap.tasks (mainHeap.dags 0),
      (Run.after mainHeap.tasks idParams 7 s₀).isEmpty = true
        ∧ ∀ s ∈ Run.within mainHeap.tasks idParams 7 s₀,
          ((Run.succs mainHeap.tasks idParams s).isEmpty = true → s.returned = true)
            ∧ (s.returned = true →
                s.table = [("source", TaskRunState.SUCCESS), ("job_1", TaskRunState.SKIP),
                           ("job_2", TaskRunState.SKIP), ("sink", TaskRunState.SUCCESS)]
                  ∧ s.calls = [("source", "source"), ("sink", "sink")]) := by
    decide
  exact ⟨(h s₀ hs₀).1, reach_check _ _ _ s₀ 7 (h s₀ hs₀).1 (h s₀ hs₀).2⟩

set_option maxRecDepth 100000 in
/-- C16 (the code fails here). The graph with the tasks `a` and `b` and the
edge from `a` to `b` set twice is built through `New`, `MakeTask` and
`SetUpstream`, is acyclic, and every `execFunc` returns an empty branch target
and success. In each order of the second pass `Run` gives `b` two inbound
endpoints and installs the second one in both outbound slots of `a`, so
nothing is ever sent on the first: no run has more than one step, and in no
state that a run reaches has `Run` returned, has the runner of `b` ended or
has the `execFunc` of `b` been called. -/
theorem run_duplicate_edge_blocks :
    Reachable dupHeap
      ∧ (dupHeap.tasks 0).next = [1, 1] ∧ (dupHeap.tasks 1).next = []
      ∧ (∀ p ∈ (dupHeap.dags 0).Tasks, ∀ ctx,
          (dupHeap.tasks p).execFunc ctx = ("", true, none))
      ∧ (∀ s₀ ∈ Run.starts dupHeap.tasks (dupHeap.dags 0),
          s₀.nodes
              = [("a", { task := 0, ins := [], outs := [some 2, some 2],
                         state := TaskRunState.WAIT }),
                 ("b", { task := 1, ins := [some 1, some 2], outs := [Run.endChan],
                         state := TaskRunState.WAIT })]
            ∧ (Run.after dupHeap.tasks idParams 2 s₀).isEmpty = true)
      ∧ ¬ ∃ s₀ ∈ Run.starts dupHeap.tasks (dupHeap.dags 0),
            ∃ s, Run.Reach dupHeap.tasks idParams s₀ s
              ∧ (s.returned = true ∨ "b" ∈ s.ended ∨ ("b", "b") ∈ s.calls) := by
  refine ⟨reachable_dupHeap, by decide, by decide, ?_, by decide, ?_⟩
  · intro p hp ctx
    rw [tasks_dupHeap] at hp
    simp only [List.mem_cons, List.mem_singleton, List.not_mem_nil, or_false] at hp
    rcases hp with hp | hp <;> rw [hp] <;> rfl
  · rintro ⟨s₀, hs₀, s, hs, hbad⟩
    have h : ∀ s₀ ∈ Run.starts dupHeap.tasks (dupHeap.dags 0),
        (Run.after dupHeap.tasks idParams 2 s₀).isEmpty = true
          ∧ ∀ s ∈ Run.within dupHeap.tasks idParams 2 s₀,
            ¬ (s.returned = true ∨ "b" ∈ s.ended ∨ ("b", "b") ∈ s.calls) := by
      decide
    exact reach_check dupHeap.tasks idParams
      (fun s => ¬ (s.returned = true ∨ "b" ∈ s.ended ∨ ("b", "b") ∈ s.calls))
      s₀ 2 (h s₀ hs₀).1 (h s₀ hs₀).2 s hs hbad

theorem reachable_mainHeap : Reachable mainHeap :=
  Reachable.setUpstream _ 3 0
    (Reachable.setUpstream _ 1 0
      (Reachable.setUpstream _ 2 1
        (Reachable.makeTask _ 0 "sink" printMyID
          (Reachable.makeTask _ 0 "job_2" printMyID
            (Reachable.makeTask _ 0 "job_1" printMyID
              (Reachable.makeTask _ 0 "source" printMyIDBranchToSink
                (Reachable.new _ "branch_example" Reachable.empty) (by decide))
              (by decide))
            (by decide))
          (by decide))
        (by decide) (by decide))
      (by decide) (by decide))
    (by decide) (by decide)

theorem reachable_dupBranchHeap : Reachable dupBranchHeap :=
  Reachable.setUpstream _ 2 1 reachable_mainHeap (by decide) (by decide)

theorem reachable_panicBranchHeap : Reachable panicBranchHeap :=
  Reachable.setDownstream _ 0 2
    (Reachable.setDownstream _ 0 1
      (Reachable.makeTask _ 0 "sink" (fun _ => ("x", true, none))
        (Reachable.makeTask _ 0 "job_1" printMyID
          (Reachable.makeTask _ 0 "source" printMyIDBranchToSink
            (Reachable.new _ "panic" Reachable.empty) (by decide))
          (by decide))
        (by decide))
      (by decide) (by decide))
    (by decide) (by decide)

theorem reachable_cycleHeap : Reachable cycleHeap :=
  Reachable.setDownstream _ 3 2
    (Reachable.setDownstream _ 2 3
      (Reachable.setDownstream _ 0 2
        (Reachable.setDownstream _ 0 1
          (Reachable.makeTask _ 0 "v" printMyID
            (Reachable.makeTask _ 0 "u" printMyID
              (Reachable.makeTask _ 0 "e" printMyID
                (Reachable.makeTask _ 0 "b" (fun _ => ("e", true, none))
                  (Reachable.new _ "cycle" Reachable.empty) (by decide))
                (by decide))
              (by decide))
            (by decide))
          (by decide) (by decide))
        (by decide) (by decide))
      (by decide) (by decide))
    (by decide) (by decide)

set_option maxRecDepth 100000 in
/-- The graph with the edges from `b` to `e`, from `b` to `u` and from `p` to
`e`, in which `b` succeeds and elects `e` and `p` fails. In each order of the
second pass every run ends with `Run` returned, the `execFunc` of the elected
successor `e` is never called, and `Run` returns with `b` in state `SUCCESS`,
`p` in `FAIL`, `e` in `RESIGN` and `u` in `SKIP`. -/
theorem run_elect :
    (∃ s, Run.Reach electHeap.tasks idParams (startOf electHeap 0) s
        ∧ s.returned = true)
      ∧ (∀ s₀ ∈ Run.starts electHeap.tasks (electHeap.dags 0),
          (Run.after electHeap.tasks idParams 7 s₀).isEmpty = true
            ∧ ∀ s, Run.Reach electHeap.tasks idParams s₀ s →
              ((Run.succs electHeap.tasks idParams s).isEmpty = true → s.returned = true)
                ∧ (∀ c ∈ s.calls, c.1 ≠ "e")
                ∧ (s.returned = true →
                    s.table = [("b", TaskRunState.SUCCESS), ("p", TaskRunState.FAIL),
                               ("e", TaskRunState.RESIGN), ("u", TaskRunState.SKIP)])) := by
  refine ⟨?_, ?_⟩
  · have h : ∃ s ∈ Run.after electHeap.tasks idParams 6 (startOf electHeap 0),
        s.returned = true := by decide
    obtain ⟨s, hs, hret⟩ := h
    exact ⟨s, reach_of_mem_after _ _ 6 _ s hs, hret⟩
  · intro s₀ hs₀
    have h : ∀ s₀ ∈ Run.starts electHeap.tasks (electHeap.dags 0),
        (Run.after electHeap.tasks idParams 7 s₀).isEmpty = true
          ∧ ∀ s ∈ Run.within electHeap.tasks idParams 7 s₀,
            ((Run.succs electHeap.tasks idParams s).isEmpty = true → s.returned = true)
              ∧ (∀ c ∈ s.calls, c.1 ≠ "e")
              ∧ (s.returned = true →
                  s.table = [("b", TaskRunState.SUCCESS), ("p", TaskRunState.FAIL),
                             ("e", TaskRunState.RESIGN), ("u", TaskRunState.SKIP)]) := by
      decide
    exact ⟨(h s₀ hs₀).1, reach_check _ _ _ s₀ 7 (h s₀ hs₀).1 (h s₀ hs₀).2⟩

set_option maxRecDepth 100000 in
/-- The `branch_example` graph with the edge from `job_1` to `job_2` set
twice: a run comes to a stop without a panic with `source` in state `SUCCESS`
and `job_2` still in state `WAIT`, and, in each order of the second pass, in
no state that a run reaches has `Run` returned or the runner of `job_2`
ended. -/
theorem run_dup_branch :
    (∃ s, Run.Reach dupBranchHeap.tasks idParams (startOf dupBranchHeap 0) s
        ∧ Run.succs dupBranchHeap.tasks idParams s = [] ∧ s.panicked = false
        ∧ s.table = [("source", TaskRunState.SUCCESS), ("job_1", TaskRunState.SKIP),
                     ("job_2", TaskRunState.WAIT), ("sink", TaskRunState.SUCCESS)])
      ∧ ¬ ∃ s₀ ∈ Run.starts dupBranchHeap.tasks (dupBranchHeap.dags 0),
          ∃ s, Run.Reach dupBranchHeap.tasks idParams s₀ s
            ∧ (s.returned = true ∨ "job_2" ∈ s.ended) := by
  refine ⟨?_, ?_⟩
  · have h : ∃ s ∈ Run.after dupBranchHeap.tasks idParams 4 (startOf dupBranchHeap 0),
        (Run.succs dupBranchHeap.tasks idParams s).isEmpty = true ∧ s.panicked = false
          ∧ s.table = [("source", TaskRunState.SUCCESS), ("job_1", TaskRunState.SKIP),
                       ("job_2", TaskRunState.WAIT), ("sink", TaskRunState.SUCCESS)] := by
      decide
    obtain ⟨s, hs, hterm, hpan, htab⟩ := h
    exact ⟨s, reach_of_mem_after _ _ 4 _ s hs, List.isEmpty_iff.mp hterm, hpan, htab⟩
  · rintro ⟨s₀, hs₀, s, hs, hbad⟩
    have h : ∀ s₀ ∈ Run.starts dupBranchHeap.tasks (dupBranchHeap.dags 0),
        (Run.after dupBranchHeap.tasks idParams 5 s₀).isEmpty = true
          ∧ ∀ s ∈ Run.within dupBranchHeap.tasks idParams 5 s₀,
            ¬ (s.returned = true ∨ "job_2" ∈ s.ended) := by
      decide
    exact reach_check dupBranchHeap.tasks idParams
      (fun s => ¬ (s.returned = true ∨ "job_2" ∈ s.ended))
      s₀ 5 (h s₀ hs₀).1 (h s₀ hs₀).2 s hs hbad

set_option maxRecDepth 100000 in
/-- The graph in which `source` elects `sink` and `sink` returns a branch
target: there is a run that stops on the panic of `sink` with `source` in
state `SUCCESS` and the runner of `job_1` not ended. -/
theorem run_panic_branch :
    ∃ s, Run.Reach panicBranchHeap.tasks idParams (startOf panicBranchHeap 0) s
      ∧ Run.succs panicBranchHeap.tasks idParams s = [] ∧ s.panicked = true
      ∧ "job_1" ∉ s.ended
      ∧ s.table = [("source", TaskRunState.SUCCESS), ("job_1", TaskRunState.WAIT),
                   ("sink", TaskRunState.SUCCESS)] := by
  have h : ∃ s ∈ Run.after panicBranchHeap.tasks idParams 2 (startOf panicBranchHeap 0),
      (Run.succs panicBranchHeap.tasks idParams s).isEmpty = true ∧ s.panicked = true
        ∧ "job_1" ∉ s.ended
        ∧ s.table = [("source", TaskRunState.SUCCESS), ("job_1", TaskRunState.WAIT),
                     ("sink", TaskRunState.SUCCESS)] := by
    decide
  obtain ⟨s, hs, hterm, hpan, hj, htab⟩ := h
  exact ⟨s, reach_of_mem_after _ _ 2 _ s hs, List.isEmpty_iff.mp hterm, hpan, hj, htab⟩

set_option maxRecDepth 100000 in
/-- The graph with the cycle between `u` and `v` behind the successor that `b`
does not elect: in each order of the second pass, in no state that a run
reaches has the runner of `u` or of `v` ended; `Run` returns. -/
theorem run_cycle :
    (∃ s, Run.Reach cycleHeap.tasks idParams (startOf cycleHeap 0) s ∧ s.returned = true
        ∧ s.table = [("b", TaskRunState.SUCCESS), ("e", TaskRunState.SUCCESS),
                     ("u", TaskRunState.WAIT), ("v", TaskRunState.WAIT)])
      ∧ ¬ ∃ s₀ ∈ Run.starts cycleHeap.tasks (cycleHeap.dags 0),
          ∃ s, Run.Reach cycleHeap.tasks idParams s₀ s ∧ ("u" ∈ s.ended ∨ "v" ∈ s.ended) := by
  refine ⟨?_, ?_⟩
  · have h : ∃ s ∈ Run.after cycleHeap.tasks idParams 3 (startOf cycleHeap 0),
        s.returned = true
          ∧ s.table = [("b", TaskRunState.SUCCESS), ("e", TaskRunState.SUCCESS),
                       ("u", TaskRunState.WAIT), ("v", TaskRunState.WAIT)] := by
      decide
    obtain ⟨s, hs, hret, htab⟩ := h
    exact ⟨s, reach_of_mem_after _ _ 3 _ s hs, hret, htab⟩
  · rintro ⟨s₀, hs₀, s, hs, hbad⟩
    have h : ∀ s₀ ∈ Run.starts cycleHeap.tasks (cycleHeap.dags 0),
        (Run.after cycleHeap.tasks idParams 4 s₀).isEmpty = true
          ∧ ∀ s ∈ Run.within cycleHeap.tasks idParams 4 s₀,
            ¬ ("u" ∈ s.ended ∨ "v" ∈ s.ended) := by
      decide
    exact reach_check cycleHeap.tasks idParams
      (fun s => ¬ ("u" ∈ s.ended ∨ "v" ∈ s.ended))
      s₀ 4 (h s₀ hs₀).1 (h s₀ hs₀).2 s hs hbad

set_option maxRecDepth 100000 in
/-- C17 (the claim fails here). Four graphs built through `New`, `MakeTask`,
`SetUpstream` and `SetDownstream`, in each of which a task succeeds and elects
one successor. With the edges from `b` to `e`, from `b` to `u` and from `p` to
`e`, where `p` fails, the elected successor `e` never executes: every run
returns with `e` in state `RESIGN`. In the `branch_example` graph with the
edge from `job_1` to `job_2` set twice, `job_1` and `job_2` lie behind the
successor that `source` does not elect, and `job_2` never ends. Where the
elected `sink` returns a branch target, a run stops on its panic before
`job_1` has ended. With a cycle between `u` and `v` behind the successor that
`b` does not elect, `u` and `v` never end. -/
theorem skip_propagation_fails :
    ((electHeap.tasks 0).execFunc (idParams "b") = ("e", true, none)
        ∧ (electHeap.tasks 0).next = [2, 3] ∧ (electHeap.tasks 2).ID = "e"
        ∧ (∃ s, Run.Reach electHeap.tasks idParams (startOf electHeap 0) s
              ∧ s.returned = true)
        ∧ (∀ s₀ ∈ Run.starts electHeap.tasks (electHeap.dags 0),
            (Run.after electHeap.tasks idParams 7 s₀).isEmpty = true
              ∧ ∀ s, Run.Reach electHeap.tasks idParams s₀ s →
                ((Run.succs electHeap.tasks idParams s).isEmpty = true → s.returned = true)
                  ∧ (∀ c ∈ s.calls, c.1 ≠ "e")
                  ∧ (s.returned = true →
                      s.table = [("b", TaskRunState.SUCCESS), ("p", TaskRunState.FAIL),
                                 ("e", TaskRunState.RESIGN), ("u", TaskRunState.SKIP)])))
      ∧ (Reachable dupBranchHeap
          ∧ (dupBranchHeap.tasks 0).execFunc (idParams "source") = ("sink", true, none)
          ∧ (dupBranchHeap.tasks 1).next = [2, 2]
          ∧ BehindUnchosen dupBranchHeap.tasks (startOf dupBranchHeap 0).nodes "source"
              (dupBranchHeap.tasks 0).next "sink" ["job_1", "job_2"]
          ∧ (∃ s, Run.Reach dupBranchHeap.tasks idParams (startOf dupBranchHeap 0) s
              ∧ Run.succs dupBranchHeap.tasks idParams s = [] ∧ s.panicked = false
              ∧ s.table = [("source", TaskRunState.SUCCESS), ("job_1", TaskRunState.SKIP),
                           ("job_2", TaskRunState.WAIT), ("sink", TaskRunState.SUCCESS)])
          ∧ ¬ ∃ s₀ ∈ Run.starts dupBranchHeap.tasks (dupBranchHeap.dags 0),
              ∃ s, Run.Reach dupBranchHeap.tasks idParams s₀ s
                ∧ (s.returned = true ∨ "job_2" ∈ s.ended))
      ∧ (Reachable panicBranchHeap
          ∧ (panicBranchHeap.tasks 0).execFunc (idParams "source") = ("sink", true, none)
          ∧ (panicBranchHeap.tasks 2).execFunc (idParams "sink") = ("x", true, none)
          ∧ BehindUnchosen panicBranchHeap.tasks (startOf panicBranchHeap 0).nodes "source"
              (panicBranchHeap.tasks 0).next "sink" ["job_1"]
          ∧ ∃ s, Run.Reach panicBranchHeap.tasks idParams (startOf panicBranchHeap 0) s
              ∧ Run.succs panicBranchHeap.tasks idParams s = [] ∧ s.panicked = true
              ∧ "job_1" ∉ s.ended
              ∧ s.table = [("source", TaskRunState.SUCCESS), ("job_1", TaskRunState.WAIT),
                           ("sink", TaskRunState.SUCCESS)])
      ∧ (Reachable cycleHeap
          ∧ (cycleHeap.tasks 0).execFunc (idParams "b") = ("e", true, none)
          ∧ (cycleHeap.tasks 2).next = [3] ∧ (cycleHeap.tasks 3).next = [2]
          ∧ BehindUnchosen cycleHeap.tasks (startOf cycleHeap 0).nodes "b"
              (cycleHeap.tasks 0).next "e" ["u", "v"]
          ∧ (∃ s, Run.Reach cycleHeap.tasks idParams (startOf cycleHeap 0) s
              ∧ s.returned = true
              ∧ s.table = [("b", TaskRunState.SUCCESS), ("e", TaskRunState.SUCCESS),
                           ("u", TaskRunState.WAIT), ("v", TaskRunState.WAIT)])
          ∧ ¬ ∃ s₀ ∈ Run.starts cycleHeap.tasks (cycleHeap.dags 0),
              ∃ s, Run.Reach cycleHeap.tasks idParams s₀ s
                ∧ ("u" ∈ s.ended ∨ "v" ∈ s.ended)) :=
  ⟨⟨rfl, by decide, by decide, run_elect.1, run_elect.2⟩,
   ⟨reachable_dupBranchHeap, rfl, by decide, by decide, run_dup_branch.1,
    run_dup_branch.2⟩,
   ⟨reachable_panicBranchHeap, rfl, rfl, by decide, run_panic_branch⟩,
   ⟨reachable_cycleHeap, rfl, by decide, by decide, by decide, run_cycle.1, run_cycle.2⟩⟩

/-- C17 (amended). Take a run started with nothing sent in a graph that is
wired one channel per edge and acyclic, a runner under `bid` whose `execFunc`
returns a non-empty branch target, and keys `region` that lie behind endpoints
this runner does not elect. Every run is finite. While the runner under `bid`
has not ended in another state than `SUCCESS`, no runner with a key in
`region` calls `execFunc`. When a run has come to a stop without a panic and
with the runner under `bid` in state `SUCCESS`, every runner with a key in
`region` has ended and is in state `SKIP`, and every runner that hears only
from the election has ended and has called its `execFunc`. For the
`branch_example` graph of main.go, in each order of the second pass, every run
ends with `Run` returned, with `source` and `sink` in state `SUCCESS` and
`job_1` and `job_2` in state `SKIP`, after calls of the `execFunc` of `source`
and `sink` only. -/
theorem skip_propagates {Ctx : Type} (store : Store Ctx) (params : String → Ctx)
    (s₀ : RunState Ctx) (rank : String → Nat) (bid : String) (trB : TaskRun)
    (region : List String)
    (hstart : s₀.pending = [] ∧ s₀.ended = [] ∧ s₀.calls = [])
    (hwired : WellWired s₀.nodes rank)
    (hB : List.lookup bid s₀.nodes = some trB)
    (htarget : ((store trB.task).execFunc (params bid)).1 ≠ "")
    (hregion : BehindUnchosen store s₀.nodes bid (store trB.task).next
      ((store trB.task).execFunc (params bid)).1 region) :
    (∀ n, s₀.left < n → Run.after store params n s₀ = [])
      ∧ (∀ s, Run.Reach store params s₀ s →
          (bid ∈ s.ended →
            ∃ tr, List.lookup bid s.nodes = some tr ∧ tr.state = TaskRunState.SUCCESS) →
          ∀ c ∈ s.calls, c.1 ∉ region)
      ∧ (∀ s, Run.Reach store params s₀ s → Run.succs store params s = [] →
          s.panicked = false →
          (∃ tr, List.lookup bid s.nodes = some tr ∧ tr.state = TaskRunState.SUCCESS) →
          (∀ id ∈ region, id ∈ s₀.nodes.map (fun e => e.1) →
              id ∈ s.ended
                ∧ ∃ tr, List.lookup id s.nodes = some tr ∧ tr.state = TaskRunState.SKIP)
            ∧ (∀ eid, FedByElection store s₀.nodes bid (store trB.task).next
                  ((store trB.task).execFunc (params bid)).1 eid →
                eid ∈ s₀.nodes.map (fun e => e.1) →
                eid ∈ s.ended ∧ (eid, params eid) ∈ s.calls))
      ∧ (∀ m₀ ∈ Run.starts mainHeap.tasks (mainHeap.dags 0),
          (Run.after mainHeap.tasks idParams 7 m₀).isEmpty = true
            ∧ ∀ s, Run.Reach mainHeap.tasks idParams m₀ s →
              ((Run.succs mainHeap.tasks idParams s).isEmpty = true → s.returned = true)
                ∧ (s.returned = true →
                    s.table = [("source", TaskRunState.SUCCESS),
                               ("job_1", TaskRunState.SKIP), ("job_2", TaskRunState.SKIP),
                               ("sink", TaskRunState.SUCCESS)]
                      ∧ s.calls = [("source", "source"), ("sink", "sink")])) := by
  refine ⟨fun n hn => after_nil_of_left store params n s₀ hn, ?_, ?_, run_branch_example⟩
  · intro s hr hcond
    exact (skip_region_safe store params s₀ bid trB region hstart hB htarget hregion s hr
      hcond).1
  · intro s hr hterm hpan hsucc
    have hall := terminal_all_ended store params s₀ rank hstart hwired s hr hterm hpan
    have hK := (wired_invariant store params s₀ rank hstart hwired s hr).1
    have hcond : bid ∈ s.ended →
        ∃ tr, List.lookup bid s.nodes = some tr ∧ tr.state = TaskRunState.SUCCESS :=
      fun _ => hsucc
    have hsafe := skip_region_safe store params s₀ bid trB region hstart hB htarget hregion
      s hr hcond
    refine ⟨?_, ?_⟩
    · intro id hid hkey
      have hended := hall id hkey
      obtain ⟨tr, hl⟩ := lookup_some_of_key s.nodes id (by rw [hK]; exact hkey)
      exact ⟨hended, tr, hl, hsafe.2 id hid hended tr hl⟩
    · intro eid hfed hkey
      have hended := hall eid hkey
      exact ⟨hended, elected_only_executes store params s₀ bid trB eid hstart hB htarget
        hfed s hr hcond hended⟩

set_option maxRecDepth 100000 in
/-- C17, at the `branch_example` graph of main.go, which `Run` wires one
channel per edge in each order of the second pass: `job_1` and `job_2` lie
behind the endpoint that `source` does not elect, and `sink` hears only from
the election. In a run that has come to a stop, with `Run` returned, `job_1`
and `job_2` have ended in state `SKIP` without a call, and `sink` has ended
and has called its `execFunc`. -/
theorem skip_propagates_witness :
    (∀ m₀ ∈ Run.starts mainHeap.tasks (mainHeap.dags 0), WellWired m₀.nodes branchRank)
      ∧ WellWired (startOf mainHeap 0).nodes branchRank
      ∧ BehindUnchosen mainHeap.tasks (startOf mainHeap 0).nodes "source"
          (mainHeap.tasks 0).next "sink" ["job_1", "job_2"]
      ∧ FedByElection mainHeap.tasks (startOf mainHeap 0).nodes "source"
          (mainHeap.tasks 0).next "sink" "sink"
      ∧ ∃ s, Run.Reach mainHeap.tasks idParams (startOf mainHeap 0) s
          ∧ Run.succs mainHeap.tasks idParams s = [] ∧ s.returned = true
          ∧ (∀ c ∈ s.calls, c.1 ∉ ["job_1", "job_2"])
          ∧ (∀ id ∈ ["job_1", "job_2"],
              id ∈ s.ended
                ∧ ∃ tr, List.lookup id s.nodes = some tr ∧ tr.state = TaskRunState.SKIP)
          ∧ "sink" ∈ s.ended ∧ ("sink", "sink") ∈ s.calls := by
  have h : ∃ s ∈ Run.after mainHeap.tasks idParams 6 (startOf mainHeap 0),
      (Run.succs mainHeap.tasks idParams s).isEmpty = true ∧ s.panicked = false
        ∧ s.returned = true
        ∧ (List.lookup "source" s.nodes).map (fun tr => tr.state)
          = some TaskRunState.SUCCESS := by
    decide
  obtain ⟨s, hs, hterm, hpan, hret, hsrc⟩ := h
  have hr := reach_of_mem_after mainHeap.tasks idParams 6 _ s hs
  have hsucc : ∃ tr, List.lookup "source" s.nodes = some tr
      ∧ tr.state = TaskRunState.SUCCESS := by
    cases hl : List.lookup "source" s.nodes with
    | none =>
      rw [hl] at hsrc
      exact absurd hsrc (by simp)
    | some tr =>
      rw [hl] at hsrc
      exact ⟨tr, rfl, Option.some.inj hsrc⟩
  have hmain := skip_propagates mainHeap.tasks idParams (startOf mainHeap 0) branchRank
    "source" { task := 0, ins := [], outs := [some 1, some 3], state := TaskRunState.WAIT }
    ["job_1", "job_2"] (by decide) (by decide) (by decide) (by decide) (by decide)
  have hstop := hmain.2.2.1 s hr (List.isEmpty_iff.mp hterm) hpan hsucc
  have hkeys : ∀ id ∈ ["job_1", "job_2"],
      id ∈ (startOf mainHeap 0).nodes.map (fun e => e.1) := by decide
  have hsink := hstop.2 "sink" (by decide) (by decide)
  exact ⟨by decide, by decide, by decide, by decide, s, hr, List.isEmpty_iff.mp hterm,
    hret, hmain.2.1 s hr (fun _ => hsucc), fun id hid => hstop.1 id hid (hkeys id hid),
    hsink.1, hsink.2⟩

set_option maxRecDepth 100000 in
/-- C18 (the code fails here). For the graph with the edge from `a` to `b` set
twice, built through `New`, `MakeTask` and `SetUpstream`, the second pass of
`Run`, in each order, gives `b` the inbound endpoints 1 and 2 and installs
endpoint 2 in both outbound slots of `a`: the channel in `ins[0]` is in no
outbound slot, the channel in `ins[1]` is in two, and the two edges share a
channel. For the memory of `asymHeap` after `x.SetDownstream(y)` across two
Dags, the outbound slot of `x` is left nil. -/
theorem duplicate_edge_wiring :
    Reachable dupHeap
      ∧ (dupHeap.tasks 0).next = [1, 1] ∧ (dupHeap.tasks 1).prior = [0, 0]
      ∧ (∀ ids ∈ orders ((Run.newNodes dupHeap.tasks (dupHeap.dags 0)).map (fun e => e.1)),
          Run.buildIn dupHeap.tasks (dupHeap.dags 0) ids
            = some { nodes := [("a", { task := 0, ins := [], outs := [some 2, some 2],
                                       state := TaskRunState.WAIT }),
                               ("b", { task := 1, ins := [some 1, some 2],
                                       outs := [Run.endChan],
                                       state := TaskRunState.WAIT })],
                     fresh := 3, endCount := 1 })
      ∧ (Task.SetDownstream asymHeap 0 2).1 = none
      ∧ Run.build (Task.SetDownstream asymHeap 0 2).2.tasks
            ((Task.SetDownstream asymHeap 0 2).2.dags 0)
          = some { nodes := [("x", { task := 0, ins := [], outs := [none],
                                     state := TaskRunState.WAIT }),
                             ("y", { task := 1, ins := [], outs := [Run.endChan],
                                     state := TaskRunState.WAIT })],
                   fresh := 1, endCount := 1 } :=
  ⟨reachable_dupHeap, by decide, by decide, by decide, by decide, by decide⟩

set_option maxRecDepth 100000 in
/-- C19 (the code fails here). After `n.SetUpstream(up)` with `n` the task `a`
of `d1` and `up` the task `a` of `d2`, which returns nil, the only task of
`d1` has no successors, and `Run` on `d1` leaves it one outbound endpoint that
is not the completion channel but the channel of its own inbound endpoint:
the assignment `dr.nodes[pt.ID].outs[k] = ch` has overwritten the completion
endpoint. `Run` waits for one completion signal that no runner can send. -/
theorem cross_dag_edge_takes_completion_slot :
    Reachable crossEdgeHeap
      ∧ (Task.SetUpstream crossHeap 0 1).1 = none
      ∧ (crossEdgeHeap.dags 0).Tasks = [0]
      ∧ (crossEdgeHeap.tasks 0).next = []
      ∧ Run.build crossEdgeHeap.tasks (crossEdgeHeap.dags 0)
          = some { nodes := [("a", { task := 0, ins := [some 1], outs := [some 1],
                                     state := TaskRunState.WAIT })],
                   fresh := 2, endCount := 1 }
      ∧ Run.endChan ≠ some 1
      ∧ (∀ s₀ ∈ Run.starts crossEdgeHeap.tasks (crossEdgeHeap.dags 0),
          s₀.nodes = [("a", { task := 0, ins := [some 1], outs := [some 1],
                              state := TaskRunState.WAIT })]
            ∧ s₀.endCount = 1
            ∧ (Run.after crossEdgeHeap.tasks idParams 1 s₀).isEmpty = true
            ∧ s₀.returned = false) :=
  ⟨reachable_crossEdgeHeap, by decide, by decide, by decide, by decide, by decide,
   by decide⟩

end Pipeline
